import Mathlib

/-!
# A shallow embedding of the malloc-based doubly linked list (`src/src/lib.c`)

Memory model.  Nodes live in a heap, a list of cells indexed by address; a
cell is `some node` while the node is allocated and `none` once it has been
released.  A pointer is an `Option Nat` (`none` is `NULL`).  Every operation
returns `Option (Ret _)`: the outer `none` stands for undefined behaviour of
the C program (a load or store through a null, dangling or wild pointer, or
a double release); `some r` carries the returned status, the memory after
the call, the list object after the call and the value stored through the
out-pointer, if any.

An element is the block of `data_size` bytes the caller points at; it is
modelled by its value, a natural number, and `memcpy` of that block copies
the value.  A node is requested with `sizeof(struct ll_LinkedListNode)`
bytes, which has no room for the flexible member `data[]`; the copies of
`data_size` bytes to and from `node->data` are therefore defined only as far
as the block the allocator hands out reaches (`copy_in_block`), and
undefined beyond it.

`u32` fields are natural numbers, the arithmetic on them is taken modulo
`2^32`, and the cast `(int)self->len` is the two's complement reading.

`malloc` is modelled as an allocator that never runs out of memory and
hands out a fresh address, with blocks of the sizes the allocator of the
64-bit test platform uses; the branches of the code that react to a null
result are kept in the embedding.
-/

namespace LinkedList

/-- The status codes of `inc/lib.h`. -/
inductive ll_Error
  | LL_OK
  | LL_ERROR_NULL_LINKED_LIST_POINTER
  | LL_ERROR_NULL_ELEMENT_POINTER
  | LL_ERROR_NULL_NODE_POINTER
  | LL_ERROR_EMPTY_LINKED_LIST
  | LL_ERROR_INDEX_OUT_OF_BOUNDS
  | LL_ERROR_INIT_FAILURE
  | LL_ERROR_MALLOC_FAILURE
  | LL_ERROR_INSUFFICIENT_SIZE
  | LL_ERROR_INTERNAL
  deriving DecidableEq, Repr

open ll_Error

/-- The node record `struct ll_LinkedListNode`: two links and the element. -/
structure ll_LinkedListNode where
  next : Option Nat
  prev : Option Nat
  data : Nat
  deriving DecidableEq, Repr

/-- The list header `ll_LinkedList`. -/
structure ll_LinkedList where
  head : Option Nat
  tail : Option Nat
  data_size : Nat
  len : Nat
  deriving DecidableEq, Repr

/-- The node heap: cell `a` is `some n` while address `a` holds a live node. -/
abbrev Heap := List (Option ll_LinkedListNode)

/-- Outcome of a call: status, memory and list object afterwards, and the
value stored through the out-pointer (`none` when nothing was stored). -/
structure Ret (β : Type) where
  status : ll_Error
  heap : Heap
  self : Option ll_LinkedList
  out : Option β
  deriving DecidableEq, Repr

/-- The C increment `x++` on a `u32`. -/
def u32_inc (n : Nat) : Nat := (n + 1) % 4294967296

/-- The C decrement `x--` on a `u32`. -/
def u32_dec (n : Nat) : Nat := (n + 4294967295) % 4294967296

/-- The cast `(int)x` of a `u32` (two's complement). -/
def toInt (n : Nat) : Int :=
  if n % 4294967296 < 2147483648 then ((n % 4294967296 : Nat) : Int)
  else ((n % 4294967296 : Nat) : Int) - 4294967296

/-- The conversion of an `int` to `u32` that C applies in mixed arithmetic. -/
def toU32 (i : Int) : Nat := (i % 4294967296).toNat

/-- The value of `sizeof(struct ll_LinkedListNode)` (lib.h 14-18) for
pointers of `ptr_size` bytes: the two links; the flexible array member
`data[]` adds nothing to the size of the structure. -/
def sizeof_node (ptr_size : Nat) : Nat := 2 * ptr_size

/-- The value of `offsetof(struct ll_LinkedListNode, data)`: `data` comes
right after the two links. -/
def offsetof_data (ptr_size : Nat) : Nat := 2 * ptr_size

/-- The number of bytes `ll_push`, `ll_push_front` and `ll_insert` request
for a new node, `malloc(sizeof(struct ll_LinkedListNode))` (lib.c 109, 119,
148, 293); it does not depend on `data_size`. -/
def node_alloc_bytes (ptr_size : Nat) (_data_size : Nat) : Nat := sizeof_node ptr_size

/-- The offset, from the start of the node, one past the last byte that
`memcpy(node->data, elem, self->data_size)` stores (lib.c 114, 124, 152,
297). -/
def node_copy_end (ptr_size : Nat) (data_size : Nat) : Nat := offsetof_data ptr_size + data_size

/-- The size of a pointer in bytes on the 64-bit platform the tests are
built for. -/
def ptr_bytes : Nat := 8

/-- The number of bytes that can be used of the block `malloc(size)`
returns.  The C standard promises `size` bytes and no more; the allocator
of the platform the tests run on (glibc, 64 bit) hands out blocks of 24,
40, 56, .. bytes, the smallest of them that holds `size`. -/
def malloc_usable_size (size : Nat) : Nat := max 24 ((size + 8 + 15) / 16 * 16 - 8)

/-- Whether a copy of `data_size` bytes to or from `node->data` stays inside
the block of the node: the block was requested with
`sizeof(struct ll_LinkedListNode)` bytes and the copy ends at offset
`node_copy_end`.  A copy that leaves the block is undefined behaviour. -/
def copy_in_block (data_size : Nat) : Bool :=
  decide (node_copy_end ptr_bytes data_size ≤
    malloc_usable_size (node_alloc_bytes ptr_bytes data_size))

/-- Load of the node at address `a`; `none` when `a` is not a live node. -/
def read (h : Heap) (a : Nat) : Option ll_LinkedListNode := (h[a]?).join

/-- Store of a whole node at address `a`; `none` when `a` is not live. -/
def write (h : Heap) (a : Nat) (n : ll_LinkedListNode) : Option Heap :=
  match read h a with
  | none => none
  | some _ => some (h.set a (some n))

/-- The store `a->next = p`. -/
def set_next (h : Heap) (a : Nat) (p : Option Nat) : Option Heap :=
  match read h a with
  | none => none
  | some n => some (h.set a (some { n with next := p }))

/-- The store `a->prev = p`. -/
def set_prev (h : Heap) (a : Nat) (p : Option Nat) : Option Heap :=
  match read h a with
  | none => none
  | some n => some (h.set a (some { n with prev := p }))

/-- The store `memcpy(a->data, elem, data_size)` of the element `v` into a
node of a list with element size `data_size`: undefined when the node is
not live or the `data_size` bytes do not lie inside its block. -/
def set_data (h : Heap) (a : Nat) (data_size : Nat) (v : Nat) : Option Heap :=
  if copy_in_block data_size then
    match read h a with
    | none => none
    | some n => some (h.set a (some { n with data := v }))
  else none

/-- The copy `memcpy(out_elem, a->data, data_size)` out of a node of a list
with element size `data_size`; the result is the value that arrives at
`out_elem`.  Undefined when the node is not live or the `data_size` bytes do
not lie inside its block. -/
def copy_out (h : Heap) (a : Nat) (data_size : Nat) : Option (Option Nat) :=
  if copy_in_block data_size then (read h a).map (fun n => some n.data) else none

/-- The stores that fill the fresh node `p` of a list with element size
`data_size`: the two links and `memcpy(p->data, elem, data_size)`; `n` is
the node they produce.  Undefined when the `data_size` bytes do not lie
inside the block of the node. -/
def init_node (h : Heap) (p : Nat) (data_size : Nat) (n : ll_LinkedListNode) : Option Heap :=
  if copy_in_block data_size then write h p n else none

/-- The call `malloc(size)`: a fresh address whose cell holds unspecified
contents (zeros here), or `none` for a null result.  The allocator of the
model always succeeds; the bytes the block has are
`malloc_usable_size size`. -/
def malloc (h : Heap) (_size : Nat) : Option (Nat × Heap) :=
  some (h.length, h ++ [some ⟨none, none, 0⟩])

/-- The call `free(p)`: no effect on a null pointer, releases a live node,
undefined on anything else. -/
def free (h : Heap) (p : Option Nat) : Option Heap :=
  match p with
  | none => some h
  | some a =>
    match read h a with
    | none => none
    | some _ => some (h.set a none)

/-- Modelled from the spec: the macro `ERROR_RETURN` of `common_macros.h`,
which is not part of the sources at hand; it logs and makes the enclosing
function return the given status. -/
def ERROR_RETURN {β : Type} (e : ll_Error) (h : Heap) (self : Option ll_LinkedList)
    (out : Option β) : Option (Ret β) :=
  some ⟨e, h, self, out⟩

/-- Modelled from the spec: the macro `EXPECT_PASS` of `common_macros.h`,
which is not part of the sources at hand; a call-and-propagate-on-failure
wrapper: when the call does not return `LL_OK` the enclosing function returns
that status, otherwise execution continues after the call. -/
def EXPECT_PASS {β : Type} (r : Option (Ret β)) (k : Ret β → Option (Ret β)) :
    Option (Ret β) :=
  match r with
  | none => none
  | some r => if r.status = LL_OK then k r else some r

/-- Modelled from the spec: the macro `EXPECT_S` of `common_macros.h`, which
is not part of the sources at hand; a call-and-propagate-on-failure wrapper
around a function with an out-parameter: when the call does not return
`LL_OK` the enclosing function returns that status, otherwise the expression
has the value the call stored through its out-parameter. -/
def EXPECT_S {α β : Type} (r : Option (Ret α)) (k : α → Option (Ret β)) :
    Option (Ret β) :=
  match r with
  | none => none
  | some r =>
    if r.status = LL_OK then
      match r.out with
      | none => none
      | some v => k v
    else some ⟨r.status, r.heap, r.self, none⟩

/-- The function `ll_new` (lib.c 12-20): a header with no nodes. -/
def ll_new (data_size : Nat) : Option ll_LinkedList :=
  some ⟨none, none, data_size, 0⟩

/-- The function `ll_is_empty` (lib.c 45-49). -/
def ll_is_empty (self : Option ll_LinkedList) : Bool :=
  match self with
  | none => false
  | some l => l.head == none && l.tail == none && l.len == 0

/-- The function `has_valid_head_tail_state` (lib.c 53-67).  The test `self->len < 0` is
never true of a `u32`. -/
def has_valid_head_tail_state (h : Heap) (self : Option ll_LinkedList) :
    Option (Ret Bool) :=
  match self with
  | none => some ⟨LL_ERROR_NULL_LINKED_LIST_POINTER, h, none, none⟩
  | some l =>
    let out1 : Bool := if l.len == 1 && (l.head != l.tail || l.head == none) then false else true
    let c2 : Option Bool :=
      if l.len != 1 then
        match l.head with
        | none => some false
        | some a => (read h a).map (fun n => n.prev != none)
      else some false
    let c3 : Option Bool :=
      if l.len != 1 then
        match l.tail with
        | none => some false
        | some a => (read h a).map (fun n => n.next != none)
      else some false
    match c2, c3 with
    | some b2, some b3 =>
      some ⟨LL_OK, h, self, some (if b3 then false else if b2 then false else out1)⟩
    | _, _ => none

/-- The function `is_index_within_get_bounds` (lib.c 70-79). -/
def is_index_within_get_bounds (h : Heap) (self : Option ll_LinkedList) (index : Int) :
    Option (Ret Bool) :=
  match self with
  | none => some ⟨LL_ERROR_NULL_LINKED_LIST_POINTER, h, none, none⟩
  | some l =>
    some ⟨LL_OK, h, self, some (if index < 0 ∨ index ≥ toInt l.len then false else true)⟩

/-- The function `is_index_within_insert_bounds` (lib.c 83-92). -/
def is_index_within_insert_bounds (h : Heap) (self : Option ll_LinkedList) (index : Int) :
    Option (Ret Bool) :=
  match self with
  | none => some ⟨LL_ERROR_NULL_LINKED_LIST_POINTER, h, none, none⟩
  | some l =>
    some ⟨LL_OK, h, self, some (if index < 0 ∨ index > toInt l.len then false else true)⟩

/-- The function `ll_push` (lib.c 101-131). -/
def ll_push (h : Heap) (self : Option ll_LinkedList) (elem : Option Nat) :
    Option (Ret Nat) :=
  match self with
  | none => some ⟨LL_ERROR_NULL_LINKED_LIST_POINTER, h, none, none⟩
  | some l =>
  match elem with
  | none => some ⟨LL_ERROR_NULL_ELEMENT_POINTER, h, self, none⟩
  | some v =>
  EXPECT_S (has_valid_head_tail_state h self) fun ok =>
  if !ok then ERROR_RETURN LL_ERROR_INTERNAL h self none else
  if ll_is_empty self then
    match l.head with
    | some _ => ERROR_RETURN LL_ERROR_INTERNAL h self none
    | none =>
      match malloc h (node_alloc_bytes ptr_bytes l.data_size) with
      | none => ERROR_RETURN LL_ERROR_MALLOC_FAILURE h self none
      | some (p, h1) =>
        match init_node h1 p l.data_size ⟨none, none, v⟩ with
        | none => none
        | some h2 =>
          some ⟨LL_OK, h2, some { l with head := some p, tail := some p, len := u32_inc l.len }, none⟩
  else
    match l.head, l.tail with
    | some _, some t =>
      match malloc h (node_alloc_bytes ptr_bytes l.data_size) with
      | none =>
        match set_next h t none with
        | none => none
        | some h1 => ERROR_RETURN LL_ERROR_MALLOC_FAILURE h1 self none
      | some (p, h1) =>
        match set_next h1 t (some p) with
        | none => none
        | some h2 =>
          match init_node h2 p l.data_size ⟨none, some t, v⟩ with
          | none => none
          | some h3 =>
            some ⟨LL_OK, h3, some { l with tail := some p, len := u32_inc l.len }, none⟩
    | _, _ => ERROR_RETURN LL_ERROR_INTERNAL h self none

/-- The function `ll_push_front` (lib.c 139-161). -/
def ll_push_front (h : Heap) (self : Option ll_LinkedList) (elem : Option Nat) :
    Option (Ret Nat) :=
  match self with
  | none => some ⟨LL_ERROR_NULL_LINKED_LIST_POINTER, h, none, none⟩
  | some l =>
  match elem with
  | none => some ⟨LL_ERROR_NULL_ELEMENT_POINTER, h, self, none⟩
  | some v =>
  if ll_is_empty self then
    EXPECT_PASS (ll_push h self elem) fun r => some ⟨LL_OK, r.heap, r.self, none⟩
  else
    EXPECT_S (has_valid_head_tail_state h self) fun ok =>
    if !ok then ERROR_RETURN LL_ERROR_INTERNAL h self none else
    match l.head with
    | none => none
    | some hd =>
      match malloc h (node_alloc_bytes ptr_bytes l.data_size) with
      | none =>
        match set_prev h hd none with
        | none => none
        | some h1 => ERROR_RETURN LL_ERROR_MALLOC_FAILURE h1 self none
      | some (p, h1) =>
        match set_prev h1 hd (some p) with
        | none => none
        | some h2 =>
          match init_node h2 p l.data_size ⟨some hd, none, v⟩ with
          | none => none
          | some h3 =>
            some ⟨LL_OK, h3, some { l with head := some p, len := u32_inc l.len }, none⟩

/-- The common end of `ll_pop` and `ll_pop_front` (lib.c 189-193 and 220-224):
the test of `len`, the decrement and the release of the unlinked node.
`h` and `l` are memory and header after the unlinking. -/
def pop_finish (h : Heap) (l : ll_LinkedList) (node : Option Nat) (out : Option Nat) :
    Option (Ret Nat) :=
  if l.len = 0 then ERROR_RETURN LL_ERROR_INTERNAL h (some l) out else
  match free h node with
  | none => none
  | some h1 => some ⟨LL_OK, h1, some { l with len := u32_dec l.len }, out⟩

/-- The function `ll_pop` (lib.c 169-194); `out_elem` tells whether the out-pointer is
non-null. -/
def ll_pop (h : Heap) (self : Option ll_LinkedList) (out_elem : Bool) :
    Option (Ret Nat) :=
  match self with
  | none => some ⟨LL_ERROR_NULL_LINKED_LIST_POINTER, h, none, none⟩
  | some l =>
  if ll_is_empty self then some ⟨LL_ERROR_EMPTY_LINKED_LIST, h, self, none⟩ else
  match l.head, l.tail with
  | some hd, some tl =>
    EXPECT_S (has_valid_head_tail_state h self) fun ok =>
    if !ok then ERROR_RETURN LL_ERROR_INTERNAL h self none else
    match (if out_elem then copy_out h tl l.data_size else some none) with
    | none => none
    | some out =>
      if hd = tl then
        pop_finish h { l with head := none, tail := none } (some tl) out
      else
        match read h tl with
        | none => none
        | some n =>
          if n.prev = some tl then ERROR_RETURN LL_ERROR_INTERNAL h self out else
          match n.prev with
          | none => none
          | some p =>
            match set_next h p none with
            | none => none
            | some h1 => pop_finish h1 { l with tail := some p } (some tl) out
  | _, _ => ERROR_RETURN LL_ERROR_INTERNAL h self none

/-- The function `ll_pop_front` (lib.c 202-225). -/
def ll_pop_front (h : Heap) (self : Option ll_LinkedList) (out_elem : Bool) :
    Option (Ret Nat) :=
  match self with
  | none => some ⟨LL_ERROR_NULL_LINKED_LIST_POINTER, h, none, none⟩
  | some l =>
  if ll_is_empty self then some ⟨LL_ERROR_EMPTY_LINKED_LIST, h, self, none⟩ else
  match (if out_elem then
           match l.head with
           | none => none
           | some hd => copy_out h hd l.data_size
         else some none) with
  | none => none
  | some out =>
    if l.head = l.tail then
      pop_finish h { l with head := none, tail := none } l.head out
    else
      match l.head with
      | none => ERROR_RETURN LL_ERROR_INTERNAL h self out
      | some hd =>
        match read h hd with
        | none => none
        | some n =>
          match n.next with
          | none => none
          | some nx =>
            match set_prev h nx none with
            | none => none
            | some h1 => pop_finish h1 { l with head := some nx } (some hd) out

/-- The loop from head of `iterate_to` (lib.c 252-254): `k` is the value of
`index`, counted down to the `break` at zero.  The result is `target` after
the loop together with the number of links followed. -/
def walk_next (h : Heap) : Option Nat → Nat → Nat → Option (Option Nat × Nat)
  | none, _, hops => some (none, hops)
  | some a, 0, hops => some (some a, hops)
  | some a, k + 1, hops =>
    match read h a with
    | none => none
    | some n => walk_next h n.next k (hops + 1)

/-- The loop from tail of `iterate_to` (lib.c 247-249): `d` is the value of
`self->len - ++index` at the first test; every further round finds it one
smaller, and the loop breaks when it is zero. -/
def walk_prev (h : Heap) : Option Nat → Nat → Nat → Option (Option Nat × Nat)
  | none, _, hops => some (none, hops)
  | some a, 0, hops => some (some a, hops)
  | some a, d + 1, hops =>
    match read h a with
    | none => none
    | some n => walk_prev h n.prev d (hops + 1)

/-- The traversal of `iterate_to` (lib.c 243-255), entered once the index is
known to be within bounds: the choice of the end to start from and the walk.
Returns `target` and the number of links followed. -/
def iterate_walk (h : Heap) (l : ll_LinkedList) (index : Int) : Option (Option Nat × Nat) :=
  if toInt l.len - index < index then
    walk_prev h l.tail ((l.len + 4294967296 - toU32 (index + 1)) % 4294967296) 0
  else
    walk_next h l.head index.toNat 0

/-- The function `iterate_to` (lib.c 236-260); `out_node` tells whether the out-pointer
is non-null. -/
def iterate_to (h : Heap) (self : Option ll_LinkedList) (out_node : Bool) (index : Int) :
    Option (Ret Nat) :=
  match self with
  | none => some ⟨LL_ERROR_NULL_LINKED_LIST_POINTER, h, none, none⟩
  | some l =>
  if !out_node then some ⟨LL_ERROR_NULL_NODE_POINTER, h, self, none⟩ else
  if ll_is_empty self then some ⟨LL_ERROR_EMPTY_LINKED_LIST, h, self, none⟩ else
  EXPECT_S (is_index_within_get_bounds h self index) fun inb =>
  if !inb then some ⟨LL_ERROR_INDEX_OUT_OF_BOUNDS, h, self, none⟩ else
  EXPECT_S (has_valid_head_tail_state h self) fun ok =>
  if !ok then ERROR_RETURN LL_ERROR_INTERNAL h self none else
  match iterate_walk h l index with
  | none => none
  | some (none, _) => ERROR_RETURN LL_ERROR_INTERNAL h self none
  | some (some t, _) => some ⟨LL_OK, h, self, some t⟩

/-- The function `ll_insert` (lib.c 272-304). -/
def ll_insert (h : Heap) (self : Option ll_LinkedList) (index : Int) (elem : Option Nat) :
    Option (Ret Nat) :=
  match self with
  | none => some ⟨LL_ERROR_NULL_LINKED_LIST_POINTER, h, none, none⟩
  | some l =>
  match elem with
  | none => some ⟨LL_ERROR_NULL_ELEMENT_POINTER, h, self, none⟩
  | some v =>
  EXPECT_S (is_index_within_insert_bounds h self index) fun inb =>
  if !inb then some ⟨LL_ERROR_INDEX_OUT_OF_BOUNDS, h, self, none⟩ else
  if l.len = 0 ∨ index = toInt l.len then
    EXPECT_PASS (ll_push h self elem) fun r => some ⟨LL_OK, r.heap, r.self, none⟩
  else if index = 0 then
    EXPECT_PASS (ll_push_front h self elem) fun r => some ⟨LL_OK, r.heap, r.self, none⟩
  else
    match iterate_to h self true index with
    | none => none
    | some r =>
      if r.status ≠ LL_OK then ERROR_RETURN LL_ERROR_INTERNAL h self none else
      match r.out with
      | none => ERROR_RETURN LL_ERROR_INTERNAL h self none
      | some t =>
        match malloc h (node_alloc_bytes ptr_bytes l.data_size) with
        | none => ERROR_RETURN LL_ERROR_MALLOC_FAILURE h self none
        | some (p, h1) =>
          match read h1 t with
          | none => none
          | some n =>
            match init_node h1 p l.data_size ⟨some t, n.prev, v⟩ with
            | none => none
            | some h2 =>
              match set_prev h2 t (some p) with
              | none => none
              | some h3 => some ⟨LL_OK, h3, some { l with len := u32_inc l.len }, none⟩

/-- The function `ll_set` (lib.c 314-328). -/
def ll_set (h : Heap) (self : Option ll_LinkedList) (index : Int) (elem : Option Nat) :
    Option (Ret Nat) :=
  match self with
  | none => some ⟨LL_ERROR_NULL_LINKED_LIST_POINTER, h, none, none⟩
  | some l =>
  match elem with
  | none => some ⟨LL_ERROR_NULL_ELEMENT_POINTER, h, self, none⟩
  | some v =>
  EXPECT_S (is_index_within_get_bounds h self index) fun inb =>
  if !inb then some ⟨LL_ERROR_INDEX_OUT_OF_BOUNDS, h, self, none⟩ else
  EXPECT_S (has_valid_head_tail_state h self) fun ok =>
  if !ok then ERROR_RETURN LL_ERROR_INTERNAL h self none else
  EXPECT_S (iterate_to h self true index) fun target =>
  match set_data h target l.data_size v with
  | none => none
  | some h1 => some ⟨LL_OK, h1, self, none⟩

/-- The function `ll_get` (lib.c 339-353); `out_elem` tells whether the out-pointer is
non-null. -/
def ll_get (h : Heap) (self : Option ll_LinkedList) (out_elem : Bool) (index : Int) :
    Option (Ret Nat) :=
  match self with
  | none => some ⟨LL_ERROR_NULL_LINKED_LIST_POINTER, h, none, none⟩
  | some l =>
  if !out_elem then some ⟨LL_ERROR_NULL_ELEMENT_POINTER, h, self, none⟩ else
  if ll_is_empty self then some ⟨LL_ERROR_EMPTY_LINKED_LIST, h, self, none⟩ else
  EXPECT_S (is_index_within_get_bounds h self index) fun inb =>
  if !inb then some ⟨LL_ERROR_INDEX_OUT_OF_BOUNDS, h, self, none⟩ else
  EXPECT_S (iterate_to h self true index) fun target =>
  match copy_out h target l.data_size with
  | none => none
  | some out => some ⟨LL_OK, h, self, out⟩

/-- The function `ll_remove` (lib.c 363-389); `out_elem` tells whether the out-pointer is
non-null. -/
def ll_remove (h : Heap) (self : Option ll_LinkedList) (out_elem : Bool) (index : Int) :
    Option (Ret Nat) :=
  match self with
  | none => some ⟨LL_ERROR_NULL_LINKED_LIST_POINTER, h, none, none⟩
  | some l =>
  if ll_is_empty self then some ⟨LL_ERROR_EMPTY_LINKED_LIST, h, self, none⟩ else
  EXPECT_S (is_index_within_get_bounds h self index) fun inb =>
  if !inb then some ⟨LL_ERROR_INDEX_OUT_OF_BOUNDS, h, self, none⟩ else
  if l.len = 1 ∨ index = toInt l.len - 1 then
    EXPECT_PASS (ll_pop h self out_elem) fun r => some ⟨LL_OK, r.heap, r.self, r.out⟩
  else if index = 0 then
    EXPECT_PASS (ll_pop_front h self out_elem) fun r => some ⟨LL_OK, r.heap, r.self, r.out⟩
  else
    EXPECT_S (iterate_to h self true index) fun target =>
    match read h target with
    | none => none
    | some n =>
      match n.prev, n.next with
      | some p, some nx =>
        match set_next h p (some nx) with
        | none => none
        | some h1 =>
          match set_prev h1 nx (some p) with
          | none => none
          | some h2 =>
            match (if out_elem then copy_out h2 target l.data_size else some none) with
            | none => none
            | some out =>
              match free h2 (some target) with
              | none => none
              | some h3 => some ⟨LL_OK, h3, some { l with len := u32_dec l.len }, out⟩
      | _, _ => ERROR_RETURN LL_ERROR_INTERNAL h self none

/-- The predecessor link of the `k`-th node of the chain of addresses `as`. -/
def prev_of (as : List Nat) (k : Nat) : Option Nat := if k = 0 then none else as[k - 1]?

/-- A well-formed list: the header `l` and the memory `h` hold a consistent
doubly linked chain whose nodes sit at the pairwise distinct addresses `as`
(head first) and store the elements `xs`: the `k`-th node points forward to
the `k+1`-st (the last one to `NULL`) and back to the `k-1`-st (the first
one to `NULL`), `head` and `tail` are the first and last address (both
`NULL` for the empty chain) and `len` is the number of nodes. -/
def WellFormed (h : Heap) (l : ll_LinkedList) (as xs : List Nat) : Prop :=
  as.length = xs.length ∧ as.Nodup ∧
  l.head = as[0]? ∧ l.tail = as[as.length - 1]? ∧ l.len = as.length ∧
  ∀ k, k < as.length → read h (as.getD k 0) = some ⟨as[k + 1]?, prev_of as k, xs.getD k 0⟩

instance (h : Heap) (l : ll_LinkedList) (as xs : List Nat) : Decidable (WellFormed h l as xs) := by
  unfold WellFormed
  infer_instance


/-- A call of a public operation with non-null arguments. -/
inductive Op
  | push (v : Nat)
  | push_front (v : Nat)
  | pop
  | pop_front
  | insert (index : Int) (v : Nat)
  | set (index : Int) (v : Nat)
  | get (index : Int)
  | remove (index : Int)
  deriving DecidableEq, Repr

/-- The call an `Op` stands for, on memory `h` and handle `self`. -/
def Op.call (h : Heap) (self : Option ll_LinkedList) : Op → Option (Ret Nat)
  | .push v => ll_push h self (some v)
  | .push_front v => ll_push_front h self (some v)
  | .pop => ll_pop h self true
  | .pop_front => ll_pop_front h self true
  | .insert index v => ll_insert h self index (some v)
  | .set index v => ll_set h self index (some v)
  | .get index => ll_get h self true index
  | .remove index => ll_remove h self true index

/-- Runs the calls one after the other, each on the state the one before
left; returns the status and out-value of every call and the final state. -/
def run_ops (h : Heap) (self : Option ll_LinkedList) :
    List Op → Option (List (ll_Error × Option Nat) × Heap × Option ll_LinkedList)
  | [] => some ([], h, self)
  | o :: os =>
    match o.call h self with
    | none => none
    | some r =>
      match run_ops r.heap r.self os with
      | none => none
      | some (rs, h1, s1) => some ((r.status, r.out) :: rs, h1, s1)

/-- The character NUL, which ends a C string. -/
def NUL : Char := Char.ofNat 0

/-- The character array `buf` with the characters `cs` in place of those at
the offsets `off, off + 1, ..`. -/
def put (buf : List Char) (off : Nat) (cs : List Char) : List Char :=
  buf.take off ++ (cs ++ buf.drop (off + cs.length))

/-- A store of the characters `cs` at the offsets `off, off + 1, ..` of the
character array `buf`, whose length is the size of the caller's array;
`none` when one of the stores falls outside the array. -/
def store (buf : List Char) (off : Nat) (cs : List Char) : Option (List Char) :=
  if cs = [] then some buf
  else if off + cs.length ≤ buf.length then some (put buf off cs)
  else none

/-- The call `strncpy(res + off, src, n)`, `src` given without its NUL: the
first `n` characters of `src`, padded with NUL up to `n` characters when
`src` is shorter. -/
def strncpy (buf : List Char) (off : Nat) (src : List Char) (n : Nat) : Option (List Char) :=
  store buf off ((src ++ List.replicate (n - src.length) NUL).take n)

/-- The call `snprintf(res + off, size, ..)` whose full output would be `s`:
with `size > 0` it stores at most `size - 1` characters of `s` and a NUL;
it returns the length of `s` in any case. -/
def snprintf (buf : List Char) (off size : Nat) (s : List Char) : Option (List Char × Int) :=
  if size = 0 then some (buf, (s.length : Int))
  else
    match store buf off (s.take (size - 1) ++ [NUL]) with
    | none => none
    | some b => some (b, (s.length : Int))

/-- The length of the C string that starts the list: the offset of the first
NUL, `none` when there is none inside the array. -/
def strlen : List Char → Option Nat
  | [] => none
  | c :: cs => if c = NUL then some 0 else (strlen cs).map (fun k => k + 1)

/-- The call `strncat(res + off, src, n)`, `src` given without its NUL: at
the end of the string that starts at `res + off` it stores at most `n`
characters of `src` and a NUL. -/
def strncat (buf : List Char) (off : Nat) (src : List Char) (n : Nat) : Option (List Char) :=
  match strlen (buf.drop off) with
  | none => none
  | some k => store buf (off + k) (src.take n ++ [NUL])

/-- The characters `printf` produces for `%d`. -/
def fmt_d (i : Int) : List Char :=
  if i < 0 then '-' :: Nat.toDigits 10 (-i).toNat else Nat.toDigits 10 i.toNat

/-- The loop of `ll_display_u32` (lib.c 575-590) from node `n`, buffer
`buf` and cursor `cur = res_cur - res`.  The result is the status of an early
return, if any, the buffer and the cursor.  Every round that goes on moves
the cursor by at least one and keeps it within `res_len`, so `res_len + 1`
rounds of fuel always suffice; running out of fuel is reported as `none`.
The `u32` read from the node is printed with `%d`, as an `int`;
`remaining_len` is never negative, so its conversion to `size_t` keeps its
value. -/
def display_loop (h : Heap) (res_len : Int) :
    Nat → Option Nat → List Char → Nat → Option (Option ll_Error × List Char × Nat)
  | _, none, buf, cur => some (none, buf, cur)
  | 0, some _, _, _ => none
  | fuel + 1, some a, buf, cur =>
    match read h a with
    | none => none
    | some n =>
      let data : Nat := n.data % 4294967296
      let remaining_len : Int := res_len - (cur : Int)
      let s : List Char :=
        if n.next = none then fmt_d (toInt data) else fmt_d (toInt data) ++ [',', ' ']
      match snprintf buf cur remaining_len.toNat s with
      | none => none
      | some (buf1, chars_written) =>
        if chars_written > remaining_len then some (some LL_ERROR_INSUFFICIENT_SIZE, buf1, cur)
        else if chars_written < 0 then some (some LL_ERROR_INTERNAL, buf1, cur)
        else display_loop h res_len fuel n.next buf1 (cur + chars_written.toNat)

/-- The function `ll_display_u32` (lib.c 567-596); `res` is the caller's
character array and the `out` of the result is that array after the call. -/
def ll_display_u32 (h : Heap) (self : Option ll_LinkedList) (res : List Char) (res_len : Int) :
    Option (Ret (List Char)) :=
  match self with
  | none => some ⟨LL_ERROR_NULL_LINKED_LIST_POINTER, h, none, some res⟩
  | some l =>
  if res_len < 1 then some ⟨LL_ERROR_INSUFFICIENT_SIZE, h, self, some res⟩ else
  EXPECT_S (has_valid_head_tail_state h self) fun ok =>
  if !ok then ERROR_RETURN LL_ERROR_INTERNAL h self (some res) else
  match strncpy res 0 ['['] res_len.toNat with
  | none => none
  | some buf0 =>
    match display_loop h res_len (res_len.toNat + 1) l.head buf0 1 with
    | none => none
    | some (some e, buf1, _) => some ⟨e, h, self, some buf1⟩
    | some (none, buf1, cur) =>
      let remaining_len : Int := res_len - (cur : Int)
      if remaining_len < 1 then some ⟨LL_ERROR_INSUFFICIENT_SIZE, h, self, some buf1⟩
      else
        match strncat buf1 cur [']'] remaining_len.toNat with
        | none => none
        | some buf2 => some ⟨LL_OK, h, self, some buf2⟩

/-- Following the words of the spec and of the claim: the rendering of the
element sequence `xs` of 32-bit values, `[`, the elements from head to tail
in decimal separated by a comma and a blank, `]`. -/
def spec_rendering (xs : List Nat) : List Char :=
  '[' :: (List.intercalate [',', ' '] (xs.map (Nat.toDigits 10))) ++ [']']

/-- The C string a character array holds: the characters before the first
NUL. -/
def c_string (buf : List Char) : List Char := buf.takeWhile (fun c => c ≠ NUL)

/-- The text `ll_display_u32` puts between the brackets for the elements
`xs`, all below `2^31`: every element in decimal, followed by a comma and a
blank unless it is the last one. -/
def body_text : List Nat → List Char
  | [] => []
  | x :: rest => Nat.toDigits 10 x ++ ((if rest = [] then [] else [',', ' ']) ++ body_text rest)

/-! ## Memory lemmas -/

theorem read_lt {h : Heap} {a : Nat} {n : ll_LinkedListNode} (hr : read h a = some n) :
    a < h.length := by
  unfold read at hr
  by_contra hlt
  have : h[a]? = none := List.getElem?_eq_none (by omega)
  simp [this] at hr

theorem read_set (h : Heap) (a b : Nat) (c : Option ll_LinkedListNode) :
    read (h.set a c) b = if b = a then (if a < h.length then c else none) else read h b := by
  unfold read
  rw [List.getElem?_set]
  by_cases hab : a = b
  · subst hab
    by_cases hl : a < h.length <;> simp [hl]
  · have hba : ¬ b = a := fun e => hab e.symm
    simp [hab, hba]

theorem read_append (h : Heap) (c : Option ll_LinkedListNode) (b : Nat) :
    read (h ++ [c]) b = if b = h.length then c else read h b := by
  unfold read
  by_cases hb : b < h.length
  · rw [List.getElem?_append_left hb]
    have : ¬ b = h.length := by omega
    simp [this]
  · by_cases hb2 : b = h.length
    · subst hb2
      simp
    · have h1 : (h ++ [c])[b]? = none := List.getElem?_eq_none (by simp; omega)
      have h2 : h[b]? = none := List.getElem?_eq_none (by omega)
      simp [h1, h2, hb2]


/-! ## The chain predicate and the single operations -/

theorem WellFormed.node {h : Heap} {l : ll_LinkedList} {as xs : List Nat}
    (w : WellFormed h l as xs) {k a : Nat} (ha : as[k]? = some a) :
    ∃ x, xs[k]? = some x ∧ read h a = some ⟨as[k + 1]?, prev_of as k, x⟩ := by
  obtain ⟨hlen, -, -, -, -, hn⟩ := w
  have hk : k < as.length := by
    by_contra hk
    rw [List.getElem?_eq_none (by omega)] at ha
    exact Option.noConfusion ha
  have hkx : k < xs.length := by omega
  refine ⟨xs[k], List.getElem?_eq_getElem hkx, ?_⟩
  have := hn k hk
  rw [List.getD_eq_getElem?_getD, List.getD_eq_getElem?_getD, ha,
    List.getElem?_eq_getElem hkx] at this
  simpa using this

theorem WellFormed.intro {h : Heap} {l : ll_LinkedList} {as xs : List Nat}
    (hlen : as.length = xs.length) (hnd : as.Nodup)
    (hhead : l.head = as[0]?) (htail : l.tail = as[as.length - 1]?) (hl : l.len = as.length)
    (hn : ∀ k a x, as[k]? = some a → xs[k]? = some x →
      read h a = some ⟨as[k + 1]?, prev_of as k, x⟩) :
    WellFormed h l as xs := by
  refine ⟨hlen, hnd, hhead, htail, hl, ?_⟩
  intro k hk
  have hkx : k < xs.length := by omega
  have h1 : as[k]? = some as[k] := List.getElem?_eq_getElem hk
  have h2 : xs[k]? = some xs[k] := List.getElem?_eq_getElem hkx
  rw [List.getD_eq_getElem?_getD, List.getD_eq_getElem?_getD, h1, h2]
  exact hn k _ _ h1 h2

theorem WellFormed.addr_lt {h : Heap} {l : ll_LinkedList} {as xs : List Nat}
    (w : WellFormed h l as xs) {a : Nat} (ha : a ∈ as) : a < h.length := by
  obtain ⟨k, hk, rfl⟩ := List.getElem_of_mem ha
  obtain ⟨x, -, hr⟩ := w.node (List.getElem?_eq_getElem hk)
  exact read_lt hr

theorem WellFormed.fresh {h : Heap} {l : ll_LinkedList} {as xs : List Nat}
    (w : WellFormed h l as xs) : h.length ∉ as := by
  intro hm
  have := w.addr_lt hm
  omega

theorem has_valid_of_WellFormed {h : Heap} {l : ll_LinkedList} {as xs : List Nat}
    (w : WellFormed h l as xs) :
    has_valid_head_tail_state h (some l) = some ⟨LL_OK, h, some l, some true⟩ := by
  have w0 := w
  obtain ⟨hlen, hnd, hhead, htail, hl, hn⟩ := w
  unfold has_valid_head_tail_state
  rcases Nat.eq_zero_or_pos as.length with h0 | hpos
  · have e : as = [] := List.length_eq_zero.mp h0
    subst e
    simp at hhead htail hl
    simp [hhead, htail, hl]
  · have e0 : as[0]? = some as[0] := List.getElem?_eq_getElem hpos
    have hlast : as.length - 1 < as.length := by omega
    have e1 : as[as.length - 1]? = some as[as.length - 1] := List.getElem?_eq_getElem hlast
    obtain ⟨x0, -, r0⟩ := w0.node e0
    obtain ⟨x1, -, r1⟩ := w0.node e1
    have hnone : as[as.length - 1 + 1]? = none := List.getElem?_eq_none (by omega)
    rw [hnone] at r1
    simp only [prev_of, if_true] at r0
    rw [e0] at hhead
    rw [e1] at htail
    simp only [hhead, htail, r0, r1, Option.map_some']
    by_cases h1 : l.len = 1
    · have : as.length - 1 = 0 := by omega
      simp [h1, this]
    · simp [h1]

theorem idx_lt {α : Type} {as : List α} {i : Nat} {a : α} (hi : as[i]? = some a) :
    i < as.length := by
  by_contra hk
  rw [List.getElem?_eq_none (by omega)] at hi
  exact Option.noConfusion hi

theorem idx_mem {α : Type} {as : List α} {i : Nat} {a : α} (hi : as[i]? = some a) : a ∈ as := by
  obtain ⟨hl, rfl⟩ := List.getElem?_eq_some.mp hi
  exact List.getElem_mem hl

theorem idx_unique {as : List Nat} (hnd : as.Nodup) {i j a : Nat} (hi : as[i]? = some a)
    (hj : as[j]? = some a) : i = j :=
  List.getElem?_inj (idx_lt hi) hnd (hi.trans hj.symm)

theorem prev_of_append_left {as bs : List Nat} {k : Nat} (hk : k ≤ as.length) :
    prev_of (as ++ bs) k = prev_of as k := by
  unfold prev_of
  by_cases h0 : k = 0
  · simp [h0]
  · simp only [h0, if_false]
    exact List.getElem?_append_left (by omega)

theorem u32_inc_eq {n : Nat} (hb : n + 1 < 4294967296) : u32_inc n = n + 1 := by
  unfold u32_inc; omega

theorem u32_dec_eq {n : Nat} (h0 : 0 < n) (hb : n < 4294967296) : u32_dec n = n - 1 := by
  unfold u32_dec; omega

theorem is_empty_iff_of_WellFormed {h : Heap} {l : ll_LinkedList} {as xs : List Nat}
    (w : WellFormed h l as xs) : ll_is_empty (some l) = true ↔ as = [] := by
  obtain ⟨hlen, hnd, hhead, htail, hl, hn⟩ := w
  unfold ll_is_empty
  constructor
  · intro he
    simp at he
    exact List.length_eq_zero.mp (by omega)
  · intro e
    subst e
    simp at hhead htail hl
    simp [hhead, htail, hl]

/-- The call `ll_push` on a well-formed list whose elements fit the node
blocks: the new node is linked after the tail and `len` is incremented as a
`u32`. -/
theorem ll_push_chain {h : Heap} {l : ll_LinkedList} {as xs : List Nat}
    (w : WellFormed h l as xs) (hds : copy_in_block l.data_size = true) (v : Nat) :
    ∃ h1 l1, ll_push h (some l) (some v) = some ⟨LL_OK, h1, some l1, none⟩ ∧
      WellFormed h1 { l1 with len := l.len + 1 } (as ++ [h.length]) (xs ++ [v]) ∧
      l1.data_size = l.data_size ∧ l1.len = u32_inc l.len ∧ l1.head ≠ none ∧
      l1.tail = some h.length := by
  have w0 := w
  obtain ⟨hlen, hnd, hhead, htail, hl, hn⟩ := w
  unfold ll_push
  simp only [has_valid_of_WellFormed w0, EXPECT_S, if_true, Bool.not_true]
  rcases Nat.eq_zero_or_pos as.length with h0 | hpos
  · have e : as = [] := List.length_eq_zero.mp h0
    have hemp : ll_is_empty (some l) = true := (is_empty_iff_of_WellFormed w0).mpr e
    subst e
    have ex : xs = [] := List.length_eq_zero.mp (by simpa using hlen.symm)
    subst ex
    simp at hhead htail hl
    simp only [hemp, hhead, malloc, init_node, hds, write, read_append, if_true]
    refine ⟨_, _, rfl, ?_, rfl, rfl, by simp, rfl⟩
    · apply WellFormed.intro
      · simp
      · simp
      · simp
      · simp
      · simp [hl]
      · intro k a x ha hx
        have hk : k = 0 := by
          by_contra hk
          rw [List.getElem?_eq_none (by simp; omega)] at ha
          exact Option.noConfusion ha
        subst hk
        simp at ha hx
        subst ha; subst hx
        simp [read_set, read_append, prev_of]
  · have hne : ll_is_empty (some l) = false := by
      rw [Bool.eq_false_iff, Ne, is_empty_iff_of_WellFormed w0]
      intro e
      simp [e] at hpos
    have e0 : as[0]? = some as[0] := List.getElem?_eq_getElem hpos
    have hlast : as.length - 1 < as.length := by omega
    have e1 : as[as.length - 1]? = some as[as.length - 1] := List.getElem?_eq_getElem hlast
    obtain ⟨x1, hx1, r1⟩ := w0.node e1
    have hnone : as[as.length - 1 + 1]? = none := List.getElem?_eq_none (by omega)
    rw [hnone] at r1
    generalize as[as.length - 1] = t at e1 r1
    have htlt : t < h.length := read_lt r1
    have htne : ¬ t = h.length := by omega
    have htne2 : ¬ h.length = t := by omega
    rw [e0] at hhead
    rw [e1] at htail
    simp only [hne, hhead, htail, malloc, set_next, init_node, hds, if_true, write, read_append,
      read_set, htne, htne2, if_false, r1]
    refine ⟨_, _, rfl, ?_, rfl, rfl, by simp, rfl⟩
    · apply WellFormed.intro
      · simp [hlen]
      · rw [List.nodup_append]
        refine ⟨hnd, by simp, ?_⟩
        intro a ha hb2
        simp at hb2
        subst hb2
        exact w0.fresh ha
      · simp [List.getElem?_append_left hpos]
      · simp
      · show l.len + 1 = (as ++ [h.length]).length
        rw [hl]
        simp
      · intro k a x ha hx
        have hkb := idx_lt ha
        rw [List.getElem?_append] at ha hx
        by_cases hk : k < as.length
        · have hkx : k < xs.length := by omega
          simp only [hk, hkx, if_true] at ha hx
          obtain ⟨x2, hx2, r⟩ := w0.node ha
          rw [hx] at hx2
          cases hx2
          have hane : ¬ a = h.length := fun e => w0.fresh (e ▸ idx_mem ha)
          rw [prev_of_append_left (by omega)]
          by_cases hkl : k = as.length - 1
          · subst hkl
            rw [e1] at ha
            cases ha
            rw [r1, hnone] at r
            simp at r
            subst r
            have : as.length - 1 + 1 = as.length := by omega
            have hlt2 : t < h.length + 1 := by omega
            simp [hane, List.getElem?_append_right, this, read_set, read_append, hlt2]
          · have hat : ¬ a = t := fun e => hkl (idx_unique hnd ha (e ▸ e1))
            simp only [read_set, read_append, hane, hat, if_false, r]
            rw [List.getElem?_append_left (by omega)]
        · have hk2 : k = as.length := by
            simp at hkb
            omega
          subst hk2
          simp at ha
          simp [hlen] at hx
          subst ha
          subst hx
          have hp : prev_of (as ++ [h.length]) as.length = some t := by
            unfold prev_of
            have : ¬ as.length = 0 := by omega
            simp only [this, if_false]
            rw [List.getElem?_append_left hlast, e1]
          simp [read_set, read_append, hp]

theorem ll_push_WellFormed {h : Heap} {l : ll_LinkedList} {as xs : List Nat}
    (w : WellFormed h l as xs) (hds : copy_in_block l.data_size = true)
    (hb : l.len + 1 < 4294967296) (v : Nat) :
    ∃ h1 l1, ll_push h (some l) (some v) = some ⟨LL_OK, h1, some l1, none⟩ ∧
      WellFormed h1 l1 (as ++ [h.length]) (xs ++ [v]) ∧
      l1.data_size = l.data_size ∧ l1.len = l.len + 1 := by
  obtain ⟨h1, l1, hp, w1, hd1, hl1, -, -⟩ := ll_push_chain w hds v
  have e : l1.len = l.len + 1 := by rw [hl1, u32_inc_eq hb]
  have e2 : ({ l1 with len := l.len + 1 } : ll_LinkedList) = l1 := by
    rw [← e]
  rw [e2] at w1
  exact ⟨h1, l1, hp, w1, hd1, e⟩

theorem prev_of_cons_succ (p : Nat) (as : List Nat) (k : Nat) :
    prev_of (p :: as) (k + 1) = (p :: as)[k]? := by
  simp [prev_of]

/-- The call `ll_push_front` on a well-formed list whose elements fit the
node blocks: the new node is linked before the head and `len` is
incremented as a `u32`. -/
theorem ll_push_front_chain {h : Heap} {l : ll_LinkedList} {as xs : List Nat}
    (w : WellFormed h l as xs) (hds : copy_in_block l.data_size = true) (v : Nat) :
    ∃ h1 l1, ll_push_front h (some l) (some v) = some ⟨LL_OK, h1, some l1, none⟩ ∧
      WellFormed h1 { l1 with len := l.len + 1 } (h.length :: as) (v :: xs) ∧
      l1.data_size = l.data_size ∧ l1.len = u32_inc l.len ∧ l1.head = some h.length ∧
      l1.tail ≠ none := by
  have w0 := w
  obtain ⟨hlen, hnd, hhead, htail, hl, hn⟩ := w
  unfold ll_push_front
  rcases Nat.eq_zero_or_pos as.length with h0 | hpos
  · have e : as = [] := List.length_eq_zero.mp h0
    have hemp : ll_is_empty (some l) = true := (is_empty_iff_of_WellFormed w0).mpr e
    subst e
    have ex : xs = [] := List.length_eq_zero.mp (by simpa using hlen.symm)
    subst ex
    obtain ⟨h1, l1, hp, w1, hd1, hl1, -, ht1⟩ := ll_push_chain w0 hds v
    simp only [hemp, if_true, hp, EXPECT_PASS]
    have hh1 : l1.head = some h.length := by simpa using w1.2.2.1
    exact ⟨h1, l1, rfl, by simpa using w1, hd1, hl1, hh1, by simp [ht1]⟩
  · have hne : ll_is_empty (some l) = false := by
      rw [Bool.eq_false_iff, Ne, is_empty_iff_of_WellFormed w0]
      intro e
      simp [e] at hpos
    have e0 : as[0]? = some as[0] := List.getElem?_eq_getElem hpos
    obtain ⟨x0, hx0, r0⟩ := w0.node e0
    generalize as[0] = hd at e0 r0
    have hdlt : hd < h.length := read_lt r0
    have hdne : ¬ hd = h.length := by omega
    have hdne2 : ¬ h.length = hd := by omega
    rw [e0] at hhead
    have htl : l.tail ≠ none := by
      rw [htail, List.getElem?_eq_getElem (by omega)]
      simp
    simp only [hne, has_valid_of_WellFormed w0, EXPECT_S, hhead, malloc, set_prev, init_node,
      hds, write, read_append, read_set, hdne, hdne2, if_false, r0, if_true, Bool.not_true]
    refine ⟨_, _, rfl, ?_, rfl, rfl, rfl, htl⟩
    · apply WellFormed.intro
      · simp [hlen]
      · rw [List.nodup_cons]
        exact ⟨w0.fresh, hnd⟩
      · simp
      · have : (h.length :: as).length - 1 = (as.length - 1) + 1 := by simp; omega
        rw [this, List.getElem?_cons_succ]
        exact htail
      · show l.len + 1 = (h.length :: as).length
        rw [hl]
        simp
      · intro k a x ha hx
        rcases k with _ | j
        · simp at ha hx
          subst ha
          subst hx
          simp [read_set, read_append, prev_of, e0]
        · rw [List.getElem?_cons_succ] at ha hx
          obtain ⟨x2, hx2, r⟩ := w0.node ha
          rw [hx] at hx2
          cases hx2
          have hane : ¬ a = h.length := fun e => w0.fresh (e ▸ idx_mem ha)
          rw [prev_of_cons_succ, List.getElem?_cons_succ]
          by_cases hj : j = 0
          · subst hj
            rw [e0] at ha
            cases ha
            rw [r0] at r
            simp at r
            have hlt2 : hd < h.length + 1 := by omega
            simp [read_set, read_append, hane, hlt2, r]
          · have hat : ¬ a = hd := fun e => hj (idx_unique hnd ha (e ▸ e0))
            simp only [read_set, read_append, hane, hat, if_false, r]
            have : prev_of as j = (h.length :: as)[j]? := by
              unfold prev_of
              simp only [hj, if_false]
              rw [List.getElem?_cons]
              simp [hj]
            rw [this]

theorem ll_push_front_WellFormed {h : Heap} {l : ll_LinkedList} {as xs : List Nat}
    (w : WellFormed h l as xs) (hds : copy_in_block l.data_size = true)
    (hb : l.len + 1 < 4294967296) (v : Nat) :
    ∃ h1 l1, ll_push_front h (some l) (some v) = some ⟨LL_OK, h1, some l1, none⟩ ∧
      WellFormed h1 l1 (h.length :: as) (v :: xs) ∧
      l1.data_size = l.data_size ∧ l1.len = l.len + 1 := by
  obtain ⟨h1, l1, hp, w1, hd1, hl1, -, -⟩ := ll_push_front_chain w hds v
  have e : l1.len = l.len + 1 := by rw [hl1, u32_inc_eq hb]
  have e2 : ({ l1 with len := l.len + 1 } : ll_LinkedList) = l1 := by
    rw [← e]
  rw [e2] at w1
  exact ⟨h1, l1, hp, w1, hd1, e⟩

theorem prev_of_dropLast {as : List Nat} {k : Nat} (hk : k < as.length) :
    prev_of as.dropLast k = prev_of as k := by
  unfold prev_of
  by_cases h0 : k = 0
  · simp [h0]
  · simp only [h0, if_false]
    rw [List.getElem?_dropLast]
    have : k - 1 < as.length - 1 := by omega
    simp [this]

theorem ll_pop_WellFormed {h : Heap} {l : ll_LinkedList} {as xs : List Nat}
    (w : WellFormed h l as xs) (hpos : 0 < as.length) (hb : l.len < 4294967296)
    (out_elem : Bool) (hds : out_elem = true → copy_in_block l.data_size = true) :
    ∃ h1 l1 x, ll_pop h (some l) out_elem =
        some ⟨LL_OK, h1, some l1, if out_elem then some x else none⟩ ∧
      xs[xs.length - 1]? = some x ∧
      WellFormed h1 l1 as.dropLast xs.dropLast ∧
      l1.data_size = l.data_size ∧ l1.len = l.len - 1 := by
  have w0 := w
  obtain ⟨hlen, hnd, hhead, htail, hl, hn⟩ := w
  unfold ll_pop
  have hne : ll_is_empty (some l) = false := by
    rw [Bool.eq_false_iff, Ne, is_empty_iff_of_WellFormed w0]
    intro e
    simp [e] at hpos
  have e0 : as[0]? = some as[0] := List.getElem?_eq_getElem hpos
  have hlast : as.length - 1 < as.length := by omega
  have e1 : as[as.length - 1]? = some as[as.length - 1] := List.getElem?_eq_getElem hlast
  obtain ⟨x1, hx1, r1⟩ := w0.node e1
  have hnone : as[as.length - 1 + 1]? = none := List.getElem?_eq_none (by omega)
  rw [hnone] at r1
  generalize as[as.length - 1] = tl at e1 r1
  generalize as[0] = hd at e0
  have htlt : tl < h.length := read_lt r1
  rw [e0] at hhead
  rw [e1] at htail
  have hlen0 : ¬ l.len = 0 := by omega
  have hdec : u32_dec l.len = l.len - 1 := u32_dec_eq (by omega) hb
  have hout : (if out_elem = true then copy_out h tl l.data_size
      else some none) = some (if out_elem then some x1 else none) := by
    cases out_elem <;> simp [copy_out, hds, r1]
  simp only [hne, hhead, htail, has_valid_of_WellFormed w0, EXPECT_S, if_true, Bool.not_true,
    if_false, hout, Bool.false_eq_true]
  by_cases hht : hd = tl
  · subst hht
    have hn1 : as.length = 1 := by
      have := idx_unique hnd e0 e1
      omega
    have hdl : as.dropLast = [] := by
      apply List.length_eq_zero.mp
      simp [hn1]
    have hdx : xs.dropLast = [] := by
      apply List.length_eq_zero.mp
      simp [← hlen, hn1]
    simp only [if_true, pop_finish, hlen0, if_false, free, r1]
    refine ⟨_, _, x1, rfl, ?_, ?_, rfl, ?_⟩
    · rw [← hlen]; exact hx1
    · rw [hdl, hdx]
      apply WellFormed.intro <;> simp [hdec, hl, hn1, u32_dec]
    · simp [hdec]
  · have hn2 : 2 ≤ as.length := by
      by_contra hc
      have h1 : as.length - 1 = 0 := by omega
      rw [h1, e0] at e1
      cases e1
      exact hht rfl
    have hpl : as.length - 2 < as.length := by omega
    have e2 : as[as.length - 2]? = some as[as.length - 2] := List.getElem?_eq_getElem hpl
    obtain ⟨x2, hx2, r2⟩ := w0.node e2
    have hs : as.length - 2 + 1 = as.length - 1 := by omega
    rw [hs, e1] at r2
    generalize as[as.length - 2] = p at e2 r2
    have hpv : prev_of as (as.length - 1) = some p := by
      unfold prev_of
      have h1 : ¬ as.length - 1 = 0 := by omega
      have h2 : as.length - 1 - 1 = as.length - 2 := by omega
      simp only [h1, if_false, h2, e2]
    rw [hpv] at r1
    have hptl : ¬ p = tl := by
      intro e
      have := idx_unique hnd e2 (e ▸ e1)
      omega
    have htlp : ¬ tl = p := fun e => hptl e.symm
    have hplt : p < h.length := read_lt r2
    simp only [hht, if_false, r1, Option.some.injEq, hptl, set_next, r2, pop_finish, hlen0, free,
      read_set, htlp]
    refine ⟨_, _, x1, rfl, ?_, ?_, rfl, ?_⟩
    · rw [← hlen]; exact hx1
    · apply WellFormed.intro
      · simp [hlen]
      · exact hnd.sublist (List.dropLast_sublist as)
      · rw [List.getElem?_dropLast]
        have : 0 < as.length - 1 := by omega
        simp [this, e0]
      · rw [List.getElem?_dropLast]
        have h1 : as.length - 1 - 1 = as.length - 2 := by omega
        have h2 : as.length - 2 < as.length - 1 := by omega
        simp [h1, h2, e2]
      · show u32_dec l.len = as.dropLast.length
        rw [hdec, hl]
        simp
      · intro k a x ha hx
        rw [List.getElem?_dropLast] at ha hx
        have hk : k < as.length - 1 := by
          by_contra hc
          simp [hc] at ha
        have hkx : k < xs.length - 1 := by omega
        simp only [hk, hkx, if_true] at ha hx
        obtain ⟨x3, hx3, r⟩ := w0.node ha
        rw [hx] at hx3
        cases hx3
        have hatl : ¬ a = tl := by
          intro e
          have := idx_unique hnd ha (e ▸ e1)
          omega
        rw [prev_of_dropLast (by omega), List.getElem?_dropLast]
        by_cases hkp : k = as.length - 2
        · subst hkp
          rw [e2] at ha
          cases ha
          rw [r2] at r
          simp at r
          have : ¬ as.length - 2 + 1 < as.length - 1 := by omega
          simp [read_set, hatl, hplt, this, r]
        · have hap : ¬ a = p := fun e => hkp (idx_unique hnd ha (e ▸ e2))
          have : k + 1 < as.length - 1 := by omega
          simp [read_set, hatl, hap, this, r]
    · simp [hdec]

theorem ll_pop_front_WellFormed {h : Heap} {l : ll_LinkedList} {as xs : List Nat}
    (w : WellFormed h l as xs) (hpos : 0 < as.length) (hb : l.len < 4294967296)
    (out_elem : Bool) (hds : out_elem = true → copy_in_block l.data_size = true) :
    ∃ h1 l1 x, ll_pop_front h (some l) out_elem =
        some ⟨LL_OK, h1, some l1, if out_elem then some x else none⟩ ∧
      xs[0]? = some x ∧
      WellFormed h1 l1 as.tail xs.tail ∧
      l1.data_size = l.data_size ∧ l1.len = l.len - 1 := by
  have w0 := w
  obtain ⟨hlen, hnd, hhead, htail, hl, hn⟩ := w
  unfold ll_pop_front
  have hne : ll_is_empty (some l) = false := by
    rw [Bool.eq_false_iff, Ne, is_empty_iff_of_WellFormed w0]
    intro e
    simp [e] at hpos
  have e0 : as[0]? = some as[0] := List.getElem?_eq_getElem hpos
  have hlast : as.length - 1 < as.length := by omega
  have e1 : as[as.length - 1]? = some as[as.length - 1] := List.getElem?_eq_getElem hlast
  obtain ⟨x0, hx0, r0⟩ := w0.node e0
  simp only [prev_of, if_true] at r0
  generalize as[as.length - 1] = tl at e1
  generalize as[0] = hd at e0 r0
  have hdlt : hd < h.length := read_lt r0
  rw [e0] at hhead
  rw [e1] at htail
  have hlen0 : ¬ l.len = 0 := by omega
  have hdec : u32_dec l.len = l.len - 1 := u32_dec_eq (by omega) hb
  have hout : (if out_elem = true then
        match some hd with
        | none => none
        | some hd => copy_out h hd l.data_size
      else some none) = some (if out_elem then some x0 else none) := by
    cases out_elem <;> simp [copy_out, hds, r0]
  simp only [hne, hhead, htail, hout, Bool.false_eq_true, if_false]
  by_cases hht : hd = tl
  · subst hht
    have hn1 : as.length = 1 := by
      have := idx_unique hnd e0 e1
      omega
    have hdl : as.tail = [] := by
      apply List.length_eq_zero.mp
      simp [hn1]
    have hdx : xs.tail = [] := by
      apply List.length_eq_zero.mp
      simp [← hlen, hn1]
    simp only [if_true, pop_finish, hlen0, if_false, free, r0]
    refine ⟨_, _, x0, rfl, hx0, ?_, rfl, ?_⟩
    · rw [hdl, hdx]
      apply WellFormed.intro <;> simp [hdec, hl, hn1, u32_dec]
    · simp [hdec]
  · have hn2 : 2 ≤ as.length := by
      by_contra hc
      have h1 : as.length - 1 = 0 := by omega
      rw [h1, e0] at e1
      cases e1
      exact hht rfl
    have e2 : as[1]? = some as[1] := List.getElem?_eq_getElem (by omega)
    obtain ⟨x2, hx2, r2⟩ := w0.node e2
    have hpv : prev_of as 1 = some hd := by
      unfold prev_of
      simp [e0]
    rw [hpv] at r2
    generalize as[1] = nx at e2 r2
    simp only [zero_add] at r0
    rw [e2] at r0
    have hne2 : ¬ nx = hd := by
      intro e
      have := idx_unique hnd e2 (e ▸ e0)
      omega
    have hne3 : ¬ hd = nx := fun e => hne2 e.symm
    have hnlt : nx < h.length := read_lt r2
    have hst : ¬ some hd = some tl := by simpa using hht
    simp only [hst, if_false, r0, set_prev, r2, pop_finish, hlen0, free, read_set, hne3]
    refine ⟨_, _, x0, rfl, hx0, ?_, rfl, ?_⟩
    · apply WellFormed.intro
      · simp [hlen]
      · exact hnd.sublist (List.tail_sublist as)
      · simp [e2]
      · rw [List.getElem?_tail]
        have h1 : as.tail.length - 1 + 1 = as.length - 1 := by simp; omega
        rw [h1]
        exact e1.symm
      · show u32_dec l.len = as.tail.length
        rw [hdec, hl]
        simp
      · intro k a x ha hx
        rw [List.getElem?_tail] at ha hx
        obtain ⟨x3, hx3, r⟩ := w0.node ha
        rw [hx] at hx3
        cases hx3
        have hahd : ¬ a = hd := by
          intro e
          have := idx_unique hnd ha (e ▸ e0)
          omega
        have hpr : prev_of as.tail k = if k = 0 then none else prev_of as (k + 1) := by
          unfold prev_of
          by_cases hk0 : k = 0
          · simp [hk0]
          · have : k - 1 + 1 = k := by omega
            simp [hk0, this]
        rw [hpr, List.getElem?_tail]
        by_cases hk0 : k = 0
        · subst hk0
          simp only [zero_add] at ha
          rw [e2] at ha
          cases ha
          rw [r2] at r
          simp at r
          simp [read_set, hahd, hnlt, r]
        · have hap : ¬ a = nx := by
            intro e
            have := idx_unique hnd ha (e ▸ e2)
            omega
          simp [read_set, hahd, hap, hk0, r]
    · simp [hdec]

theorem walk_next_WellFormed {h : Heap} {l : ll_LinkedList} {as xs : List Nat}
    (w : WellFormed h l as xs) :
    ∀ (k j hops : Nat), j + k < as.length →
      walk_next h as[j]? k hops = some (as[j + k]?, hops + k) := by
  intro k
  induction k with
  | zero =>
    intro j hops hj
    rw [List.getElem?_eq_getElem (by omega : j < as.length)]
    simp [walk_next]
  | succ k ih =>
    intro j hops hj
    have ej : as[j]? = some as[j] := List.getElem?_eq_getElem (by omega)
    obtain ⟨x, -, r⟩ := w.node ej
    rw [ej]
    simp only [walk_next, r]
    rw [ih (j + 1) (hops + 1) (by omega)]
    have e1 : j + 1 + k = j + (k + 1) := by omega
    have e2 : hops + 1 + k = hops + (k + 1) := by omega
    rw [e1, e2]

theorem walk_prev_WellFormed {h : Heap} {l : ll_LinkedList} {as xs : List Nat}
    (w : WellFormed h l as xs) :
    ∀ (d j hops : Nat), d ≤ j → j < as.length →
      walk_prev h as[j]? d hops = some (as[j - d]?, hops + d) := by
  intro d
  induction d with
  | zero =>
    intro j hops _ hj
    rw [List.getElem?_eq_getElem hj]
    simp [walk_prev]
  | succ d ih =>
    intro j hops hd hj
    have ej : as[j]? = some as[j] := List.getElem?_eq_getElem hj
    obtain ⟨x, -, r⟩ := w.node ej
    rw [ej]
    simp only [walk_prev, r]
    have hp : prev_of as j = as[j - 1]? := by
      unfold prev_of
      have : ¬ j = 0 := by omega
      simp [this]
    rw [hp, ih (j - 1) (hops + 1) (by omega) (by omega)]
    have e1 : j - 1 - d = j - (d + 1) := by omega
    have e2 : hops + 1 + d = hops + (d + 1) := by omega
    rw [e1, e2]

theorem toInt_eq {n : Nat} (hn : n < 2147483648) : toInt n = (n : Int) := by
  unfold toInt
  have : n % 4294967296 = n := by omega
  simp [this, hn]

theorem toInt_le (n : Nat) : toInt n ≤ (n : Int) := by
  unfold toInt
  split <;> omega

theorem iterate_walk_WellFormed {h : Heap} {l : ll_LinkedList} {as xs : List Nat}
    (w : WellFormed h l as xs) (hb : l.len < 2147483648) (i : Nat) (hi : i < l.len) :
    iterate_walk h l (i : Int) =
      some (as[i]?, if (l.len : Int) - i < i then l.len - 1 - i else i) := by
  have w0 := w
  obtain ⟨hlen, hnd, hhead, htail, hl, hn⟩ := w
  unfold iterate_walk
  rw [toInt_eq hb]
  by_cases hdir : (l.len : Int) - i < i
  · simp only [hdir, if_true]
    have hu : toU32 ((i : Int) + 1) = i + 1 := by
      unfold toU32
      omega
    have hd : (l.len + 4294967296 - (i + 1)) % 4294967296 = l.len - 1 - i := by omega
    rw [hu, hd, htail, walk_prev_WellFormed w0 _ _ _ (by omega) (by omega)]
    have : as.length - 1 - (l.len - 1 - i) = i := by omega
    rw [this]
    simp
  · simp only [hdir, if_false]
    rw [hhead, Int.toNat_ofNat, walk_next_WellFormed w0 _ _ _ (by omega)]
    simp

theorem iterate_to_WellFormed {h : Heap} {l : ll_LinkedList} {as xs : List Nat}
    (w : WellFormed h l as xs) (hb : l.len < 2147483648) (i : Nat) (hi : i < l.len) :
    ∃ a, as[i]? = some a ∧
      iterate_to h (some l) true (i : Int) = some ⟨LL_OK, h, some l, some a⟩ := by
  have hia : i < as.length := by
    obtain ⟨-, -, -, -, hl, -⟩ := w
    omega
  have hne : ll_is_empty (some l) = false := by
    rw [Bool.eq_false_iff, Ne, is_empty_iff_of_WellFormed w]
    intro e
    simp [e] at hia
  refine ⟨as[i], List.getElem?_eq_getElem hia, ?_⟩
  unfold iterate_to
  have hbd : ¬ ((i : Int) < 0 ∨ (i : Int) ≥ toInt l.len) := by
    rw [toInt_eq hb]
    omega
  simp only [hne, is_index_within_get_bounds, EXPECT_S, hbd, has_valid_of_WellFormed w,
    iterate_walk_WellFormed w hb i hi, List.getElem?_eq_getElem hia, if_true, if_false,
    Bool.not_true, Bool.false_eq_true, Bool.not_false]

theorem ll_set_WellFormed {h : Heap} {l : ll_LinkedList} {as xs : List Nat}
    (w : WellFormed h l as xs) (hds : copy_in_block l.data_size = true)
    (hb : l.len < 2147483648) (i : Nat) (hi : i < l.len) (v : Nat) :
    ∃ h1, ll_set h (some l) (i : Int) (some v) = some ⟨LL_OK, h1, some l, none⟩ ∧
      WellFormed h1 l as (xs.set i v) := by
  obtain ⟨a, ha, hit⟩ := iterate_to_WellFormed w hb i hi
  obtain ⟨xi, hxi, ri⟩ := w.node ha
  have w0 := w
  obtain ⟨hlen, hnd, hhead, htail, hl, hn⟩ := w
  have halt : a < h.length := read_lt ri
  unfold ll_set
  have hbd : ¬ ((i : Int) < 0 ∨ (i : Int) ≥ toInt l.len) := by
    rw [toInt_eq hb]
    omega
  simp only [is_index_within_get_bounds, EXPECT_S, hbd, has_valid_of_WellFormed w0, hit,
    if_true, if_false, Bool.not_true, Bool.false_eq_true, Bool.not_false, set_data, hds, ri]
  refine ⟨_, rfl, ?_⟩
  apply WellFormed.intro
  · simp [hlen]
  · exact hnd
  · exact hhead
  · exact htail
  · exact hl
  · intro k b x hb2 hx
    obtain ⟨x2, hx2, r⟩ := w0.node hb2
    rw [List.getElem?_set] at hx
    by_cases hk : i = k
    · subst hk
      rw [ha] at hb2
      cases hb2
      have : i < xs.length := by omega
      simp only [if_true, this] at hx
      cases hx
      rw [ri] at r
      simp at r
      simp [read_set, halt, r]
    · have hba : ¬ b = a := fun e => hk (idx_unique hnd ha (e ▸ hb2))
      simp only [hk, if_false] at hx
      rw [hx] at hx2
      cases hx2
      simp [read_set, hba, r]

theorem ll_get_WellFormed {h : Heap} {l : ll_LinkedList} {as xs : List Nat}
    (w : WellFormed h l as xs) (hds : copy_in_block l.data_size = true)
    (hb : l.len < 2147483648) (i : Nat) (hi : i < l.len) :
    ∃ x, xs[i]? = some x ∧
      ll_get h (some l) true (i : Int) = some ⟨LL_OK, h, some l, some x⟩ := by
  obtain ⟨a, ha, hit⟩ := iterate_to_WellFormed w hb i hi
  obtain ⟨xi, hxi, ri⟩ := w.node ha
  have hia : 0 < as.length := by
    have := idx_lt ha
    omega
  have hne : ll_is_empty (some l) = false := by
    rw [Bool.eq_false_iff, Ne, is_empty_iff_of_WellFormed w]
    intro e
    simp [e] at hia
  refine ⟨xi, hxi, ?_⟩
  unfold ll_get
  have hbd : ¬ ((i : Int) < 0 ∨ (i : Int) ≥ toInt l.len) := by
    rw [toInt_eq hb]
    omega
  simp only [hne, is_index_within_get_bounds, EXPECT_S, hbd, hit,
    if_true, if_false, Bool.not_true, Bool.false_eq_true, Bool.not_false, copy_out, hds, ri,
    Option.map_some']

theorem prev_of_eraseIdx {as : List Nat} {i k : Nat} :
    prev_of (as.eraseIdx i) k = if k ≤ i then prev_of as k else as[k]? := by
  unfold prev_of
  by_cases h0 : k = 0
  · simp [h0]
  · simp only [h0, if_false]
    rw [List.getElem?_eraseIdx]
    by_cases hk : k ≤ i
    · have : k - 1 < i := by omega
      simp [hk, this]
    · have h1 : ¬ k - 1 < i := by omega
      have h2 : k - 1 + 1 = k := by omega
      simp [hk, h1, h2]

theorem ll_remove_WellFormed {h : Heap} {l : ll_LinkedList} {as xs : List Nat}
    (w : WellFormed h l as xs) (hb : l.len < 2147483648) (i : Nat) (hi : i < l.len)
    (out_elem : Bool) (hds : out_elem = true → copy_in_block l.data_size = true) :
    ∃ h1 l1 x, ll_remove h (some l) out_elem (i : Int) =
        some ⟨LL_OK, h1, some l1, if out_elem then some x else none⟩ ∧
      xs[i]? = some x ∧
      WellFormed h1 l1 (as.eraseIdx i) (xs.eraseIdx i) ∧
      l1.data_size = l.data_size ∧ l1.len = l.len - 1 := by
  have w0 := w
  obtain ⟨hlen, hnd, hhead, htail, hl, hn⟩ := w
  have hia : i < as.length := by omega
  have hne : ll_is_empty (some l) = false := by
    rw [Bool.eq_false_iff, Ne, is_empty_iff_of_WellFormed w0]
    intro e
    simp [e] at hia
  have hbd : ¬ ((i : Int) < 0 ∨ (i : Int) ≥ (l.len : Int)) := by
    omega
  unfold ll_remove
  simp only [hne, is_index_within_get_bounds, EXPECT_S, hbd, if_true, if_false, Bool.not_true,
    Bool.false_eq_true, Bool.not_false, toInt_eq hb]
  by_cases hlast : l.len = 1 ∨ (i : Int) = (l.len : Int) - 1
  · have hil : i + 1 = as.length := by omega
    obtain ⟨h1, l1, x, hp, hx, w1, hd1, hl1⟩ :=
      ll_pop_WellFormed w0 (by omega) (by omega) out_elem hds
    simp only [hlast, if_true, hp, EXPECT_PASS]
    refine ⟨h1, l1, x, rfl, ?_, ?_, hd1, hl1⟩
    · have : xs.length - 1 = i := by omega
      rw [← this]
      exact hx
    · rw [List.dropLast_eq_eraseIdx hil, List.dropLast_eq_eraseIdx (by omega : i + 1 = xs.length)]
        at w1
      exact w1
  · simp only [hlast, if_false]
    by_cases h0 : (i : Int) = 0
    · have hi0 : i = 0 := by omega
      subst hi0
      obtain ⟨h1, l1, x, hp, hx, w1, hd1, hl1⟩ :=
        ll_pop_front_WellFormed w0 (by omega) (by omega) out_elem hds
      simp only [h0, if_true, hp, EXPECT_PASS]
      refine ⟨h1, l1, x, rfl, hx, ?_, hd1, hl1⟩
      simpa using w1
    · simp only [h0, if_false]
      have hi1 : 0 < i := by omega
      have hi2 : i + 1 < as.length := by omega
      obtain ⟨t, ht, hit⟩ := iterate_to_WellFormed w0 hb i hi
      obtain ⟨xt, hxt, rt⟩ := w0.node ht
      have ep : as[i - 1]? = some as[i - 1] := List.getElem?_eq_getElem (by omega)
      have en : as[i + 1]? = some as[i + 1] := List.getElem?_eq_getElem hi2
      obtain ⟨xp, hxp, rp⟩ := w0.node ep
      obtain ⟨xn, hxn, rn⟩ := w0.node en
      have hpt : prev_of as i = as[i - 1]? := by
        unfold prev_of
        have : ¬ i = 0 := by omega
        simp [this]
      have hpn : prev_of as (i + 1) = some t := by
        unfold prev_of
        simp [ht]
      have hs : i - 1 + 1 = i := by omega
      rw [hs, ht] at rp
      rw [hpn] at rn
      rw [hpt, ep, en] at rt
      generalize as[i - 1] = p at ep rp rt
      generalize as[i + 1] = nx at en rn rt
      have hpt2 : ¬ p = t := by
        intro e
        have := idx_unique hnd ep (e ▸ ht)
        omega
      have hnt : ¬ nx = t := by
        intro e
        have := idx_unique hnd en (e ▸ ht)
        omega
      have hnp : ¬ nx = p := by
        intro e
        have := idx_unique hnd en (e ▸ ep)
        omega
      have htp : ¬ t = p := fun e => hpt2 e.symm
      have htn : ¬ t = nx := fun e => hnt e.symm
      have hpn2 : ¬ p = nx := fun e => hnp e.symm
      have hplt : p < h.length := read_lt rp
      have hnlt : nx < h.length := read_lt rn
      have htlt : t < h.length := read_lt rt
      have hdec : u32_dec l.len = l.len - 1 := u32_dec_eq (by omega) (by omega)
      have hout : ∀ h2 : Heap, read h2 t = some ⟨some nx, some p, xt⟩ →
          (if out_elem = true then copy_out h2 t l.data_size
          else some none) = some (if out_elem then some xt else none) := by
        intro h2 e2
        cases out_elem <;> simp [copy_out, hds, e2]
      simp only [hit, rt, set_next, rp, set_prev, read_set, hnp, if_false, rn, htp, htn, free,
        List.length_set, hplt, hnlt, if_true]
      rw [hout _ (by simp only [read_set, htn, htp, if_false, rt])]
      simp only [read_set, htn, htp, if_false, rt, List.length_set, hplt, hnlt, if_true]
      refine ⟨_, _, xt, rfl, hxt, ?_, rfl, ?_⟩
      · apply WellFormed.intro
        · rw [List.length_eraseIdx, List.length_eraseIdx]
          simp [hlen]
        · exact hnd.sublist (List.eraseIdx_sublist as i)
        · rw [List.getElem?_eraseIdx]
          simp [hi1, hhead]
        · rw [List.getElem?_eraseIdx, List.length_eraseIdx]
          have h1 : ¬ (if i < as.length then as.length - 1 else as.length) - 1 < i := by
            simp only [hia, if_true]
            omega
          have h2 : (if i < as.length then as.length - 1 else as.length) - 1 + 1
              = as.length - 1 := by
            simp only [hia, if_true]
            omega
          simp only [h1, if_false, h2]
          exact htail
        · show u32_dec l.len = (as.eraseIdx i).length
          rw [hdec, hl, List.length_eraseIdx]
          simp [hia]
        · intro k a x ha hx
          rw [List.getElem?_eraseIdx] at ha hx
          rw [List.getElem?_eraseIdx, prev_of_eraseIdx]
          by_cases hk : k < i
          · simp only [hk, if_true] at ha hx
            obtain ⟨x3, hx3, r⟩ := w0.node ha
            rw [hx] at hx3
            cases hx3
            have hat : ¬ a = t := by
              intro e
              have := idx_unique hnd ha (e ▸ ht)
              omega
            have han : ¬ a = nx := by
              intro e
              have := idx_unique hnd ha (e ▸ en)
              omega
            have hki : k ≤ i := by omega
            by_cases hkp : k = i - 1
            · subst hkp
              rw [ep] at ha
              cases ha
              rw [rp] at r
              simp at r
              have : ¬ i - 1 + 1 < i := by omega
              simp [read_set, hat, han, hplt, this, hki, hs, en, r]
            · have hap : ¬ a = p := fun e => hkp (idx_unique hnd ha (e ▸ ep))
              have : k + 1 < i := by omega
              simp [read_set, hat, han, hap, this, hki, r]
          · simp only [hk, if_false] at ha hx
            obtain ⟨x3, hx3, r⟩ := w0.node ha
            rw [hx] at hx3
            cases hx3
            have hat : ¬ a = t := by
              intro e
              have := idx_unique hnd ha (e ▸ ht)
              omega
            have hap : ¬ a = p := by
              intro e
              have := idx_unique hnd ha (e ▸ ep)
              omega
            have hk1 : ¬ k + 1 < i := by omega
            by_cases hkn : k = i
            · subst hkn
              rw [en] at ha
              cases ha
              rw [rn] at r
              simp at r
              simp [read_set, hat, hap, hnlt, hk1, ep, hpt, r]
            · have han : ¬ a = nx := fun e => hkn (by
                have := idx_unique hnd ha (e ▸ en)
                omega)
              have hki : ¬ k ≤ i := by omega
              have hpk : prev_of as (k + 1) = as[k]? := by
                unfold prev_of
                simp
              simp [read_set, hat, hap, han, hk1, hki, hpk, r]
      · simp [hdec]

/-! ## Sequences of calls -/

theorem run_ops_append (os1 os2 : List Op) :
    ∀ (h : Heap) (self : Option ll_LinkedList),
      run_ops h self (os1 ++ os2) =
        match run_ops h self os1 with
        | none => none
        | some (rs1, h1, s1) =>
          match run_ops h1 s1 os2 with
          | none => none
          | some (rs2, h2, s2) => some (rs1 ++ rs2, h2, s2) := by
  induction os1 with
  | nil =>
    intro h self
    simp only [List.nil_append, run_ops]
    cases run_ops h self os2 with
    | none => rfl
    | some r => rfl
  | cons o os ih =>
    intro h self
    have e : (o :: os) ++ os2 = o :: (os ++ os2) := rfl
    rw [e, run_ops, run_ops]
    cases o.call h self with
    | none => rfl
    | some r =>
      simp only
      rw [ih r.heap r.self]
      cases run_ops r.heap r.self os with
      | none => rfl
      | some q =>
        obtain ⟨rs1, h1, s1⟩ := q
        simp only
        cases run_ops h1 s1 os2 with
        | none => rfl
        | some q2 => rfl

theorem WellFormed.empty_of_is_empty {h : Heap} {l : ll_LinkedList}
    (he : ll_is_empty (some l) = true) : WellFormed h l [] [] := by
  unfold ll_is_empty at he
  simp at he
  apply WellFormed.intro <;> simp [he]

theorem run_push_each (xs : List Nat) :
    ∀ {h : Heap} {l : ll_LinkedList} {as ys : List Nat}, WellFormed h l as ys →
      copy_in_block l.data_size = true → l.len + xs.length < 4294967296 →
      ∃ h1 l1 as1, run_ops h (some l) (xs.map Op.push) =
          some (List.replicate xs.length (LL_OK, none), h1, some l1) ∧
        WellFormed h1 l1 as1 (ys ++ xs) ∧ l1.len = l.len + xs.length ∧
        l1.data_size = l.data_size := by
  induction xs with
  | nil =>
    intro h l as ys w _ _
    exact ⟨h, l, as, rfl, by simpa using w, rfl, rfl⟩
  | cons x xs ih =>
    intro h l as ys w hds hb
    simp only [List.length_cons] at hb
    obtain ⟨h1, l1, hp, w1, hd1, hl1⟩ := ll_push_WellFormed w hds (by omega) x
    obtain ⟨h2, l2, as2, hr, w2, hl2, hd2⟩ := ih w1 (by rw [hd1]; exact hds) (by omega)
    refine ⟨h2, l2, as2, ?_, by simpa using w2, by simp [hl2, hl1]; omega, by rw [hd2, hd1]⟩
    simp only [List.map_cons, run_ops, Op.call, hp, hr, List.length_cons, List.replicate_succ]

theorem run_push_front_each (xs : List Nat) :
    ∀ {h : Heap} {l : ll_LinkedList} {as ys : List Nat}, WellFormed h l as ys →
      copy_in_block l.data_size = true → l.len + xs.length < 4294967296 →
      ∃ h1 l1 as1, run_ops h (some l) (xs.map Op.push_front) =
          some (List.replicate xs.length (LL_OK, none), h1, some l1) ∧
        WellFormed h1 l1 as1 (xs.reverse ++ ys) ∧ l1.len = l.len + xs.length ∧
        l1.data_size = l.data_size := by
  induction xs with
  | nil =>
    intro h l as ys w _ _
    exact ⟨h, l, as, rfl, by simpa using w, rfl, rfl⟩
  | cons x xs ih =>
    intro h l as ys w hds hb
    simp only [List.length_cons] at hb
    obtain ⟨h1, l1, hp, w1, hd1, hl1⟩ := ll_push_front_WellFormed w hds (by omega) x
    obtain ⟨h2, l2, as2, hr, w2, hl2, hd2⟩ := ih w1 (by rw [hd1]; exact hds) (by omega)
    refine ⟨h2, l2, as2, ?_, by simpa using w2, by simp [hl2, hl1]; omega, by rw [hd2, hd1]⟩
    simp only [List.map_cons, run_ops, Op.call, hp, hr, List.length_cons, List.replicate_succ]

theorem run_pop_all (n : Nat) :
    ∀ {h : Heap} {l : ll_LinkedList} {as ys : List Nat}, WellFormed h l as ys →
      copy_in_block l.data_size = true → ys.length = n → l.len < 4294967296 →
      ∃ h1 l1, run_ops h (some l) (List.replicate n Op.pop) =
          some (ys.reverse.map (fun x => (LL_OK, some x)), h1, some l1) ∧
        WellFormed h1 l1 [] [] := by
  induction n with
  | zero =>
    intro h l as ys w _ hn _
    have ey : ys = [] := List.length_eq_zero.mp hn
    have ea : as = [] := List.length_eq_zero.mp (by rw [w.1, hn])
    subst ey; subst ea
    exact ⟨h, l, rfl, w⟩
  | succ n ih =>
    intro h l as ys w hds hn hb
    have hpos : 0 < as.length := by rw [w.1]; omega
    obtain ⟨h1, l1, x, hp, hx, w1, hd1, hl1⟩ := ll_pop_WellFormed w hpos hb true (fun _ => hds)
    have hdl : ys.dropLast.length = n := by simp [hn]
    obtain ⟨h2, l2, hr, w2⟩ := ih w1 (by rw [hd1]; exact hds) hdl (by omega)
    refine ⟨h2, l2, ?_, w2⟩
    have hys : ys = ys.dropLast ++ [x] := by
      have hne : ys ≠ [] := by
        intro e
        simp [e] at hn
      have hlast : ys.getLast hne = x := by
        rw [List.getLast_eq_getElem]
        have := List.getElem?_eq_getElem (by omega : ys.length - 1 < ys.length)
        rw [hx] at this
        exact (Option.some.inj this).symm
      rw [← hlast]
      exact (List.dropLast_append_getLast hne).symm
    have hrev : ys.reverse = x :: ys.dropLast.reverse := by
      conv_lhs => rw [hys]
      simp
    simp only [List.replicate_succ, run_ops, Op.call, hp, hr, hrev, List.map_cons, if_true]

theorem run_pop_front_all (n : Nat) :
    ∀ {h : Heap} {l : ll_LinkedList} {as ys : List Nat}, WellFormed h l as ys →
      copy_in_block l.data_size = true → ys.length = n → l.len < 4294967296 →
      ∃ h1 l1, run_ops h (some l) (List.replicate n Op.pop_front) =
          some (ys.map (fun x => (LL_OK, some x)), h1, some l1) ∧
        WellFormed h1 l1 [] [] := by
  induction n with
  | zero =>
    intro h l as ys w _ hn _
    have ey : ys = [] := List.length_eq_zero.mp hn
    have ea : as = [] := List.length_eq_zero.mp (by rw [w.1, hn])
    subst ey; subst ea
    exact ⟨h, l, rfl, w⟩
  | succ n ih =>
    intro h l as ys w hds hn hb
    have hpos : 0 < as.length := by rw [w.1]; omega
    obtain ⟨h1, l1, x, hp, hx, w1, hd1, hl1⟩ := ll_pop_front_WellFormed w hpos hb true (fun _ => hds)
    have hdl : ys.tail.length = n := by simp [hn]
    obtain ⟨h2, l2, hr, w2⟩ := ih w1 (by rw [hd1]; exact hds) hdl (by omega)
    refine ⟨h2, l2, ?_, w2⟩
    have hys : ys = x :: ys.tail := by
      cases ys with
      | nil => simp at hn
      | cons y ys =>
        simp at hx
        simp [hx]
    conv_rhs => rw [hys]
    simp only [List.replicate_succ, run_ops, Op.call, hp, hr, List.map_cons, if_true]

/-! ## Facts that hold in every state -/

theorem has_valid_some (h : Heap) (l : ll_LinkedList) :
    has_valid_head_tail_state h (some l) = none ∨
      ∃ b, has_valid_head_tail_state h (some l) = some ⟨LL_OK, h, some l, some b⟩ := by
  unfold has_valid_head_tail_state
  simp only
  split
  · exact Or.inr ⟨_, rfl⟩
  · exact Or.inl rfl

theorem get_bounds_some (h : Heap) (l : ll_LinkedList) (index : Int) :
    is_index_within_get_bounds h (some l) index =
      some ⟨LL_OK, h, some l, some (if index < 0 ∨ index ≥ toInt l.len then false else true)⟩ :=
  rfl

theorem insert_bounds_some (h : Heap) (l : ll_LinkedList) (index : Int) :
    is_index_within_insert_bounds h (some l) index =
      some ⟨LL_OK, h, some l, some (if index < 0 ∨ index > toInt l.len then false else true)⟩ :=
  rfl

theorem ll_push_out_none {h : Heap} {s : Option ll_LinkedList} {e : Option Nat} {r : Ret Nat}
    (hr : ll_push h s e = some r) : r.out = none := by
  unfold ll_push at hr
  simp only [EXPECT_S, ERROR_RETURN, malloc] at hr
  repeat' split at hr
  all_goals first
    | exact Option.noConfusion hr
    | (cases hr; rfl)

theorem ll_push_keeps {h : Heap} {l : ll_LinkedList} {e : Option Nat} {r : Ret Nat}
    (hr : ll_push h (some l) e = some r) :
    (∃ l1, r.self = some l1 ∧ l1.data_size = l.data_size) ∧
      r.status ≠ LL_ERROR_INDEX_OUT_OF_BOUNDS := by
  unfold ll_push at hr
  rcases has_valid_some h l with hv | ⟨b, hv⟩
  · simp only [hv, EXPECT_S] at hr
    repeat' split at hr
    all_goals first
      | exact Option.noConfusion hr
      | (cases hr; refine ⟨⟨_, rfl, rfl⟩, ?_⟩; simp)
  · simp only [hv, EXPECT_S, ERROR_RETURN, malloc, if_true] at hr
    repeat' split at hr
    all_goals first
      | exact Option.noConfusion hr
      | (cases hr; refine ⟨⟨_, rfl, rfl⟩, ?_⟩; simp)

theorem ll_push_front_out_none {h : Heap} {s : Option ll_LinkedList} {e : Option Nat}
    {r : Ret Nat} (hr : ll_push_front h s e = some r) : r.out = none := by
  unfold ll_push_front at hr
  simp only [EXPECT_S, EXPECT_PASS, ERROR_RETURN, malloc] at hr
  repeat' split at hr
  all_goals first
    | exact Option.noConfusion hr
    | (cases hr; rfl)
    | (cases hr; exact ll_push_out_none (by assumption))

theorem ll_push_front_keeps {h : Heap} {l : ll_LinkedList} {e : Option Nat} {r : Ret Nat}
    (hr : ll_push_front h (some l) e = some r) :
    (∃ l1, r.self = some l1 ∧ l1.data_size = l.data_size) ∧
      r.status ≠ LL_ERROR_INDEX_OUT_OF_BOUNDS := by
  unfold ll_push_front at hr
  rcases has_valid_some h l with hv | ⟨b, hv⟩
  · simp only [hv, EXPECT_S, EXPECT_PASS] at hr
    repeat' split at hr
    all_goals first
      | exact Option.noConfusion hr
      | (cases hr; rename_i heq hst; first
          | exact ll_push_keeps heq
          | (refine ⟨(ll_push_keeps heq).1, ?_⟩; simp))
      | (cases hr; refine ⟨⟨_, rfl, rfl⟩, ?_⟩; simp)
  · simp only [hv, EXPECT_S, EXPECT_PASS, ERROR_RETURN, malloc, if_true] at hr
    repeat' split at hr
    all_goals first
      | exact Option.noConfusion hr
      | (cases hr; rename_i heq hst; first
          | exact ll_push_keeps heq
          | (refine ⟨(ll_push_keeps heq).1, ?_⟩; simp))
      | (cases hr; refine ⟨⟨_, rfl, rfl⟩, ?_⟩; simp)
theorem iterate_to_frame {h : Heap} {s : Option ll_LinkedList} {o : Bool} {index : Int}
    {r : Ret Nat} (hr : iterate_to h s o index = some r) : r.heap = h ∧ r.self = s := by
  unfold iterate_to at hr
  cases s with
  | none => simp only at hr; cases hr; exact ⟨rfl, rfl⟩
  | some l =>
    rcases has_valid_some h l with hv | ⟨b, hv⟩
    · simp only [hv, EXPECT_S, get_bounds_some] at hr
      repeat' split at hr
      all_goals first
        | exact Option.noConfusion hr
        | (cases hr; exact ⟨rfl, rfl⟩)
    · simp only [hv, EXPECT_S, get_bounds_some, ERROR_RETURN] at hr
      repeat' split at hr
      all_goals first
        | exact Option.noConfusion hr
        | (cases hr; exact ⟨rfl, rfl⟩)

theorem ll_get_frame {h : Heap} {s : Option ll_LinkedList} {o : Bool} {index : Int}
    {r : Ret Nat} (hr : ll_get h s o index = some r) : r.heap = h ∧ r.self = s := by
  unfold ll_get at hr
  cases s with
  | none => simp only at hr; cases hr; exact ⟨rfl, rfl⟩
  | some l =>
    simp only [EXPECT_S, get_bounds_some] at hr
    repeat' split at hr
    all_goals first
      | exact Option.noConfusion hr
      | (cases hr; have hf := iterate_to_frame ‹iterate_to _ _ _ _ = some _›; exact hf)
      | (cases hr; exact ⟨rfl, rfl⟩)

theorem ll_pop_keeps {h : Heap} {l : ll_LinkedList} {o : Bool} {r : Ret Nat}
    (hr : ll_pop h (some l) o = some r) :
    ∃ l1, r.self = some l1 ∧ l1.data_size = l.data_size := by
  unfold ll_pop at hr
  rcases has_valid_some h l with hv | ⟨b, hv⟩
  · simp only [hv, EXPECT_S] at hr
    repeat' split at hr
    all_goals first
      | exact Option.noConfusion hr
      | (cases hr; exact ⟨_, rfl, rfl⟩)
  · simp only [hv, EXPECT_S, ERROR_RETURN, pop_finish, free] at hr
    repeat' split at hr
    all_goals first
      | exact Option.noConfusion hr
      | (cases hr; exact ⟨_, rfl, rfl⟩)

theorem ll_pop_front_keeps {h : Heap} {l : ll_LinkedList} {o : Bool} {r : Ret Nat}
    (hr : ll_pop_front h (some l) o = some r) :
    ∃ l1, r.self = some l1 ∧ l1.data_size = l.data_size := by
  unfold ll_pop_front at hr
  simp only [ERROR_RETURN, pop_finish, free] at hr
  repeat' split at hr
  all_goals first
    | exact Option.noConfusion hr
    | (cases hr; exact ⟨_, rfl, rfl⟩)

theorem ll_set_keeps {h : Heap} {l : ll_LinkedList} {index : Int} {e : Option Nat} {r : Ret Nat}
    (hr : ll_set h (some l) index e = some r) :
    ∃ l1, r.self = some l1 ∧ l1.data_size = l.data_size := by
  unfold ll_set at hr
  rcases has_valid_some h l with hv | ⟨b, hv⟩
  · simp only [hv, EXPECT_S, get_bounds_some] at hr
    repeat' split at hr
    all_goals first
      | exact Option.noConfusion hr
      | (cases hr; exact ⟨_, rfl, rfl⟩)
  · simp only [hv, EXPECT_S, get_bounds_some, ERROR_RETURN] at hr
    repeat' split at hr
    all_goals first
      | exact Option.noConfusion hr
      | (cases hr; have hf := iterate_to_frame ‹iterate_to _ _ _ _ = some _›; exact ⟨l, hf.2, rfl⟩)
      | (cases hr; exact ⟨_, rfl, rfl⟩)

theorem ll_get_keeps {h : Heap} {l : ll_LinkedList} {o : Bool} {index : Int} {r : Ret Nat}
    (hr : ll_get h (some l) o index = some r) :
    ∃ l1, r.self = some l1 ∧ l1.data_size = l.data_size :=
  ⟨l, (ll_get_frame hr).2, rfl⟩
theorem ll_insert_keeps {h : Heap} {l : ll_LinkedList} {index : Int} {e : Option Nat}
    {r : Ret Nat} (hr : ll_insert h (some l) index e = some r) :
    (∃ l1, r.self = some l1 ∧ l1.data_size = l.data_size) ∧
      (r.status = LL_ERROR_INDEX_OUT_OF_BOUNDS → index < 0 ∨ index > toInt l.len) := by
  unfold ll_insert at hr
  simp only [EXPECT_S, insert_bounds_some, EXPECT_PASS, ERROR_RETURN, malloc] at hr
  repeat' split at hr
  all_goals first
    | exact Option.noConfusion hr
    | (cases hr
       have hk := ll_push_keeps ‹ll_push _ _ _ = some _›
       first
         | exact ⟨hk.1, fun e => absurd e hk.2⟩
         | (refine ⟨hk.1, ?_⟩; simp))
    | (cases hr
       have hk := ll_push_front_keeps ‹ll_push_front _ _ _ = some _›
       first
         | exact ⟨hk.1, fun e => absurd e hk.2⟩
         | (refine ⟨hk.1, ?_⟩; simp))
    | (cases hr; refine ⟨⟨_, rfl, rfl⟩, ?_⟩; simp_all)

theorem ll_remove_keeps {h : Heap} {l : ll_LinkedList} {o : Bool} {index : Int}
    {r : Ret Nat} (hr : ll_remove h (some l) o index = some r) :
    ∃ l1, r.self = some l1 ∧ l1.data_size = l.data_size := by
  unfold ll_remove at hr
  simp only [EXPECT_S, get_bounds_some, EXPECT_PASS, ERROR_RETURN, free] at hr
  repeat' split at hr
  all_goals first
    | exact Option.noConfusion hr
    | (cases hr; have hk := ll_pop_keeps ‹ll_pop _ _ _ = some _›; exact hk)
    | (cases hr; have hk := ll_pop_front_keeps ‹ll_pop_front _ _ _ = some _›; exact hk)
    | (cases hr; have hf := iterate_to_frame ‹iterate_to _ _ _ _ = some _›; exact ⟨l, hf.2, rfl⟩)
    | (cases hr; exact ⟨_, rfl, rfl⟩)

theorem ll_pop_skip {h : Heap} {s : Option ll_LinkedList} {r : Ret Nat}
    (hr : ll_pop h s true = some r) :
    ll_pop h s false = some ⟨r.status, r.heap, r.self, none⟩ := by
  unfold ll_pop at hr ⊢
  cases s with
  | none => simp only at hr ⊢; cases hr; rfl
  | some l =>
    rcases has_valid_some h l with hv | ⟨b, hv⟩
    · simp only [hv, EXPECT_S, ERROR_RETURN] at hr ⊢
      repeat' split at hr
      all_goals first
        | exact Option.noConfusion hr
        | (cases hr; simp_all)
    · simp only [hv, EXPECT_S, ERROR_RETURN, pop_finish, free] at hr ⊢
      repeat' split at hr
      all_goals first
        | exact Option.noConfusion hr
        | (cases hr; simp_all)

theorem ll_pop_front_skip {h : Heap} {s : Option ll_LinkedList} {r : Ret Nat}
    (hr : ll_pop_front h s true = some r) :
    ll_pop_front h s false = some ⟨r.status, r.heap, r.self, none⟩ := by
  unfold ll_pop_front at hr ⊢
  cases s with
  | none => simp only at hr ⊢; cases hr; rfl
  | some l =>
    simp only [ERROR_RETURN, pop_finish, free] at hr ⊢
    repeat' split at hr
    all_goals first
      | exact Option.noConfusion hr
      | (cases hr; simp_all)

theorem ll_remove_skip {h : Heap} {s : Option ll_LinkedList} {index : Int} {r : Ret Nat}
    (hr : ll_remove h s true index = some r) :
    ll_remove h s false index = some ⟨r.status, r.heap, r.self, none⟩ := by
  unfold ll_remove at hr ⊢
  cases s with
  | none => simp only at hr ⊢; cases hr; rfl
  | some l =>
    simp only [EXPECT_S, get_bounds_some, EXPECT_PASS, ERROR_RETURN, free] at hr ⊢
    repeat' split at hr
    all_goals first
      | exact Option.noConfusion hr
      | (cases hr
         have hk := ll_pop_skip ‹ll_pop _ _ _ = some _›
         simp_all)
      | (cases hr
         have hk := ll_pop_front_skip ‹ll_pop_front _ _ _ = some _›
         simp_all)
      | (cases hr; simp_all)
theorem ll_insert_len_eq_push (h : Heap) (l : ll_LinkedList) (e : Option Nat)
    (hb : l.len < 2147483648) :
    ll_insert h (some l) (l.len : Int) e = ll_push h (some l) e := by
  cases e with
  | none => simp [ll_insert, ll_push]
  | some v =>
    unfold ll_insert
    have hbd : ¬ ((l.len : Int) < 0 ∨ (l.len : Int) > toInt l.len) := by
      rw [toInt_eq hb]
      omega
    have hc : l.len = 0 ∨ (l.len : Int) = toInt l.len := Or.inr (toInt_eq hb).symm
    simp only [insert_bounds_some, EXPECT_S, hbd, hc, if_true, if_false, Bool.not_true,
      Bool.false_eq_true, EXPECT_PASS]
    cases hp : ll_push h (some l) (some v) with
    | none => rfl
    | some r =>
      have ho := ll_push_out_none hp
      simp only
      split
      · rename_i hst
        cases r
        simp only at ho hst
        subst ho
        subst hst
        rfl
      · rfl

theorem ll_insert_zero_eq_push_front (h : Heap) (l : ll_LinkedList) (e : Option Nat)
    (hpos : 0 < l.len) (hb : l.len < 2147483648) :
    ll_insert h (some l) 0 e = ll_push_front h (some l) e := by
  cases e with
  | none => simp [ll_insert, ll_push_front]
  | some v =>
    unfold ll_insert
    have hbd : ¬ ((0 : Int) < 0 ∨ (0 : Int) > toInt l.len) := by
      rw [toInt_eq hb]
      omega
    have hc : ¬ (l.len = 0 ∨ (0 : Int) = toInt l.len) := by
      rw [toInt_eq hb]
      omega
    simp only [insert_bounds_some, EXPECT_S, hbd, hc, if_true, if_false, Bool.not_true,
      Bool.false_eq_true, EXPECT_PASS]
    cases hp : ll_push_front h (some l) (some v) with
    | none => rfl
    | some r =>
      have ho := ll_push_front_out_none hp
      simp only
      split
      · rename_i hst
        cases r
        simp only at ho hst
        subst ho
        subst hst
        rfl
      · rfl

theorem ll_insert_interior_WellFormed {h : Heap} {l : ll_LinkedList} {as xs : List Nat}
    (w : WellFormed h l as xs) (hds : copy_in_block l.data_size = true)
    (hb : l.len < 2147483648) (i : Nat) (hpos : 0 < i)
    (hi : i < l.len) (v : Nat) :
    ∃ h1, ll_insert h (some l) (i : Int) (some v) =
      some ⟨LL_OK, h1, some { l with len := l.len + 1 }, none⟩ := by
  obtain ⟨t, ht, hit⟩ := iterate_to_WellFormed w hb i hi
  obtain ⟨xt, -, rt⟩ := w.node ht
  have htlt : t < h.length := read_lt rt
  have hne1 : ¬ t = h.length := by omega
  have hne2 : ¬ h.length = t := by omega
  unfold ll_insert
  have hbd : ¬ ((i : Int) < 0 ∨ (i : Int) > toInt l.len) := by
    rw [toInt_eq hb]
    omega
  have hc : ¬ (l.len = 0 ∨ (i : Int) = toInt l.len) := by
    rw [toInt_eq hb]
    omega
  have hz : ¬ (i : Int) = 0 := by omega
  have hinc : u32_inc l.len = l.len + 1 := u32_inc_eq (by omega)
  simp only [insert_bounds_some, EXPECT_S, hbd, hc, hz, if_true, if_false, Bool.not_true,
    Bool.false_eq_true, hit, ne_eq, not_true_eq_false, malloc, read_append, hne1, rt, init_node,
    hds, write, read_set, set_prev, hne2, hinc, List.length_append]
  exact ⟨_, rfl⟩

theorem ll_set_heap {h : Heap} {l : ll_LinkedList} {as xs : List Nat}
    (w : WellFormed h l as xs) (hds : copy_in_block l.data_size = true)
    (hb : l.len < 2147483648) (i : Nat) (hi : i < l.len) (v : Nat) :
    ∃ a, as[i]? = some a ∧
      ll_set h (some l) (i : Int) (some v) =
        some ⟨LL_OK, h.set a (some ⟨as[i + 1]?, prev_of as i, v⟩), some l, none⟩ := by
  obtain ⟨a, ha, hit⟩ := iterate_to_WellFormed w hb i hi
  obtain ⟨xi, hxi, ri⟩ := w.node ha
  refine ⟨a, ha, ?_⟩
  unfold ll_set
  have hbd : ¬ ((i : Int) < 0 ∨ (i : Int) ≥ toInt l.len) := by
    rw [toInt_eq hb]
    omega
  simp only [is_index_within_get_bounds, EXPECT_S, hbd, has_valid_of_WellFormed w, hit,
    if_true, if_false, Bool.not_true, Bool.false_eq_true, Bool.not_false, set_data, hds, ri]

theorem run_ops_keeps (ops : List Op) :
    ∀ (h : Heap) (l : ll_LinkedList) (rs : List (ll_Error × Option Nat)) (h1 : Heap)
      (s1 : Option ll_LinkedList), run_ops h (some l) ops = some (rs, h1, s1) →
      ∃ l1, s1 = some l1 ∧ l1.data_size = l.data_size := by
  induction ops with
  | nil =>
    intro h l rs h1 s1 hr
    simp only [run_ops] at hr
    cases hr
    exact ⟨l, rfl, rfl⟩
  | cons o os ih =>
    intro h l rs h1 s1 hr
    simp only [run_ops] at hr
    cases hc : o.call h (some l) with
    | none => simp [hc] at hr
    | some r =>
      have hk : ∃ l1, r.self = some l1 ∧ l1.data_size = l.data_size := by
        cases o with
        | push v =>
          simp only [Op.call] at hc
          exact (ll_push_keeps hc).1
        | push_front v =>
          simp only [Op.call] at hc
          exact (ll_push_front_keeps hc).1
        | pop =>
          simp only [Op.call] at hc
          exact ll_pop_keeps hc
        | pop_front =>
          simp only [Op.call] at hc
          exact ll_pop_front_keeps hc
        | insert index v =>
          simp only [Op.call] at hc
          exact (ll_insert_keeps hc).1
        | set index v =>
          simp only [Op.call] at hc
          exact ll_set_keeps hc
        | get index =>
          simp only [Op.call] at hc
          exact ll_get_keeps hc
        | remove index =>
          simp only [Op.call] at hc
          exact ll_remove_keeps hc
      obtain ⟨l1, hs, hd⟩ := hk
      simp only [hc, hs] at hr
      cases hq : run_ops r.heap (some l1) os with
      | none => simp [hq] at hr
      | some q =>
        obtain ⟨rs2, h2, s2⟩ := q
        simp only [hq] at hr
        cases hr
        obtain ⟨l2, hs2, hd2⟩ := ih r.heap l1 rs2 _ _ hq
        exact ⟨l2, hs2, hd2.trans hd⟩

theorem not_empty_of_len_pos {l : ll_LinkedList} (hpos : 0 < l.len) :
    ll_is_empty (some l) = false := by
  unfold ll_is_empty
  have : ¬ l.len = 0 := by omega
  simp [this]

theorem ll_remove_last_eq_pop (h : Heap) (l : ll_LinkedList) (o : Bool)
    (hpos : 0 < l.len) (hb : l.len < 2147483648) :
    ll_remove h (some l) o ((l.len : Int) - 1) = ll_pop h (some l) o := by
  unfold ll_remove
  have hbd : ¬ ((l.len : Int) - 1 < 0 ∨ (l.len : Int) - 1 ≥ toInt l.len) := by
    rw [toInt_eq hb]
    omega
  have hc : l.len = 1 ∨ (l.len : Int) - 1 = toInt l.len - 1 := by
    rw [toInt_eq hb]
    exact Or.inr rfl
  simp only [not_empty_of_len_pos hpos, get_bounds_some, EXPECT_S, hbd, hc, if_true, if_false,
    Bool.not_true, Bool.false_eq_true, EXPECT_PASS]
  cases hp : ll_pop h (some l) o with
  | none => rfl
  | some r =>
    simp only
    split
    · rename_i hst
      cases r
      simp only at hst
      subst hst
      rfl
    · rfl

theorem ll_remove_zero_eq_pop_front (h : Heap) (l : ll_LinkedList) (o : Bool)
    (hpos : 2 ≤ l.len) (hb : l.len < 2147483648) :
    ll_remove h (some l) o 0 = ll_pop_front h (some l) o := by
  unfold ll_remove
  have hbd : ¬ ((0 : Int) < 0 ∨ (0 : Int) ≥ toInt l.len) := by
    rw [toInt_eq hb]
    omega
  have hc : ¬ (l.len = 1 ∨ (0 : Int) = toInt l.len - 1) := by
    rw [toInt_eq hb]
    omega
  simp only [not_empty_of_len_pos (by omega : 0 < l.len), get_bounds_some, EXPECT_S, hbd, hc,
    if_true, if_false, Bool.not_true, Bool.false_eq_true, EXPECT_PASS]
  cases hp : ll_pop_front h (some l) o with
  | none => rfl
  | some r =>
    simp only
    split
    · rename_i hst
      cases r
      simp only at hst
      subst hst
      rfl
    · rfl

theorem toInt_neg {n : Nat} (h1 : 2147483648 ≤ n) (h2 : n < 4294967296) : toInt n < 0 := by
  unfold toInt
  have : n % 4294967296 = n := by omega
  rw [this]
  split <;> omega

theorem init_node_some {h : Heap} {p d : Nat} {n : ll_LinkedListNode} {h1 : Heap}
    (e : init_node h p d n = some h1) : copy_in_block d = true := by
  unfold init_node at e
  by_cases hc : copy_in_block d = true
  · exact hc
  · simp [hc] at e

theorem set_data_some {h : Heap} {a d v : Nat} {h1 : Heap}
    (e : set_data h a d v = some h1) : copy_in_block d = true := by
  unfold set_data at e
  by_cases hc : copy_in_block d = true
  · exact hc
  · simp [hc] at e

theorem copy_out_some {h : Heap} {a d : Nat} {o : Option Nat}
    (e : copy_out h a d = some o) : copy_in_block d = true := by
  unfold copy_out at e
  by_cases hc : copy_in_block d = true
  · exact hc
  · simp [hc] at e

theorem ll_push_ok_fits {h : Heap} {l : ll_LinkedList} {e : Option Nat} {r : Ret Nat}
    (hr : ll_push h (some l) e = some r) (hok : r.status = LL_OK) :
    copy_in_block l.data_size = true := by
  unfold ll_push at hr
  rcases has_valid_some h l with hv | ⟨b, hv⟩
  · simp only [hv, EXPECT_S] at hr
    repeat' split at hr
    all_goals first
      | exact Option.noConfusion hr
      | (cases hr; simp only at hok; contradiction)
  · simp only [hv, EXPECT_S, ERROR_RETURN, malloc, if_true] at hr
    repeat' split at hr
    all_goals first
      | exact Option.noConfusion hr
      | (cases hr; simp only at hok; contradiction)
      | (apply init_node_some; assumption)

theorem ll_push_front_ok_fits {h : Heap} {l : ll_LinkedList} {e : Option Nat} {r : Ret Nat}
    (hr : ll_push_front h (some l) e = some r) (hok : r.status = LL_OK) :
    copy_in_block l.data_size = true := by
  unfold ll_push_front at hr
  rcases has_valid_some h l with hv | ⟨b, hv⟩
  · simp only [hv, EXPECT_S, EXPECT_PASS] at hr
    repeat' split at hr
    all_goals first
      | exact Option.noConfusion hr
      | (cases hr; simp only at hok; contradiction)
      | (cases hr; contradiction)
      | (cases hr; apply ll_push_ok_fits <;> assumption)
  · simp only [hv, EXPECT_S, EXPECT_PASS, ERROR_RETURN, malloc, if_true] at hr
    repeat' split at hr
    all_goals first
      | exact Option.noConfusion hr
      | (cases hr; simp only at hok; contradiction)
      | (cases hr; contradiction)
      | (cases hr; apply ll_push_ok_fits <;> assumption)
      | (apply init_node_some; assumption)

theorem ll_set_ok_fits {h : Heap} {l : ll_LinkedList} {index : Int} {e : Option Nat}
    {r : Ret Nat} (hr : ll_set h (some l) index e = some r) (hok : r.status = LL_OK) :
    copy_in_block l.data_size = true := by
  unfold ll_set at hr
  rcases has_valid_some h l with hv | ⟨b, hv⟩
  · simp only [hv, EXPECT_S, get_bounds_some] at hr
    repeat' split at hr
    all_goals first
      | exact Option.noConfusion hr
      | (cases hr; simp only at hok; contradiction)
  · simp only [hv, EXPECT_S, ERROR_RETURN, get_bounds_some] at hr
    repeat' split at hr
    all_goals first
      | exact Option.noConfusion hr
      | (cases hr; simp only at hok; contradiction)
      | (simp only [not_true_eq_false] at *)
      | (apply set_data_some; assumption)

theorem ll_pop_ok_fits {h : Heap} {l : ll_LinkedList} {r : Ret Nat}
    (hr : ll_pop h (some l) true = some r) (hok : r.status = LL_OK) :
    copy_in_block l.data_size = true := by
  unfold ll_pop at hr
  rcases has_valid_some h l with hv | ⟨b, hv⟩
  · simp only [hv, EXPECT_S] at hr
    repeat' split at hr
    all_goals first
      | exact Option.noConfusion hr
      | (cases hr; simp only at hok; contradiction)
  · simp only [hv, EXPECT_S, ERROR_RETURN, if_true] at hr
    repeat' split at hr
    all_goals first
      | exact Option.noConfusion hr
      | (cases hr; simp only at hok; contradiction)
      | (apply copy_out_some; assumption)

theorem ll_pop_front_ok_fits {h : Heap} {l : ll_LinkedList} {r : Ret Nat}
    (hr : ll_pop_front h (some l) true = some r) (hok : r.status = LL_OK) :
    copy_in_block l.data_size = true := by
  unfold ll_pop_front at hr
  cases hh : l.head with
  | none =>
    simp only [hh, ERROR_RETURN, if_true] at hr
    repeat' split at hr
    all_goals first
      | exact Option.noConfusion hr
      | (cases hr; simp only at hok; contradiction)
  | some hd =>
    simp only [hh, ERROR_RETURN, if_true] at hr
    repeat' split at hr
    all_goals first
      | exact Option.noConfusion hr
      | (cases hr; simp only at hok; contradiction)
      | (apply copy_out_some; assumption)

theorem ll_remove_ok_fits {h : Heap} {l : ll_LinkedList} {index : Int} {r : Ret Nat}
    (hr : ll_remove h (some l) true index = some r) (hok : r.status = LL_OK) :
    copy_in_block l.data_size = true := by
  unfold ll_remove at hr
  simp only [EXPECT_S, EXPECT_PASS, get_bounds_some, ERROR_RETURN, if_true] at hr
  repeat' split at hr
  all_goals first
    | exact Option.noConfusion hr
    | (cases hr; simp only at hok; contradiction)
    | (cases hr; apply ll_pop_ok_fits <;> assumption)
    | (cases hr; apply ll_pop_front_ok_fits <;> assumption)
    | (apply copy_out_some; assumption)

theorem WellFormed.after_call {h : Heap} {l : ll_LinkedList} {as xs : List Nat}
    (w : WellFormed h l as xs) (hu : l.len < 4294967296)
    (elem : Option Nat) (out_elem : Bool) (index : Int) (r : Ret Nat)
    (hr : (l.len + 1 < 4294967296 ∧
        (ll_push h (some l) elem = some r ∨ ll_push_front h (some l) elem = some r)) ∨
      ll_pop h (some l) out_elem = some r ∨ ll_pop_front h (some l) out_elem = some r ∨
      ll_set h (some l) index elem = some r ∨ ll_remove h (some l) out_elem index = some r ∨
      ll_insert h (some l) 0 elem = some r ∨
      ll_insert h (some l) (l.len : Int) elem = some r)
    (hok : r.status = LL_OK) :
    ∃ l1 as1 xs1, r.self = some l1 ∧ WellFormed r.heap l1 as1 xs1 := by
  have hl : l.len = as.length := w.2.2.2.2.1
  have hpush : l.len + 1 < 4294967296 → ∀ v r, ll_push h (some l) (some v) = some r →
      r.status = LL_OK → ∃ l1 as1 xs1, r.self = some l1 ∧ WellFormed r.heap l1 as1 xs1 := by
    intro hb v r hr hok
    obtain ⟨h1, l1, hp, w1, -, -⟩ := ll_push_WellFormed w (ll_push_ok_fits hr hok) hb v
    rw [hp] at hr
    cases hr
    exact ⟨l1, _, _, rfl, w1⟩
  have hpushf : l.len + 1 < 4294967296 → ∀ v r, ll_push_front h (some l) (some v) = some r →
      r.status = LL_OK → ∃ l1 as1 xs1, r.self = some l1 ∧ WellFormed r.heap l1 as1 xs1 := by
    intro hb v r hr hok
    obtain ⟨h1, l1, hp, w1, -, -⟩ :=
      ll_push_front_WellFormed w (ll_push_front_ok_fits hr hok) hb v
    rw [hp] at hr
    cases hr
    exact ⟨l1, _, _, rfl, w1⟩
  have hrange : ∀ i : Int, ¬ (i < 0 ∨ i ≥ toInt l.len) →
      l.len < 2147483648 ∧ ∃ n : Nat, i = (n : Int) ∧ n < l.len := by
    intro i hi
    have hlt : l.len < 2147483648 := by
      by_contra hc
      have := toInt_neg (by omega : 2147483648 ≤ l.len) (by omega)
      omega
    rw [toInt_eq hlt] at hi
    exact ⟨hlt, i.toNat, by omega, by omega⟩
  rcases hr with ⟨hb, hr | hr⟩ | hr | hr | hr | hr | hr | hr
  · cases elem with
    | none =>
      simp only [ll_push] at hr
      cases hr
      cases hok
    | some v => exact hpush hb v r hr hok
  · cases elem with
    | none =>
      simp only [ll_push_front] at hr
      cases hr
      cases hok
    | some v => exact hpushf hb v r hr hok
  · rcases Nat.eq_zero_or_pos as.length with h0 | hpos
    · have he : ll_is_empty (some l) = true :=
        (is_empty_iff_of_WellFormed w).mpr (List.length_eq_zero.mp h0)
      simp only [ll_pop, he, if_true] at hr
      cases hr
      cases hok
    · have hds : out_elem = true → copy_in_block l.data_size = true := by
        intro ho
        subst ho
        exact ll_pop_ok_fits hr hok
      obtain ⟨h1, l1, x, hp, -, w1, -, -⟩ := ll_pop_WellFormed w hpos hu out_elem hds
      rw [hp] at hr
      cases hr
      exact ⟨l1, _, _, rfl, w1⟩
  · rcases Nat.eq_zero_or_pos as.length with h0 | hpos
    · have he : ll_is_empty (some l) = true :=
        (is_empty_iff_of_WellFormed w).mpr (List.length_eq_zero.mp h0)
      simp only [ll_pop_front, he, if_true] at hr
      cases hr
      cases hok
    · have hds : out_elem = true → copy_in_block l.data_size = true := by
        intro ho
        subst ho
        exact ll_pop_front_ok_fits hr hok
      obtain ⟨h1, l1, x, hp, -, w1, -, -⟩ := ll_pop_front_WellFormed w hpos hu out_elem hds
      rw [hp] at hr
      cases hr
      exact ⟨l1, _, _, rfl, w1⟩
  · cases elem with
    | none =>
      simp only [ll_set] at hr
      cases hr
      cases hok
    | some v =>
      by_cases hi : index < 0 ∨ index ≥ toInt l.len
      · simp [ll_set, get_bounds_some, EXPECT_S, hi] at hr
        rw [← hr] at hok
        cases hok
      · obtain ⟨hlt, n, rfl, hn⟩ := hrange index hi
        obtain ⟨h1, hs, w1⟩ := ll_set_WellFormed w (ll_set_ok_fits hr hok) hlt n hn v
        rw [hs] at hr
        cases hr
        exact ⟨l, _, _, rfl, w1⟩
  · rcases Nat.eq_zero_or_pos as.length with h0 | hpos
    · have he : ll_is_empty (some l) = true :=
        (is_empty_iff_of_WellFormed w).mpr (List.length_eq_zero.mp h0)
      simp only [ll_remove, he, if_true] at hr
      cases hr
      cases hok
    · have hne : ll_is_empty (some l) = false := not_empty_of_len_pos (by omega)
      by_cases hi : index < 0 ∨ index ≥ toInt l.len
      · simp [ll_remove, hne, get_bounds_some, EXPECT_S, hi] at hr
        rw [← hr] at hok
        cases hok
      · obtain ⟨hlt, n, rfl, hn⟩ := hrange index hi
        have hds : out_elem = true → copy_in_block l.data_size = true := by
          intro ho
          subst ho
          exact ll_remove_ok_fits hr hok
        obtain ⟨h1, l1, x, hp, -, w1, -, -⟩ := ll_remove_WellFormed w hlt n hn out_elem hds
        rw [hp] at hr
        cases hr
        exact ⟨l1, _, _, rfl, w1⟩
  · cases elem with
    | none =>
      simp only [ll_insert] at hr
      cases hr
      cases hok
    | some v =>
      by_cases hlt : l.len < 2147483648
      · rcases Nat.eq_zero_or_pos l.len with h0 | hpos
        · have e : (0 : Int) = (l.len : Int) := by omega
          rw [e, ll_insert_len_eq_push h l (some v) hlt] at hr
          exact hpush (by omega) v r hr hok
        · rw [ll_insert_zero_eq_push_front h l (some v) hpos hlt] at hr
          exact hpushf (by omega) v r hr hok
      · have hneg := toInt_neg (by omega : 2147483648 ≤ l.len) (by omega)
        have hi : (0 : Int) < 0 ∨ (0 : Int) > toInt l.len := Or.inr (by omega)
        simp [ll_insert, insert_bounds_some, EXPECT_S, hi, hneg] at hr
        rw [← hr] at hok
        cases hok
  · cases elem with
    | none =>
      simp only [ll_insert] at hr
      cases hr
      cases hok
    | some v =>
      by_cases hlt : l.len < 2147483648
      · rw [ll_insert_len_eq_push h l (some v) hlt] at hr
        exact hpush (by omega) v r hr hok
      · have hneg := toInt_neg (by omega : 2147483648 ≤ l.len) (by omega)
        have hi : (l.len : Int) < 0 ∨ (l.len : Int) > toInt l.len := Or.inr (by omega)
        simp [ll_insert, insert_bounds_some, EXPECT_S, hi] at hr
        rw [← hr] at hok
        cases hok

theorem ll_pop_failure_frame {h : Heap} {l : ll_LinkedList} {o : Bool} {r : Ret Nat}
    (hl : l.len ≠ 0 ∨ ll_is_empty (some l) = true)
    (hr : ll_pop h (some l) o = some r) (hst : r.status ≠ LL_OK) :
    r.self = some l ∧ r.heap = h := by
  unfold ll_pop at hr
  by_cases he : ll_is_empty (some l) = true
  · simp only [he, if_true] at hr
    cases hr
    exact ⟨rfl, rfl⟩
  · have hlen : ¬ l.len = 0 := by
      rcases hl with hl | hl
      · exact hl
      · exact absurd hl he
    rcases has_valid_some h l with hv | ⟨b, hv⟩
    · simp only [he, hv, EXPECT_S, ERROR_RETURN] at hr
      repeat' split at hr
      all_goals first
        | exact Option.noConfusion hr
        | (cases hr; exact ⟨rfl, rfl⟩)
    · simp only [he, hv, EXPECT_S, ERROR_RETURN, pop_finish, free, hlen, if_false] at hr
      repeat' split at hr
      all_goals first
        | exact Option.noConfusion hr
        | (cases hr; exact ⟨rfl, rfl⟩)
        | (cases hr; exact absurd rfl hst)

theorem ll_pop_front_failure_frame {h : Heap} {l : ll_LinkedList} {o : Bool} {r : Ret Nat}
    (hl : l.len ≠ 0 ∨ ll_is_empty (some l) = true)
    (hr : ll_pop_front h (some l) o = some r) (hst : r.status ≠ LL_OK) :
    r.self = some l ∧ r.heap = h := by
  unfold ll_pop_front at hr
  by_cases he : ll_is_empty (some l) = true
  · simp only [he, if_true] at hr
    cases hr
    exact ⟨rfl, rfl⟩
  · have hlen : ¬ l.len = 0 := by
      rcases hl with hl | hl
      · exact hl
      · exact absurd hl he
    simp only [he, ERROR_RETURN, pop_finish, free, hlen, if_false] at hr
    repeat' split at hr
    all_goals first
      | exact Option.noConfusion hr
      | (cases hr; exact ⟨rfl, rfl⟩)
      | (cases hr; exact absurd rfl hst)

theorem ll_pop_failure_len {h : Heap} {l : ll_LinkedList} {o : Bool} {r : Ret Nat}
    (hr : ll_pop h (some l) o = some r) (hst : r.status ≠ LL_OK) :
    ∃ l1, r.self = some l1 ∧ l1.len = l.len := by
  unfold ll_pop at hr
  rcases has_valid_some h l with hv | ⟨b, hv⟩
  · simp only [hv, EXPECT_S, ERROR_RETURN] at hr
    repeat' split at hr
    all_goals first
      | exact Option.noConfusion hr
      | (cases hr; exact ⟨_, rfl, rfl⟩)
  · simp only [hv, EXPECT_S, ERROR_RETURN, pop_finish, free] at hr
    repeat' split at hr
    all_goals first
      | exact Option.noConfusion hr
      | (cases hr; exact absurd rfl hst)
      | (cases hr; exact ⟨_, rfl, rfl⟩)

theorem ll_pop_front_failure_len {h : Heap} {l : ll_LinkedList} {o : Bool} {r : Ret Nat}
    (hr : ll_pop_front h (some l) o = some r) (hst : r.status ≠ LL_OK) :
    ∃ l1, r.self = some l1 ∧ l1.len = l.len := by
  unfold ll_pop_front at hr
  simp only [ERROR_RETURN, pop_finish, free] at hr
  repeat' split at hr
  all_goals first
    | exact Option.noConfusion hr
    | (cases hr; exact absurd rfl hst)
    | (cases hr; exact ⟨_, rfl, rfl⟩)

/-! ## Character arrays -/

theorem put_length {buf : List Char} {off : Nat} {cs : List Char}
    (hb : off + cs.length ≤ buf.length) : (put buf off cs).length = buf.length := by
  unfold put
  simp only [List.length_append, List.length_take, List.length_drop]
  omega

theorem getElem?_put {buf : List Char} {off : Nat} {cs : List Char} (hoff : off ≤ buf.length)
    (i : Nat) :
    (put buf off cs)[i]? =
      if i < off then buf[i]? else if i < off + cs.length then cs[i - off]? else buf[i]? := by
  unfold put
  have hl : (buf.take off).length = off := by
    rw [List.length_take]
    omega
  rw [List.getElem?_append, hl]
  by_cases h1 : i < off
  · simp only [h1, if_true]
    exact List.getElem?_take_of_lt h1
  · simp only [h1, if_false]
    rw [List.getElem?_append]
    by_cases h2 : i < off + cs.length
    · have : i - off < cs.length := by omega
      simp only [h2, this, if_true]
    · have : ¬ i - off < cs.length := by omega
      simp only [h2, this, if_false]
      rw [List.getElem?_drop]
      congr 1
      omega

theorem put_put {buf : List Char} {off : Nat} {p z cs : List Char}
    (hz : z.length ≤ cs.length) (hb : off + p.length + z.length ≤ buf.length) :
    put (put buf off (p ++ z)) (off + p.length) cs = put buf off (p ++ cs) := by
  have hlen : (put buf off (p ++ z)).length = buf.length :=
    put_length (by simp only [List.length_append]; omega)
  apply List.ext_getElem?
  intro i
  rw [getElem?_put (by omega), getElem?_put (by omega), getElem?_put (by omega)]
  simp only [List.length_append]
  by_cases h1 : i < off
  · have : i < off + p.length := by omega
    simp only [h1, this, if_true]
  · by_cases h2 : i < off + p.length
    · have h3 : i < off + (p.length + z.length) := by omega
      have h4 : i < off + (p.length + cs.length) := by omega
      simp only [h1, h2, h3, h4, if_true, if_false]
      rw [List.getElem?_append_left (by omega), List.getElem?_append_left (by omega)]
    · by_cases h3 : i < off + p.length + cs.length
      · have h4 : i < off + (p.length + cs.length) := by omega
        simp only [h1, h2, h3, h4, if_true, if_false]
        rw [List.getElem?_append_right (by omega)]
        congr 1
        omega
      · have h4 : ¬ i < off + (p.length + cs.length) := by omega
        have h5 : ¬ i < off + (p.length + z.length) := by omega
        simp only [h1, h2, h3, h4, h5, if_false]

theorem put_eq_append {buf : List Char} {off : Nat} {cs : List Char} :
    put buf off cs = buf.take off ++ (cs ++ buf.drop (off + cs.length)) := rfl

theorem store_eq_put {buf : List Char} {off : Nat} {cs : List Char}
    (hne : cs ≠ []) (hb : off + cs.length ≤ buf.length) :
    store buf off cs = some (put buf off cs) := by
  unfold store
  simp only [hne, hb, if_true, if_false]

theorem strlen_cons_NUL (cs : List Char) : strlen (NUL :: cs) = some 0 := by
  simp [strlen]

theorem body_text_eq_intercalate (xs : List Nat) :
    body_text xs = List.intercalate [',', ' '] (xs.map (Nat.toDigits 10)) := by
  induction xs with
  | nil => rfl
  | cons x rest ih =>
    cases rest with
    | nil => simp [body_text, List.intercalate]
    | cons y r =>
      simp only [body_text, List.intercalate] at ih ⊢
      simp only [List.map_cons, List.intersperse_cons₂, List.flatten_cons, if_false,
        reduceCtorEq]
      rw [ih]
      simp

theorem spec_rendering_eq (xs : List Nat) :
    spec_rendering xs = '[' :: (body_text xs ++ [']']) := by
  unfold spec_rendering
  rw [body_text_eq_intercalate]
  rfl

theorem ite_ne_NUL {c : Prop} [Decidable c] {a b : Char} (ha : a ≠ NUL) (hb : b ≠ NUL) :
    (if c then a else b) ≠ NUL := by
  split <;> assumption

theorem digitChar_ne_NUL (n : Nat) : Nat.digitChar n ≠ NUL := by
  unfold Nat.digitChar
  repeat (refine ite_ne_NUL (by decide) ?_)
  decide

theorem toDigitsCore_ne_NUL (b : Nat) :
    ∀ (f n : Nat) (ds : List Char), (∀ c ∈ ds, c ≠ NUL) →
      ∀ c ∈ Nat.toDigitsCore b f n ds, c ≠ NUL := by
  intro f
  induction f with
  | zero =>
    intro n ds hds c hc
    simp only [Nat.toDigitsCore] at hc
    exact hds c hc
  | succ f ih =>
    intro n ds hds c hc
    simp only [Nat.toDigitsCore] at hc
    have hcons : ∀ c ∈ Nat.digitChar (n % b) :: ds, c ≠ NUL := by
      intro c hc
      rcases List.mem_cons.mp hc with rfl | hc
      · exact digitChar_ne_NUL _
      · exact hds c hc
    split at hc
    · exact hcons c hc
    · exact ih _ _ hcons c hc

theorem toDigits_ne_NUL (n : Nat) : ∀ c ∈ Nat.toDigits 10 n, c ≠ NUL := by
  unfold Nat.toDigits
  exact toDigitsCore_ne_NUL 10 _ _ [] (by simp)

theorem toDigits_length_pos (n : Nat) : 0 < (Nat.toDigits 10 n).length := by
  unfold Nat.toDigits
  simp only [Nat.toDigitsCore]
  split
  · simp
  · rw [Nat.toDigitsCore_lens_eq]
    omega

theorem body_text_ne_NUL (xs : List Nat) : ∀ c ∈ body_text xs, c ≠ NUL := by
  induction xs with
  | nil => simp [body_text]
  | cons x rest ih =>
    intro c hc
    simp only [body_text, List.mem_append] at hc
    rcases hc with hc | hc | hc
    · exact toDigits_ne_NUL x c hc
    · split at hc
      · simp at hc
      · simp only [List.mem_cons, List.mem_singleton, List.not_mem_nil, or_false] at hc
        rcases hc with rfl | rfl <;> decide
    · exact ih c hc

theorem spec_rendering_ne_NUL (xs : List Nat) : ∀ c ∈ spec_rendering xs, c ≠ NUL := by
  rw [spec_rendering_eq]
  intro c hc
  simp only [List.mem_cons, List.mem_append, List.mem_singleton, List.not_mem_nil,
    or_false] at hc
  rcases hc with rfl | hc | rfl
  · decide
  · exact body_text_ne_NUL xs c hc
  · decide

theorem c_string_append_NUL (s rest : List Char) (hs : ∀ c ∈ s, c ≠ NUL) :
    c_string (s ++ NUL :: rest) = s := by
  unfold c_string
  induction s with
  | nil => simp [List.takeWhile]
  | cons c s ih =>
    have hc : c ≠ NUL := hs c (List.mem_cons_self c s)
    have h2 := ih (fun d hd => hs d (List.mem_cons_of_mem c hd))
    simp only [List.cons_append, List.takeWhile, hc, ne_eq, not_false_eq_true, decide_True]
    exact congrArg (List.cons c) h2

theorem fmt_d_of_small {x : Nat} (hx : x < 2147483648) :
    fmt_d (toInt (x % 4294967296)) = Nat.toDigits 10 x := by
  have h1 : x % 4294967296 = x := by omega
  rw [h1, toInt_eq hx]
  unfold fmt_d
  have : ¬ ((x : Int) < 0) := by omega
  simp only [this, if_false, Int.toNat_ofNat]

/-- One round of the loop of `ll_display_u32` at the `k`-th node of a
well-formed list of values below `2^31`. -/
theorem display_loop_step {h : Heap} {l : ll_LinkedList} {as xs : List Nat}
    (w : WellFormed h l as xs) (hv : ∀ x ∈ xs, x < 2147483648) (res_len : Int)
    {k : Nat} (hk : k < as.length) (fuel : Nat) (buf : List Char) (cur : Nat) :
    ∃ x, xs[k]? = some x ∧
      display_loop h res_len (fuel + 1) as[k]? buf cur =
        match snprintf buf cur (res_len - (cur : Int)).toNat
            (Nat.toDigits 10 x ++ (if xs.drop (k + 1) = [] then [] else [',', ' '])) with
        | none => none
        | some (buf1, chars_written) =>
          if chars_written > res_len - (cur : Int) then
            some (some LL_ERROR_INSUFFICIENT_SIZE, buf1, cur)
          else if chars_written < 0 then some (some LL_ERROR_INTERNAL, buf1, cur)
          else display_loop h res_len fuel as[k + 1]? buf1 (cur + chars_written.toNat) := by
  have ek : as[k]? = some as[k] := List.getElem?_eq_getElem hk
  obtain ⟨x, hx, r⟩ := w.node ek
  refine ⟨x, hx, ?_⟩
  have hxlt : x < 2147483648 := hv x (idx_mem hx)
  have hlen : as.length = xs.length := w.1
  have hs : (if as[k + 1]? = none then fmt_d (toInt (x % 4294967296))
      else fmt_d (toInt (x % 4294967296)) ++ [',', ' ']) =
      Nat.toDigits 10 x ++ (if xs.drop (k + 1) = [] then [] else [',', ' ']) := by
    rw [fmt_d_of_small hxlt]
    by_cases hlast : k + 1 < as.length
    · have h1 : ¬ as[k + 1]? = none := by
        rw [List.getElem?_eq_getElem hlast]
        simp
      have h2 : ¬ xs.drop (k + 1) = [] := by
        rw [List.drop_eq_nil_iff]
        omega
      simp only [h1, h2, if_false]
    · have h1 : as[k + 1]? = none := List.getElem?_eq_none (by omega)
      have h2 : xs.drop (k + 1) = [] := by
        rw [List.drop_eq_nil_iff]
        omega
      simp only [h1, h2, if_true, List.append_nil]
  rw [ek]
  simp only [display_loop, r, hs]

theorem body_text_drop {xs : List Nat} {k : Nat} {x : Nat} (hx : xs[k]? = some x) :
    body_text (xs.drop k) =
      (Nat.toDigits 10 x ++ (if xs.drop (k + 1) = [] then [] else [',', ' '])) ++
        body_text (xs.drop (k + 1)) := by
  have hk : k < xs.length := idx_lt hx
  have hd : xs.drop k = x :: xs.drop (k + 1) := by
    rw [List.drop_eq_getElem_cons hk]
    have := List.getElem?_eq_getElem hk
    rw [hx] at this
    rw [Option.some.inj this]
  rw [hd]
  simp only [body_text, List.append_assoc]

theorem display_loop_none (h : Heap) (res_len : Int) (fuel : Nat) (buf : List Char)
    (cur : Nat) : display_loop h res_len fuel none buf cur = some (none, buf, cur) := by
  cases fuel <;> rfl

theorem piece_length_pos (x : Nat) (t : List Char) :
    0 < (Nat.toDigits 10 x ++ t).length := by
  have := toDigits_length_pos x
  simp only [List.length_append]
  omega

theorem display_loop_no_fit {h : Heap} {l : ll_LinkedList} {as xs : List Nat}
    (w : WellFormed h l as xs) (hv : ∀ x ∈ xs, x < 2147483648) (res_len : Int) :
    ∀ (m k : Nat) (buf : List Char) (cur fuel : Nat), k + m = as.length →
      (cur : Int) ≤ res_len → res_len ≤ (buf.length : Int) → res_len < (cur : Int) + fuel →
      res_len ≤ (cur : Int) + (body_text (xs.drop k)).length →
      ∃ st buf1 c1, display_loop h res_len fuel as[k]? buf cur = some (st, buf1, c1) ∧
        (st = some LL_ERROR_INSUFFICIENT_SIZE ∨ (st = none ∧ (c1 : Int) = res_len)) := by
  intro m
  induction m with
  | zero =>
    intro k buf cur fuel hk hc _ _ hfit
    have hnone : as[k]? = none := List.getElem?_eq_none (by omega)
    have hd : xs.drop k = [] := by
      rw [List.drop_eq_nil_iff, ← w.1]
      omega
    rw [hd] at hfit
    simp only [body_text, List.length_nil] at hfit
    rw [hnone, display_loop_none]
    exact ⟨none, buf, cur, rfl, Or.inr ⟨rfl, by omega⟩⟩
  | succ m ih =>
    intro k buf cur fuel hk hc hbuf hfuel hfit
    obtain ⟨f, rfl⟩ : ∃ f, fuel = f + 1 := ⟨fuel - 1, by omega⟩
    obtain ⟨x, hx, hstep⟩ := display_loop_step w hv res_len (by omega : k < as.length) f buf cur
    rw [hstep]
    have hbody := congrArg List.length (body_text_drop hx)
    rw [List.length_append] at hbody
    generalize hs : Nat.toDigits 10 x ++ (if xs.drop (k + 1) = [] then [] else [',', ' ']) = s
      at hbody
    have hspos : 0 < s.length := by
      rw [← hs]
      exact piece_length_pos x _
    generalize hr : (res_len - (cur : Int)).toNat = r
    have hrr : (r : Int) = res_len - cur := by omega
    unfold snprintf
    by_cases hr0 : r = 0
    · have hgt : (s.length : Int) > res_len - cur := by omega
      simp only [hr0, if_true, hgt]
      exact ⟨_, _, _, rfl, Or.inl rfl⟩
    · have hne : s.take (r - 1) ++ [NUL] ≠ [] := by simp
      have hbound : cur + (s.take (r - 1) ++ [NUL]).length ≤ buf.length := by
        simp only [List.length_append, List.length_take, List.length_singleton]
        omega
      simp only [hr0, if_false, store_eq_put hne hbound]
      by_cases hgt : (s.length : Int) > res_len - cur
      · simp only [hgt, if_true]
        exact ⟨_, _, _, rfl, Or.inl rfl⟩
      · have hneg : ¬ (s.length : Int) < 0 := by omega
        simp only [hgt, hneg, if_false, Int.toNat_ofNat]
        apply ih (k + 1) _ (cur + s.length) f (by omega)
        · push_cast
          omega
        · rw [put_length hbound]
          exact hbuf
        · push_cast
          omega
        · push_cast
          omega

theorem display_loop_fit {h : Heap} {l : ll_LinkedList} {as xs : List Nat}
    (w : WellFormed h l as xs) (hv : ∀ x ∈ xs, x < 2147483648) (res_len : Int) :
    ∀ (m k : Nat) (buf : List Char) (cur fuel : Nat), k + m + 1 = as.length →
      res_len ≤ (buf.length : Int) → res_len < (cur : Int) + fuel →
      (cur : Int) + (body_text (xs.drop k)).length < res_len →
      display_loop h res_len fuel as[k]? buf cur =
        some (none, put buf cur (body_text (xs.drop k) ++ [NUL]),
          cur + (body_text (xs.drop k)).length) := by
  intro m
  induction m with
  | zero =>
    intro k buf cur fuel hk hbuf hfuel hfit
    obtain ⟨f, rfl⟩ : ∃ f, fuel = f + 1 := ⟨fuel - 1, by omega⟩
    obtain ⟨x, hx, hstep⟩ := display_loop_step w hv res_len (by omega : k < as.length) f buf cur
    rw [hstep]
    have hd : xs.drop (k + 1) = [] := by
      rw [List.drop_eq_nil_iff, ← w.1]
      omega
    have hbt := body_text_drop hx
    rw [hd] at hbt
    simp only [body_text, List.append_nil, if_true] at hbt
    simp only [hd, if_true, List.append_nil]
    rw [hbt] at hfit ⊢
    generalize Nat.toDigits 10 x = s at hfit
    generalize hr : (res_len - (cur : Int)).toNat = r
    have hrr : (r : Int) = res_len - cur := by omega
    unfold snprintf
    have hr0 : ¬ r = 0 := by omega
    have htake : s.take (r - 1) = s := List.take_of_length_le (by omega)
    have hne : s ++ [NUL] ≠ [] := by simp
    have hbound : cur + (s ++ [NUL]).length ≤ buf.length := by
      simp only [List.length_append, List.length_singleton]
      omega
    have hgt : ¬ (s.length : Int) > res_len - cur := by omega
    have hneg : ¬ (s.length : Int) < 0 := by omega
    have hnone : as[k + 1]? = none := List.getElem?_eq_none (by omega)
    simp only [hr0, if_false, htake, store_eq_put hne hbound, hgt, hneg, Int.toNat_ofNat,
      hnone, display_loop_none]
  | succ m ih =>
    intro k buf cur fuel hk hbuf hfuel hfit
    obtain ⟨f, rfl⟩ : ∃ f, fuel = f + 1 := ⟨fuel - 1, by omega⟩
    obtain ⟨x, hx, hstep⟩ := display_loop_step w hv res_len (by omega : k < as.length) f buf cur
    rw [hstep]
    have hbt := body_text_drop hx
    rw [hbt] at hfit ⊢
    rw [List.length_append] at hfit
    generalize hs : Nat.toDigits 10 x ++ (if xs.drop (k + 1) = [] then [] else [',', ' ']) = s
      at hfit
    have hspos : 0 < s.length := by
      rw [← hs]
      exact piece_length_pos x _
    generalize hr : (res_len - (cur : Int)).toNat = r
    have hrr : (r : Int) = res_len - cur := by omega
    unfold snprintf
    have hr0 : ¬ r = 0 := by omega
    have htake : s.take (r - 1) = s := List.take_of_length_le (by omega)
    have hne : s ++ [NUL] ≠ [] := by simp
    have hbound : cur + (s ++ [NUL]).length ≤ buf.length := by
      simp only [List.length_append, List.length_singleton]
      omega
    have hgt : ¬ (s.length : Int) > res_len - cur := by omega
    have hneg : ¬ (s.length : Int) < 0 := by omega
    simp only [hr0, if_false, htake, store_eq_put hne hbound, hgt, hneg, Int.toNat_ofNat]
    rw [ih (k + 1) _ (cur + s.length) f (by omega)
      (by rw [put_length hbound]; exact hbuf) (by push_cast; omega) (by push_cast; omega)]
    have hpp : put (put buf cur (s ++ [NUL])) (cur + s.length)
        (body_text (xs.drop (k + 1)) ++ [NUL]) =
        put buf cur (s ++ (body_text (xs.drop (k + 1)) ++ [NUL])) :=
      put_put (by simp) (by simp only [List.length_singleton]; omega)
    rw [hpp]
    simp only [List.length_append, List.append_assoc, Nat.add_assoc]

theorem drop_put_at (buf : List Char) (off : Nat) (p : List Char) (c : Char) (q : List Char)
    (hoff : off ≤ buf.length) :
    ∃ rest, (put buf off (p ++ c :: q)).drop (off + p.length) = c :: rest := by
  unfold put
  have hl : (buf.take off ++ p).length = off + p.length := by
    rw [List.length_append, List.length_take]
    omega
  refine ⟨q ++ buf.drop (off + (p ++ c :: q).length), ?_⟩
  have e : buf.take off ++ ((p ++ c :: q) ++ buf.drop (off + (p ++ c :: q).length)) =
      (buf.take off ++ p) ++ (c :: (q ++ buf.drop (off + (p ++ c :: q).length))) := by
    simp only [List.append_assoc, List.cons_append]
  rw [e, ← hl, List.drop_left]

theorem strncpy_bracket {res : List Char} {n : Nat} (hn : 1 ≤ n) (hb : n ≤ res.length) :
    strncpy res 0 ['['] n = some (put res 0 ('[' :: List.replicate (n - 1) NUL)) := by
  unfold strncpy
  have e : (['['] ++ List.replicate (n - ['['].length) NUL).take n =
      '[' :: List.replicate (n - 1) NUL := by
    apply List.take_of_length_le
    simp only [List.length_append, List.length_singleton, List.length_replicate]
    omega
  rw [e]
  apply store_eq_put (by simp)
  simp only [List.length_cons, List.length_replicate]
  omega

/-- The outcome of `ll_display_u32` on a well-formed list of values below
`2^31` when the rendering does not fit in `res_len` characters. -/
theorem ll_display_u32_no_fit {h : Heap} {l : ll_LinkedList} {as xs : List Nat}
    (w : WellFormed h l as xs) (hv : ∀ x ∈ xs, x < 2147483648) (res : List Char)
    (res_len : Int) (hfit : res_len < ((spec_rendering xs).length : Int))
    (hb : res_len ≤ (res.length : Int)) :
    ∃ buf, ll_display_u32 h (some l) res res_len =
      some ⟨LL_ERROR_INSUFFICIENT_SIZE, h, some l, some buf⟩ := by
  unfold ll_display_u32
  by_cases h1 : res_len < 1
  · simp only [h1, if_true]
    exact ⟨res, rfl⟩
  · have hR : (spec_rendering xs).length = (body_text xs).length + 2 := by
      rw [spec_rendering_eq]
      simp
    rw [hR] at hfit
    simp only [h1, if_false, has_valid_of_WellFormed w, EXPECT_S, if_true, Bool.not_true,
      Bool.false_eq_true]
    rw [strncpy_bracket (by omega) (by omega)]
    simp only
    have hpl : (put res 0 ('[' :: List.replicate (res_len.toNat - 1) NUL)).length =
        res.length := by
      apply put_length
      simp only [List.length_cons, List.length_replicate]
      omega
    obtain ⟨st, buf1, c1, hloop, hst⟩ := display_loop_no_fit w hv res_len as.length 0
      (put res 0 ('[' :: List.replicate (res_len.toNat - 1) NUL)) 1 (res_len.toNat + 1)
      (by omega) (by omega) (by rw [hpl]; exact hb) (by push_cast; omega)
      (by simp only [List.drop_zero]; push_cast; omega)
    rw [w.2.2.1, hloop]
    rcases hst with rfl | ⟨rfl, hc1⟩
    · exact ⟨buf1, rfl⟩
    · have : res_len - (c1 : Int) < 1 := by omega
      simp only [this, if_true]
      exact ⟨buf1, rfl⟩

/-- The outcome of `ll_display_u32` on a well-formed list of values below
`2^31` when the rendering fits in `res_len` characters and the array has
room for one more. -/
theorem ll_display_u32_fit {h : Heap} {l : ll_LinkedList} {as xs : List Nat}
    (w : WellFormed h l as xs) (hv : ∀ x ∈ xs, x < 2147483648) (res : List Char)
    (res_len : Int) (hfit : ((spec_rendering xs).length : Int) ≤ res_len)
    (hb : res_len < (res.length : Int)) :
    ll_display_u32 h (some l) res res_len =
      some ⟨LL_OK, h, some l,
        some (put (put res 0 ('[' :: List.replicate (res_len.toNat - 1) NUL)) 1
          (body_text xs ++ [']', NUL]))⟩ := by
  unfold ll_display_u32
  have hR : (spec_rendering xs).length = (body_text xs).length + 2 := by
    rw [spec_rendering_eq]
    simp
  rw [hR] at hfit
  push_cast at hfit
  have h1 : ¬ res_len < 1 := by omega
  simp only [h1, if_false, has_valid_of_WellFormed w, EXPECT_S, if_true, Bool.not_true,
    Bool.false_eq_true]
  rw [strncpy_bracket (by omega) (by omega)]
  simp only
  generalize hbuf0 : put res 0 ('[' :: List.replicate (res_len.toNat - 1) NUL) = buf0
  have hpl : buf0.length = res.length := by
    rw [← hbuf0]
    apply put_length
    simp only [List.length_cons, List.length_replicate]
    omega
  have hrem : ¬ res_len - ((1 + (body_text xs).length : Nat) : Int) < 1 := by
    push_cast
    omega
  have hstore : store buf0 (1 + (body_text xs).length) [']', NUL] =
      some (put buf0 (1 + (body_text xs).length) [']', NUL]) := by
    apply store_eq_put (by simp)
    simp only [List.length_cons, List.length_nil]
    omega
  have htake : ∀ r : Nat, 1 ≤ r → [']'].take r = [']'] := by
    intro r hr
    apply List.take_of_length_le
    simpa using hr
  have hr1 : 1 ≤ (res_len - ((1 + (body_text xs).length : Nat) : Int)).toNat := by
    push_cast
    omega
  rcases Nat.eq_zero_or_pos as.length with h0 | hpos
  · have ea : as = [] := List.length_eq_zero.mp h0
    have ex : xs = [] := List.length_eq_zero.mp (by rw [← w.1, h0])
    subst ea
    subst ex
    have hhead : l.head = none := by simpa using w.2.2.1
    simp only [body_text, List.length_nil, Nat.add_zero, List.nil_append] at hrem hstore hr1 ⊢
    rw [hhead, display_loop_none]
    simp only [hrem, if_false]
    have hsl : strlen (buf0.drop 1) = some 0 := by
      have hcons : List.replicate (res_len.toNat - 1) NUL =
          NUL :: List.replicate (res_len.toNat - 2) NUL := by
        have : res_len.toNat - 1 = (res_len.toNat - 2) + 1 := by omega
        rw [this, List.replicate_succ]
      obtain ⟨rest, hrest⟩ := drop_put_at res 0 ['['] NUL
        (List.replicate (res_len.toNat - 2) NUL) (by omega)
      simp only [List.singleton_append, List.length_singleton, Nat.zero_add] at hrest
      rw [← hbuf0, hcons, hrest, strlen_cons_NUL]
    unfold strncat
    simp only [hsl, Nat.add_zero, htake _ hr1, List.singleton_append, hstore]
  · rw [w.2.2.1]
    have hloop := display_loop_fit w hv res_len (as.length - 1) 0 buf0 1 (res_len.toNat + 1)
      (by omega) (by rw [hpl]; omega) (by push_cast; omega)
      (by simp only [List.drop_zero]; push_cast; omega)
    simp only [List.drop_zero] at hloop
    rw [hloop]
    simp only [hrem, if_false]
    have hsl : strlen ((put buf0 1 (body_text xs ++ [NUL])).drop (1 + (body_text xs).length)) =
        some 0 := by
      obtain ⟨rest, hrest⟩ := drop_put_at buf0 1 (body_text xs) NUL []
        (by omega)
      rw [hrest, strlen_cons_NUL]
    have hstore2 : store (put buf0 1 (body_text xs ++ [NUL])) (1 + (body_text xs).length)
        [']', NUL] = some (put buf0 1 (body_text xs ++ [']', NUL])) := by
      rw [store_eq_put (by simp), put_put (by simp)]
      · simp only [List.length_singleton]
        omega
      · rw [put_length]
        · simp only [List.length_cons, List.length_nil]
          omega
        · simp only [List.length_append, List.length_singleton]
          omega
    unfold strncat
    simp only [hsl, Nat.add_zero, htake _ hr1, List.singleton_append, hstore2]

theorem put_bracket_eq (res : List Char) (n : Nat) (body : List Char)
    (hn : body.length + 2 ≤ n) (hb : n < res.length) :
    put (put res 0 ('[' :: List.replicate (n - 1) NUL)) 1 (body ++ [']', NUL]) =
      ('[' :: (body ++ [']'])) ++
        NUL :: (put res 0 ('[' :: List.replicate (n - 1) NUL)).drop (body.length + 3) := by
  have hpl : (put res 0 ('[' :: List.replicate (n - 1) NUL)).length = res.length := by
    apply put_length
    simp only [List.length_cons, List.length_replicate]
    omega
  have htake : (put res 0 ('[' :: List.replicate (n - 1) NUL)).take 1 = ['['] := by
    simp [put]
  rw [put_eq_append, htake]
  simp only [List.length_append, List.length_cons, List.length_nil, List.singleton_append,
    List.cons_append, List.append_assoc, List.nil_append]
  have : 1 + (body.length + (0 + 1 + 1)) = body.length + 3 := by omega
  rw [this]

theorem drop_after_display (res : List Char) (n : Nat) (body : List Char) (k : Nat)
    (hn : body.length + 2 ≤ n) (hb : n < res.length) (hk1 : n ≤ k)
    (hk2 : body.length + 3 ≤ k) :
    (put (put res 0 ('[' :: List.replicate (n - 1) NUL)) 1 (body ++ [']', NUL])).drop k =
      res.drop k := by
  have hpl : (put res 0 ('[' :: List.replicate (n - 1) NUL)).length = res.length := by
    apply put_length
    simp only [List.length_cons, List.length_replicate]
    omega
  apply List.ext_getElem?
  intro i
  rw [List.getElem?_drop, List.getElem?_drop, getElem?_put (by omega), getElem?_put (by omega)]
  simp only [List.length_append, List.length_cons, List.length_nil, List.length_replicate]
  have h1 : ¬ k + i < 1 := by omega
  have h2 : ¬ k + i < 1 + (body.length + (0 + 1 + 1)) := by omega
  have h3 : ¬ k + i < 0 := by omega
  have h4 : ¬ k + i < 0 + (n - 1 + 1) := by omega
  simp only [h1, h2, h3, h4, if_false]

/-- A copy of `res_len` characters into a shorter array leaves the array: the
model of `ll_display_u32` has no outcome. -/
theorem ll_display_u32_outside {h : Heap} {l : ll_LinkedList} {as xs : List Nat}
    (w : WellFormed h l as xs) (res : List Char) (res_len : Int)
    (hb : (res.length : Int) < res_len) :
    ll_display_u32 h (some l) res res_len = none := by
  unfold ll_display_u32
  have h1 : ¬ res_len < 1 := by omega
  have hs : strncpy res 0 ['['] res_len.toNat = none := by
    unfold strncpy store
    have hlen : ((['['] ++ List.replicate (res_len.toNat - ['['].length) NUL).take
        res_len.toNat).length = res_len.toNat := by
      simp only [List.length_take, List.length_append, List.length_singleton,
        List.length_replicate]
      omega
    have hne : (['['] ++ List.replicate (res_len.toNat - ['['].length) NUL).take
        res_len.toNat ≠ [] := by
      intro e
      rw [e] at hlen
      simp only [List.length_nil] at hlen
      omega
    rw [if_neg hne, hlen, if_neg (by omega)]
  simp only [h1, if_false, has_valid_of_WellFormed w, EXPECT_S, if_true, Bool.not_true,
    Bool.false_eq_true, hs]

/-! ## Lists at the limits of `int` and `u32` -/

theorem pushes_reach (n : Nat) (hn : n < 4294967296) :
    ∃ h l as, run_ops [] (ll_new 4) ((List.replicate n 7).map Op.push) =
        some (List.replicate n (LL_OK, none), h, some l) ∧
      WellFormed h l as (List.replicate n 7) ∧ l.len = n ∧ l.data_size = 4 := by
  have w0 : WellFormed [] ⟨none, none, 4, 0⟩ [] [] := by decide
  obtain ⟨h1, l1, as1, hr, w1, hl1, hd1⟩ :=
    run_push_each (List.replicate n 7) w0 (by decide) (by simp only [List.length_replicate]; omega)
  simp only [List.length_replicate, List.nil_append, Nat.zero_add] at hr w1 hl1
  exact ⟨h1, l1, as1, hr, w1, hl1, hd1⟩

theorem push_fronts_reach (n : Nat) (hn : n < 4294967296) :
    ∃ h l as, run_ops [] (ll_new 4) ((List.replicate n 7).map Op.push_front) =
        some (List.replicate n (LL_OK, none), h, some l) ∧
      WellFormed h l as (List.replicate n 7) ∧ l.len = n ∧ l.data_size = 4 := by
  have w0 : WellFormed [] ⟨none, none, 4, 0⟩ [] [] := by decide
  obtain ⟨h1, l1, as1, hr, w1, hl1, hd1⟩ :=
    run_push_front_each (List.replicate n 7) w0 (by decide)
      (by simp only [List.length_replicate]; omega)
  simp only [List.length_replicate, List.append_nil, Nat.zero_add, List.reverse_replicate]
    at hr w1 hl1
  exact ⟨h1, l1, as1, hr, w1, hl1, hd1⟩

/-- On a list whose `len` is `2^31` or more, `(int)self->len` is negative
and every index from 0 on is refused. -/
theorem refused_of_long {h : Heap} {l : ll_LinkedList} (hne : ll_is_empty (some l) = false)
    (h1 : 2147483648 ≤ l.len) (h2 : l.len < 4294967296) (index : Int) (hlo : 0 ≤ index)
    (v : Nat) (out_elem : Bool) :
    ll_get h (some l) true index = some ⟨LL_ERROR_INDEX_OUT_OF_BOUNDS, h, some l, none⟩ ∧
    ll_set h (some l) index (some v) =
      some ⟨LL_ERROR_INDEX_OUT_OF_BOUNDS, h, some l, none⟩ ∧
    ll_remove h (some l) out_elem index =
      some ⟨LL_ERROR_INDEX_OUT_OF_BOUNDS, h, some l, none⟩ ∧
    iterate_to h (some l) true index =
      some ⟨LL_ERROR_INDEX_OUT_OF_BOUNDS, h, some l, none⟩ ∧
    ll_insert h (some l) index (some v) =
      some ⟨LL_ERROR_INDEX_OUT_OF_BOUNDS, h, some l, none⟩ := by
  have hneg := toInt_neg h1 h2
  have hbd : index < 0 ∨ index ≥ toInt l.len := Or.inr (by omega)
  have hbi : index < 0 ∨ index > toInt l.len := Or.inr (by omega)
  refine ⟨?_, ?_, ?_, ?_, ?_⟩
  · simp [ll_get, hne, is_index_within_get_bounds, EXPECT_S, hbd]
  · simp [ll_set, is_index_within_get_bounds, EXPECT_S, hbd]
  · simp [ll_remove, hne, is_index_within_get_bounds, EXPECT_S, hbd]
  · simp [iterate_to, hne, is_index_within_get_bounds, EXPECT_S, hbd]
  · simp [ll_insert, is_index_within_insert_bounds, EXPECT_S, hbi]

/-- A chain of two or more nodes whose header says `len == 0`: `ll_pop`
unlinks the tail and then fails on the test of `len`. -/
theorem ll_pop_len_zero {h : Heap} {l : ll_LinkedList} {as xs : List Nat} {n : Nat}
    (w : WellFormed h { l with len := n } as xs) (hl : l.len = 0) (hn2 : 2 ≤ as.length)
    (hds : copy_in_block l.data_size = true) :
    ∃ r, ll_pop h (some l) true = some r ∧ r.status = LL_ERROR_INTERNAL := by
  have w0 := w
  obtain ⟨hlen, hnd, hhead, htail, -, -⟩ := w
  simp only at hhead htail
  have e0 : as[0]? = some as[0] := List.getElem?_eq_getElem (by omega)
  have hlast : as.length - 1 < as.length := by omega
  have e1 : as[as.length - 1]? = some as[as.length - 1] := List.getElem?_eq_getElem hlast
  have hpl : as.length - 2 < as.length := by omega
  have e2 : as[as.length - 2]? = some as[as.length - 2] := List.getElem?_eq_getElem hpl
  obtain ⟨x0, -, r0⟩ := w0.node e0
  obtain ⟨x1, -, r1⟩ := w0.node e1
  obtain ⟨x2, -, r2⟩ := w0.node e2
  have hnone : as[as.length - 1 + 1]? = none := List.getElem?_eq_none (by omega)
  rw [hnone] at r1
  have hs : as.length - 2 + 1 = as.length - 1 := by omega
  rw [hs, e1] at r2
  have hpv : prev_of as (as.length - 1) = some as[as.length - 2] := by
    unfold prev_of
    have h1 : ¬ as.length - 1 = 0 := by omega
    have h3 : as.length - 1 - 1 = as.length - 2 := by omega
    simp only [h1, if_false, h3, e2]
  rw [hpv] at r1
  simp only [prev_of, if_true] at r0
  have hht : ¬ as[0] = as[as.length - 1] := by
    intro e
    have := idx_unique hnd e0 (e ▸ e1)
    omega
  have hpt : ¬ as[as.length - 2] = as[as.length - 1] := by
    intro e
    have := idx_unique hnd e2 (e ▸ e1)
    omega
  generalize as[as.length - 1] = tl at e1 r1 r2 hht hpt
  generalize as[as.length - 2] = p at e2 r1 r2 hpt
  generalize as[0] = hd at e0 r0 hht
  rw [e0] at hhead
  rw [e1] at htail
  have hne : ll_is_empty (some l) = false := by
    simp [ll_is_empty, hhead]
  have hv : has_valid_head_tail_state h (some l) = some ⟨LL_OK, h, some l, some true⟩ := by
    unfold has_valid_head_tail_state
    simp [hhead, htail, r0, r1, hl]
  unfold ll_pop
  simp only [hne, hhead, htail, hv, EXPECT_S, if_true, Bool.not_true, if_false,
    Bool.false_eq_true, copy_out, hds, r1, Option.map_some', hht, Option.some.injEq, hpt,
    set_next, r2, pop_finish, hl, ERROR_RETURN]
  exact ⟨_, rfl, rfl⟩

/-- A chain of two or more nodes whose header says `len == 0`:
`ll_pop_front` unlinks the head and then fails on the test of `len`. -/
theorem ll_pop_front_len_zero {h : Heap} {l : ll_LinkedList} {as xs : List Nat} {n : Nat}
    (w : WellFormed h { l with len := n } as xs) (hl : l.len = 0) (hn2 : 2 ≤ as.length)
    (hds : copy_in_block l.data_size = true) :
    ∃ r, ll_pop_front h (some l) true = some r ∧ r.status = LL_ERROR_INTERNAL := by
  have w0 := w
  obtain ⟨hlen, hnd, hhead, htail, -, -⟩ := w
  simp only at hhead htail
  have e0 : as[0]? = some as[0] := List.getElem?_eq_getElem (by omega)
  have hlast : as.length - 1 < as.length := by omega
  have e1 : as[as.length - 1]? = some as[as.length - 1] := List.getElem?_eq_getElem hlast
  have e2 : as[1]? = some as[1] := List.getElem?_eq_getElem (by omega)
  obtain ⟨x0, -, r0⟩ := w0.node e0
  obtain ⟨x2, -, r2⟩ := w0.node e2
  simp only [zero_add] at r0
  rw [e2] at r0
  have hht : ¬ as[0] = as[as.length - 1] := by
    intro e
    have := idx_unique hnd e0 (e ▸ e1)
    omega
  generalize as[as.length - 1] = tl at e1 hht
  generalize as[1] = nx at e2 r0 r2
  generalize as[0] = hd at e0 r0 hht
  rw [e0] at hhead
  rw [e1] at htail
  have hne : ll_is_empty (some l) = false := by
    simp [ll_is_empty, hhead]
  unfold ll_pop_front
  simp only [hne, hhead, htail, if_true, if_false, Bool.false_eq_true, copy_out, hds, r0,
    Option.map_some', hht, Option.some.injEq, set_prev, r2, pop_finish, hl, ERROR_RETURN]
  exact ⟨_, rfl, rfl⟩
theorem pushes_wrap :
    ∃ h l as xs n, run_ops [] (ll_new 4) ((List.replicate 4294967296 7).map Op.push) =
        some (List.replicate 4294967296 (LL_OK, none), h, some l) ∧
      WellFormed h { l with len := n } as xs ∧ 2 ≤ as.length ∧ l.len = 0 ∧
      l.head ≠ none ∧ l.tail ≠ none ∧ l.data_size = 4 := by
  obtain ⟨h1, l1, as1, hr1, w1, hl1, hd1⟩ := pushes_reach 4294967295 (by decide)
  have hds : copy_in_block l1.data_size = true := by rw [hd1]; decide
  obtain ⟨h2, l2, hp, w2, hd2, hl2, hh2, ht2⟩ := ll_push_chain w1 hds 7
  have e : List.replicate 4294967296 7 = List.replicate 4294967295 7 ++ [7] :=
    List.replicate_succ' 4294967295 7
  have e2 : List.replicate 4294967296 (LL_OK, (none : Option Nat)) =
      List.replicate 4294967295 (LL_OK, none) ++ [(LL_OK, none)] :=
    List.replicate_succ' 4294967295 (LL_OK, none)
  have hlen : as1.length = 4294967295 := by
    rw [← w1.2.2.2.2.1, hl1]
  refine ⟨h2, l2, _, _, _, ?_, w2, ?_, ?_, hh2, by rw [ht2]; simp, by rw [hd2, hd1]⟩
  · rw [e, e2, List.map_append, run_ops_append, hr1]
    simp only [List.map_cons, List.map_nil, run_ops, Op.call, hp]
  · rw [List.length_append, hlen]
    simp
  · rw [hl2, hl1]
    decide

theorem push_fronts_wrap :
    ∃ h l as xs n, run_ops [] (ll_new 4) ((List.replicate 4294967296 7).map Op.push_front) =
        some (List.replicate 4294967296 (LL_OK, none), h, some l) ∧
      WellFormed h { l with len := n } as xs ∧ 2 ≤ as.length ∧ l.len = 0 ∧
      l.head ≠ none ∧ l.tail ≠ none ∧ l.data_size = 4 := by
  obtain ⟨h1, l1, as1, hr1, w1, hl1, hd1⟩ := push_fronts_reach 4294967295 (by decide)
  have hds : copy_in_block l1.data_size = true := by rw [hd1]; decide
  obtain ⟨h2, l2, hp, w2, hd2, hl2, hh2, ht2⟩ := ll_push_front_chain w1 hds 7
  have e : List.replicate 4294967296 7 = List.replicate 4294967295 7 ++ [7] :=
    List.replicate_succ' 4294967295 7
  have e2 : List.replicate 4294967296 (LL_OK, (none : Option Nat)) =
      List.replicate 4294967295 (LL_OK, none) ++ [(LL_OK, none)] :=
    List.replicate_succ' 4294967295 (LL_OK, none)
  have hlen : as1.length = 4294967295 := by
    rw [← w1.2.2.2.2.1, hl1]
  refine ⟨h2, l2, _, _, _, ?_, w2, ?_, ?_, by rw [hh2]; simp, ht2, by rw [hd2, hd1]⟩
  · rw [e, e2, List.map_append, run_ops_append, hr1]
    simp only [List.map_cons, List.map_nil, run_ops, Op.call, hp]
  · rw [List.length_cons, hlen]
    decide
  · rw [hl2, hl1]
    decide

theorem not_WellFormed_of_len_zero {h : Heap} {l : ll_LinkedList} (hl : l.len = 0)
    (ht : l.tail ≠ none) (as xs : List Nat) : ¬ WellFormed h l as xs := by
  intro w
  have h0 : as.length = 0 := by rw [← w.2.2.2.2.1, hl]
  have e : as = [] := List.length_eq_zero.mp h0
  subst e
  have := w.2.2.2.1
  simp at this
  exact ht this

/-! ## The claims -/

/-- C1, evaluated at the failing input: two pushes build the well-formed
list `[10, 20]`; `ll_insert` at the interior index 1 returns `LL_OK` and
`len` grows from 2 to 3, yet the following `ll_get` at index 1 returns
`LL_OK` with the old occupant 20 and not the inserted 99, because the
`next` link of the predecessor (node 0) still leads to node 1 and skips the
new node 2. -/
theorem insert_interior_then_get_misses_new_node :
    run_ops [] (ll_new 4) [.push 10, .push 20] =
      some ([(LL_OK, none), (LL_OK, none)],
        [some ⟨some 1, none, 10⟩, some ⟨none, some 0, 20⟩], some ⟨some 0, some 1, 4, 2⟩) ∧
    WellFormed [some ⟨some 1, none, 10⟩, some ⟨none, some 0, 20⟩] ⟨some 0, some 1, 4, 2⟩
      [0, 1] [10, 20] ∧
    ll_insert [some ⟨some 1, none, 10⟩, some ⟨none, some 0, 20⟩] (some ⟨some 0, some 1, 4, 2⟩)
        1 (some 99) =
      some ⟨LL_OK, [some ⟨some 1, none, 10⟩, some ⟨none, some 2, 20⟩, some ⟨some 1, some 0, 99⟩],
        some ⟨some 0, some 1, 4, 3⟩, none⟩ ∧
    ll_get [some ⟨some 1, none, 10⟩, some ⟨none, some 2, 20⟩, some ⟨some 1, some 0, 99⟩]
        (some ⟨some 0, some 1, 4, 3⟩) true 1 =
      some ⟨LL_OK, [some ⟨some 1, none, 10⟩, some ⟨none, some 2, 20⟩, some ⟨some 1, some 0, 99⟩],
        some ⟨some 0, some 1, 4, 3⟩, some 20⟩ := by
  decide

/-- C2, evaluated at the failing input: the calls `ll_push(10)`,
`ll_push(20)`, `ll_insert(1, 99)`, `ll_pop_front`, `ll_pop_front` on a fresh
list all return `LL_OK` and leave a list with `len == 1` whose head and tail
are both unset. -/
theorem reachable_state_with_len_one_and_no_head :
    run_ops [] (ll_new 4) [.push 10, .push 20, .insert 1 99, .pop_front, .pop_front] =
      some ([(LL_OK, none), (LL_OK, none), (LL_OK, none), (LL_OK, some 10), (LL_OK, some 20)],
        [none, none, some ⟨some 1, some 0, 99⟩], some ⟨none, none, 4, 1⟩) := by
  decide

/-- C3, evaluated at the failing input: on the well-formed list `[10, 20]`,
after `ll_insert(1, 99)` has returned `LL_OK`, the call `ll_remove(out, 1)`
returns `LL_ERROR_INTERNAL`, writes nothing to `out` and leaves `len == 3`:
the walk from head reaches the old occupant of index 1, which is the tail
and has no successor. -/
theorem insert_interior_then_remove_fails :
    run_ops [] (ll_new 4) [.push 10, .push 20, .insert 1 99, .remove 1] =
      some ([(LL_OK, none), (LL_OK, none), (LL_OK, none), (LL_ERROR_INTERNAL, none)],
        [some ⟨some 1, none, 10⟩, some ⟨none, some 2, 20⟩, some ⟨some 1, some 0, 99⟩],
        some ⟨some 0, some 1, 4, 3⟩) := by
  decide

/-- C4, the claim as stated fails at `n = 2^32`: after `2^32` calls of
`ll_push` on a fresh list of 4-byte elements, all of which return `LL_OK`,
the `u32` field `len` has wrapped to 0 while head and tail are set, and the
first `ll_pop` returns `LL_ERROR_INTERNAL`, not `LL_OK`. -/
theorem push_pop_fails_when_len_wraps :
    ∃ h l, run_ops [] (ll_new 4) ((List.replicate 4294967296 7).map Op.push) =
        some (List.replicate 4294967296 (LL_OK, none), h, some l) ∧
      l.len = 0 ∧ l.head ≠ none ∧ l.tail ≠ none ∧
      ∃ r, ll_pop h (some l) true = some r ∧ r.status = LL_ERROR_INTERNAL ∧
        r.status ≠ LL_OK := by
  obtain ⟨h, l, as, xs, n, hr, w, h2, hl, hh, ht, hd⟩ := pushes_wrap
  obtain ⟨r, hp, hs⟩ := ll_pop_len_zero w hl h2 (by rw [hd]; decide)
  exact ⟨h, l, hr, hl, hh, ht, r, hp, hs, by rw [hs]; decide⟩

/-- C4 as amended, stack law at the tail for fewer than `2^32` elements:
from an empty list whose elements fit the node blocks, pushing `x1 .. xn`
with `ll_push`, `n < 2^32`, and then calling `ll_pop` `n` times returns
`LL_OK` every time, the pops yield `xn, .., x1`, the list ends with head and
tail unset and `len` 0, and one more `ll_pop` returns
`LL_ERROR_EMPTY_LINKED_LIST`. -/
theorem push_pop_stack_law (h0 : Heap) (l0 : ll_LinkedList) (xs : List Nat)
    (hemp : ll_is_empty (some l0) = true) (hds : copy_in_block l0.data_size = true)
    (hn : xs.length < 4294967296) :
    ∃ h2 l2,
      run_ops h0 (some l0) (xs.map Op.push ++ List.replicate xs.length Op.pop) =
        some (List.replicate xs.length (LL_OK, none) ++
          xs.reverse.map (fun x => (LL_OK, some x)), h2, some l2) ∧
      l2.head = none ∧ l2.tail = none ∧ l2.len = 0 ∧
      ∃ r, ll_pop h2 (some l2) true = some r ∧ r.status = LL_ERROR_EMPTY_LINKED_LIST := by
  have w0 : WellFormed h0 l0 [] [] := WellFormed.empty_of_is_empty hemp
  have hl0 : l0.len = 0 := w0.2.2.2.2.1
  obtain ⟨h1, l1, as1, hr1, w1, hl1, hd1⟩ := run_push_each xs w0 hds (by omega)
  simp only [List.nil_append] at w1
  obtain ⟨h2, l2, hr2, w2⟩ := run_pop_all xs.length w1 (by rw [hd1]; exact hds) rfl (by omega)
  have he2 : ll_is_empty (some l2) = true := (is_empty_iff_of_WellFormed w2).mpr rfl
  refine ⟨h2, l2, ?_, ?_, ?_, ?_, ⟨LL_ERROR_EMPTY_LINKED_LIST, h2, some l2, none⟩, ?_, rfl⟩
  · rw [run_ops_append, hr1]
    simp only [hr2]
  · simpa using w2.2.2.1
  · simpa using w2.2.2.2.1
  · simpa using w2.2.2.2.2.1
  · simp [ll_pop, he2]

/-- Witness of C4 as amended: three elements of 4 bytes. -/
theorem push_pop_stack_law_witness :
    ll_is_empty (some ⟨none, none, 4, 0⟩) = true ∧ copy_in_block 4 = true ∧
    [1, 2, 3].length < 4294967296 ∧
    ∃ h2 l2,
      run_ops [] (some ⟨none, none, 4, 0⟩)
          ([1, 2, 3].map Op.push ++ List.replicate [1, 2, 3].length Op.pop) =
        some (List.replicate [1, 2, 3].length (LL_OK, none) ++
          [1, 2, 3].reverse.map (fun x => (LL_OK, some x)), h2, some l2) ∧
      l2.head = none ∧ l2.tail = none ∧ l2.len = 0 ∧
      ∃ r, ll_pop h2 (some l2) true = some r ∧ r.status = LL_ERROR_EMPTY_LINKED_LIST :=
  ⟨by decide, by decide, by decide,
    push_pop_stack_law [] ⟨none, none, 4, 0⟩ [1, 2, 3] (by decide) (by decide) (by decide)⟩

/-- C5, the claim as stated fails at `n = 2^32`: after `2^32` calls of
`ll_push_front` on a fresh list of 4-byte elements, all of which return
`LL_OK`, the `u32` field `len` has wrapped to 0 while head and tail are set,
and the first `ll_pop` returns `LL_ERROR_INTERNAL`, not `LL_OK`. -/
theorem push_front_pop_fails_when_len_wraps :
    ∃ h l, run_ops [] (ll_new 4) ((List.replicate 4294967296 7).map Op.push_front) =
        some (List.replicate 4294967296 (LL_OK, none), h, some l) ∧
      l.len = 0 ∧ l.head ≠ none ∧ l.tail ≠ none ∧
      ∃ r, ll_pop h (some l) true = some r ∧ r.status = LL_ERROR_INTERNAL ∧
        r.status ≠ LL_OK := by
  obtain ⟨h, l, as, xs, n, hr, w, h2, hl, hh, ht, hd⟩ := push_fronts_wrap
  obtain ⟨r, hp, hs⟩ := ll_pop_len_zero w hl h2 (by rw [hd]; decide)
  exact ⟨h, l, hr, hl, hh, ht, r, hp, hs, by rw [hs]; decide⟩

/-- C5 as amended, queue law for fewer than `2^32` elements: from an empty
list whose elements fit the node blocks, pushing `x1 .. xn` with
`ll_push_front`, `n < 2^32`, and then calling `ll_pop` `n` times returns
`LL_OK` every time, the pops yield `x1, .., xn` in insertion order, and the
list ends empty. -/
theorem push_front_pop_queue_law (h0 : Heap) (l0 : ll_LinkedList) (xs : List Nat)
    (hemp : ll_is_empty (some l0) = true) (hds : copy_in_block l0.data_size = true)
    (hn : xs.length < 4294967296) :
    ∃ h2 l2,
      run_ops h0 (some l0) (xs.map Op.push_front ++ List.replicate xs.length Op.pop) =
        some (List.replicate xs.length (LL_OK, none) ++
          xs.map (fun x => (LL_OK, some x)), h2, some l2) ∧
      ll_is_empty (some l2) = true := by
  have w0 : WellFormed h0 l0 [] [] := WellFormed.empty_of_is_empty hemp
  have hl0 : l0.len = 0 := w0.2.2.2.2.1
  obtain ⟨h1, l1, as1, hr1, w1, hl1, hd1⟩ := run_push_front_each xs w0 hds (by omega)
  simp only [List.append_nil] at w1
  obtain ⟨h2, l2, hr2, w2⟩ :=
    run_pop_all xs.length w1 (by rw [hd1]; exact hds) (by simp) (by omega)
  refine ⟨h2, l2, ?_, (is_empty_iff_of_WellFormed w2).mpr rfl⟩
  rw [run_ops_append, hr1]
  simp only [hr2, List.reverse_reverse]

/-- Witness of C5 as amended: three elements of 4 bytes. -/
theorem push_front_pop_queue_law_witness :
    ll_is_empty (some ⟨none, none, 4, 0⟩) = true ∧ copy_in_block 4 = true ∧
    [1111, 2222, 3333].length < 4294967296 ∧
    ∃ h2 l2,
      run_ops [] (some ⟨none, none, 4, 0⟩)
          ([1111, 2222, 3333].map Op.push_front ++
            List.replicate [1111, 2222, 3333].length Op.pop) =
        some (List.replicate [1111, 2222, 3333].length (LL_OK, none) ++
          [1111, 2222, 3333].map (fun x => (LL_OK, some x)), h2, some l2) ∧
      ll_is_empty (some l2) = true :=
  ⟨by decide, by decide, by decide,
    push_front_pop_queue_law [] ⟨none, none, 4, 0⟩ [1111, 2222, 3333] (by decide) (by decide)
      (by decide)⟩

/-- C6, the claim as stated fails at `n = 2^32`: after `2^32` calls of
`ll_push_front` on a fresh list of 4-byte elements, all of which return
`LL_OK`, the `u32` field `len` has wrapped to 0 while head and tail are set,
and the first `ll_pop_front` returns `LL_ERROR_INTERNAL`, not `LL_OK`. -/
theorem push_front_pop_front_fails_when_len_wraps :
    ∃ h l, run_ops [] (ll_new 4) ((List.replicate 4294967296 7).map Op.push_front) =
        some (List.replicate 4294967296 (LL_OK, none), h, some l) ∧
      l.len = 0 ∧ l.head ≠ none ∧ l.tail ≠ none ∧
      ∃ r, ll_pop_front h (some l) true = some r ∧ r.status = LL_ERROR_INTERNAL ∧
        r.status ≠ LL_OK := by
  obtain ⟨h, l, as, xs, n, hr, w, h2, hl, hh, ht, hd⟩ := push_fronts_wrap
  obtain ⟨r, hp, hs⟩ := ll_pop_front_len_zero w hl h2 (by rw [hd]; decide)
  exact ⟨h, l, hr, hl, hh, ht, r, hp, hs, by rw [hs]; decide⟩

/-- C6 as amended, stack law at the head for fewer than `2^32` elements:
from an empty list whose elements fit the node blocks, pushing `x1 .. xn`
with `ll_push_front`, `n < 2^32`, and then calling `ll_pop_front` `n` times
returns `LL_OK` every time, the pops yield `xn, .., x1`, and the list ends
empty. -/
theorem push_front_pop_front_stack_law (h0 : Heap) (l0 : ll_LinkedList) (xs : List Nat)
    (hemp : ll_is_empty (some l0) = true) (hds : copy_in_block l0.data_size = true)
    (hn : xs.length < 4294967296) :
    ∃ h2 l2,
      run_ops h0 (some l0) (xs.map Op.push_front ++ List.replicate xs.length Op.pop_front) =
        some (List.replicate xs.length (LL_OK, none) ++
          xs.reverse.map (fun x => (LL_OK, some x)), h2, some l2) ∧
      ll_is_empty (some l2) = true := by
  have w0 : WellFormed h0 l0 [] [] := WellFormed.empty_of_is_empty hemp
  have hl0 : l0.len = 0 := w0.2.2.2.2.1
  obtain ⟨h1, l1, as1, hr1, w1, hl1, hd1⟩ := run_push_front_each xs w0 hds (by omega)
  simp only [List.append_nil] at w1
  obtain ⟨h2, l2, hr2, w2⟩ :=
    run_pop_front_all xs.length w1 (by rw [hd1]; exact hds) (by simp) (by omega)
  refine ⟨h2, l2, ?_, (is_empty_iff_of_WellFormed w2).mpr rfl⟩
  rw [run_ops_append, hr1]
  simp only [hr2]

/-- Witness of C6 as amended: three elements of 4 bytes. -/
theorem push_front_pop_front_stack_law_witness :
    ll_is_empty (some ⟨none, none, 4, 0⟩) = true ∧ copy_in_block 4 = true ∧
    [1111, 2222, 3333].length < 4294967296 ∧
    ∃ h2 l2,
      run_ops [] (some ⟨none, none, 4, 0⟩)
          ([1111, 2222, 3333].map Op.push_front ++
            List.replicate [1111, 2222, 3333].length Op.pop_front) =
        some (List.replicate [1111, 2222, 3333].length (LL_OK, none) ++
          [1111, 2222, 3333].reverse.map (fun x => (LL_OK, some x)), h2, some l2) ∧
      ll_is_empty (some l2) = true :=
  ⟨by decide, by decide, by decide,
    push_front_pop_front_stack_law [] ⟨none, none, 4, 0⟩ [1111, 2222, 3333]
      (by decide) (by decide) (by decide)⟩

/-- C7, the claim as stated fails on a list of `2^31` elements: `2^31` calls
of `ll_push` on a fresh list of 4-byte elements all return `LL_OK` and leave
a well-formed list with `len == 2^31`; the cast `(int)self->len` is then
negative, and `ll_set(0, v)` and `ll_get(out, 0)` return
`LL_ERROR_INDEX_OUT_OF_BOUNDS` although `0 <= 0 < len`. -/
theorem set_and_get_refused_on_list_of_2_pow_31 :
    ∃ h l as, run_ops [] (ll_new 4) ((List.replicate 2147483648 7).map Op.push) =
        some (List.replicate 2147483648 (LL_OK, none), h, some l) ∧
      WellFormed h l as (List.replicate 2147483648 7) ∧ l.len = 2147483648 ∧
      (0 : Int) ≤ 0 ∧ (0 : Int) < (l.len : Int) ∧
      ll_set h (some l) 0 (some 5) = some ⟨LL_ERROR_INDEX_OUT_OF_BOUNDS, h, some l, none⟩ ∧
      ll_get h (some l) true 0 = some ⟨LL_ERROR_INDEX_OUT_OF_BOUNDS, h, some l, none⟩ := by
  obtain ⟨h, l, as, hr, w, hl, hd⟩ := pushes_reach 2147483648 (by decide)
  have hne : ll_is_empty (some l) = false := not_empty_of_len_pos (by omega)
  obtain ⟨hg, hs, -, -, -⟩ :=
    refused_of_long (h := h) hne (by omega) (by omega) 0 (by decide) 5 true
  exact ⟨h, l, as, hr, w, hl, by decide, by omega, hs, hg⟩

/-- C7 as amended, set/get round trip: on a well-formed list with
`len < 2^31` whose elements fit the node blocks, for every index
`0 <= index < len` and every element `v`, `ll_set(index, v)` returns
`LL_OK` and the following `ll_get(out, index)` returns `LL_OK` with
`out == v`. -/
theorem set_then_get_round_trip (h : Heap) (l : ll_LinkedList) (as xs : List Nat)
    (w : WellFormed h l as xs) (hds : copy_in_block l.data_size = true)
    (hb : l.len < 2147483648)
    (index : Int) (hlo : 0 ≤ index) (hhi : index < l.len) (v : Nat) :
    ∃ h1, ll_set h (some l) index (some v) = some ⟨LL_OK, h1, some l, none⟩ ∧
      ll_get h1 (some l) true index = some ⟨LL_OK, h1, some l, some v⟩ := by
  obtain ⟨i, rfl⟩ := Int.eq_ofNat_of_zero_le hlo
  have hi : i < l.len := by omega
  obtain ⟨h1, hs, w1⟩ := ll_set_WellFormed w hds hb i hi v
  obtain ⟨x, hx, hg⟩ := ll_get_WellFormed w1 hds hb i hi
  have hix : i < xs.length := by
    have := w.1
    have := w.2.2.2.2.1
    omega
  rw [List.getElem?_set_self hix] at hx
  cases hx
  exact ⟨h1, hs, hg⟩

/-- Witness of C7 as amended on the list `[10, 20]`. -/
theorem set_then_get_round_trip_witness :
    WellFormed [some ⟨some 1, none, 10⟩, some ⟨none, some 0, 20⟩] ⟨some 0, some 1, 4, 2⟩
      [0, 1] [10, 20] ∧
    copy_in_block 4 = true ∧ (2 : Nat) < 2147483648 ∧ (0 : Int) ≤ 1 ∧ (1 : Int) < (2 : Nat) ∧
    ∃ h1, ll_set [some ⟨some 1, none, 10⟩, some ⟨none, some 0, 20⟩]
          (some ⟨some 0, some 1, 4, 2⟩) 1 (some 77) =
        some ⟨LL_OK, h1, some ⟨some 0, some 1, 4, 2⟩, none⟩ ∧
      ll_get h1 (some ⟨some 0, some 1, 4, 2⟩) true 1 =
        some ⟨LL_OK, h1, some ⟨some 0, some 1, 4, 2⟩, some 77⟩ :=
  ⟨by decide, by decide, by decide, by decide, by decide,
    set_then_get_round_trip
      [some ⟨some 1, none, 10⟩, some ⟨none, some 0, 20⟩] ⟨some 0, some 1, 4, 2⟩ [0, 1] [10, 20]
      (by decide) (by decide) (by decide) 1 (by decide) (by decide) 77⟩

/-- C8, the claim as stated fails on a list of `2^31` elements: `2^31` calls
of `ll_push` on a fresh list of 4-byte elements all return `LL_OK` and leave
a well-formed list with `len == 2^31`; the cast `(int)self->len` is then
negative, and `iterate_to` at index 0 returns
`LL_ERROR_INDEX_OUT_OF_BOUNDS` and no node although `0 <= 0 < len`. -/
theorem iterate_to_refused_on_list_of_2_pow_31 :
    ∃ h l as, run_ops [] (ll_new 4) ((List.replicate 2147483648 7).map Op.push) =
        some (List.replicate 2147483648 (LL_OK, none), h, some l) ∧
      WellFormed h l as (List.replicate 2147483648 7) ∧ l.len = 2147483648 ∧
      (0 : Int) ≤ 0 ∧ (0 : Int) < (l.len : Int) ∧
      iterate_to h (some l) true 0 =
        some ⟨LL_ERROR_INDEX_OUT_OF_BOUNDS, h, some l, none⟩ := by
  obtain ⟨h, l, as, hr, w, hl, hd⟩ := pushes_reach 2147483648 (by decide)
  have hne : ll_is_empty (some l) = false := not_empty_of_len_pos (by omega)
  obtain ⟨-, -, -, hi, -⟩ :=
    refused_of_long (h := h) hne (by omega) (by omega) 0 (by decide) 5 true
  exact ⟨h, l, as, hr, w, hl, by decide, by omega, hi⟩

/-- C8 as amended, traversal correctness: on a well-formed list with
`len < 2^31`, for every index `0 <= index < len`, `iterate_to` returns
`LL_OK` and stores the address of the `index`-th node of the chain counted
from head, and that node is what both walks arrive at: `index` links
forward from head, and `len - 1 - index` links backward from tail. -/
theorem iterate_to_returns_indexed_node (h : Heap) (l : ll_LinkedList) (as xs : List Nat)
    (w : WellFormed h l as xs) (hb : l.len < 2147483648)
    (index : Int) (hlo : 0 ≤ index) (hhi : index < l.len) :
    ∃ a, as[index.toNat]? = some a ∧
      iterate_to h (some l) true index = some ⟨LL_OK, h, some l, some a⟩ ∧
      (walk_next h l.head index.toNat 0).map Prod.fst = some (some a) ∧
      (walk_prev h l.tail (l.len - 1 - index.toNat) 0).map Prod.fst = some (some a) := by
  obtain ⟨i, rfl⟩ := Int.eq_ofNat_of_zero_le hlo
  have hi : i < l.len := by omega
  obtain ⟨a, ha, hit⟩ := iterate_to_WellFormed w hb i hi
  have hl : l.len = as.length := w.2.2.2.2.1
  refine ⟨a, by simpa using ha, hit, ?_, ?_⟩
  · rw [w.2.2.1, Int.toNat_ofNat, walk_next_WellFormed w i 0 0 (by omega)]
    simp [ha]
  · rw [w.2.2.2.1, Int.toNat_ofNat,
      walk_prev_WellFormed w (l.len - 1 - i) (as.length - 1) 0 (by omega) (by omega)]
    have : as.length - 1 - (l.len - 1 - i) = i := by omega
    simp [this, ha]

/-- Witness of C8 as amended on the list `[5, 6, 7]` and index 2. -/
theorem iterate_to_returns_indexed_node_witness :
    WellFormed [some ⟨some 1, none, 5⟩, some ⟨some 2, some 0, 6⟩, some ⟨none, some 1, 7⟩]
      ⟨some 0, some 2, 4, 3⟩ [0, 1, 2] [5, 6, 7] ∧
    (3 : Nat) < 2147483648 ∧ (0 : Int) ≤ 2 ∧ (2 : Int) < (3 : Nat) ∧
    ∃ a, [0, 1, 2][(2 : Int).toNat]? = some a ∧
      iterate_to [some ⟨some 1, none, 5⟩, some ⟨some 2, some 0, 6⟩, some ⟨none, some 1, 7⟩]
          (some ⟨some 0, some 2, 4, 3⟩) true 2 =
        some ⟨LL_OK, [some ⟨some 1, none, 5⟩, some ⟨some 2, some 0, 6⟩, some ⟨none, some 1, 7⟩],
          some ⟨some 0, some 2, 4, 3⟩, some a⟩ ∧
      (walk_next [some ⟨some 1, none, 5⟩, some ⟨some 2, some 0, 6⟩, some ⟨none, some 1, 7⟩]
          (some 0) (2 : Int).toNat 0).map Prod.fst = some (some a) ∧
      (walk_prev [some ⟨some 1, none, 5⟩, some ⟨some 2, some 0, 6⟩, some ⟨none, some 1, 7⟩]
          (some 2) (3 - 1 - (2 : Int).toNat) 0).map Prod.fst = some (some a) :=
  ⟨by decide, by decide, by decide, by decide,
    iterate_to_returns_indexed_node
      [some ⟨some 1, none, 5⟩, some ⟨some 2, some 0, 6⟩, some ⟨none, some 1, 7⟩]
      ⟨some 0, some 2, 4, 3⟩ [0, 1, 2] [5, 6, 7]
      (by decide) (by decide) 2 (by decide) (by decide)⟩

/-- C9, evaluated at the failing input: on the well-formed list `[10, 20]`
and index 1 the backward distance `len - 1 - index` is 0 and the forward
distance is 1, so the tail is the nearer end; the code compares
`len - index` with `index` instead, finds `1 < 1` false, starts at head and
follows one link, while the walk from tail would follow none and
`min(index, len - 1 - index)` is 0. -/
theorem iterate_to_starts_at_head_when_tail_is_nearer :
    WellFormed [some ⟨some 1, none, 10⟩, some ⟨none, some 0, 20⟩] ⟨some 0, some 1, 4, 2⟩
      [0, 1] [10, 20] ∧
    ((2 : Int) - 1 - 1 < 1) ∧
    ¬ (toInt (2 : Nat) - 1 < 1) ∧
    iterate_walk [some ⟨some 1, none, 10⟩, some ⟨none, some 0, 20⟩] ⟨some 0, some 1, 4, 2⟩ 1 =
      walk_next [some ⟨some 1, none, 10⟩, some ⟨none, some 0, 20⟩] (some 0) 1 0 ∧
    iterate_walk [some ⟨some 1, none, 10⟩, some ⟨none, some 0, 20⟩] ⟨some 0, some 1, 4, 2⟩ 1 =
      some (some 1, 1) ∧
    walk_prev [some ⟨some 1, none, 10⟩, some ⟨none, some 0, 20⟩] (some 1) 0 0 =
      some (some 1, 0) ∧
    min 1 (2 - 1 - 1) = 0 := by
  decide

/-- C10, the claim as stated fails on a list of `2^31` elements: `2^31`
calls of `ll_push` on a fresh list of 4-byte elements all return `LL_OK` and
leave a well-formed list with `len == 2^31`; the cast `(int)self->len` is
then negative, and `ll_get`, `ll_set`, `ll_remove` and `iterate_to` at index
0 all return `LL_ERROR_INDEX_OUT_OF_BOUNDS` although `0 <= 0 < len`. -/
theorem valid_index_refused_on_list_of_2_pow_31 :
    ∃ h l as, run_ops [] (ll_new 4) ((List.replicate 2147483648 7).map Op.push) =
        some (List.replicate 2147483648 (LL_OK, none), h, some l) ∧
      WellFormed h l as (List.replicate 2147483648 7) ∧ l.len = 2147483648 ∧
      (0 : Int) ≤ 0 ∧ (0 : Int) < (l.len : Int) ∧
      ll_get h (some l) true 0 = some ⟨LL_ERROR_INDEX_OUT_OF_BOUNDS, h, some l, none⟩ ∧
      ll_set h (some l) 0 (some 5) = some ⟨LL_ERROR_INDEX_OUT_OF_BOUNDS, h, some l, none⟩ ∧
      ll_remove h (some l) true 0 = some ⟨LL_ERROR_INDEX_OUT_OF_BOUNDS, h, some l, none⟩ ∧
      iterate_to h (some l) true 0 =
        some ⟨LL_ERROR_INDEX_OUT_OF_BOUNDS, h, some l, none⟩ := by
  obtain ⟨h, l, as, hr, w, hl, hd⟩ := pushes_reach 2147483648 (by decide)
  have hne : ll_is_empty (some l) = false := not_empty_of_len_pos (by omega)
  obtain ⟨hg, hs, hrm, hi, -⟩ :=
    refused_of_long (h := h) hne (by omega) (by omega) 0 (by decide) 5 true
  exact ⟨h, l, as, hr, w, hl, by decide, by omega, hg, hs, hrm, hi⟩

/-- C10 as amended, index range of get/set/remove/traversal.  First part:
on every list that is not empty (whatever its links) and for every index
with `index < 0` or `index >= len`, `ll_get`, `ll_set`, `ll_remove` and
`iterate_to` return `LL_ERROR_INDEX_OUT_OF_BOUNDS`, store nothing and leave
memory and header as they were.  Second part: on a well-formed list with
`len < 2^31` and for `0 <= index < len`, `iterate_to` returns `LL_OK`, and
so do the other three when the elements fit the node blocks, hence none of
them returns `LL_ERROR_INDEX_OUT_OF_BOUNDS`. -/
theorem index_range_of_get_set_remove_iterate :
    (∀ (h : Heap) (l : ll_LinkedList) (index : Int) (v : Nat) (out_elem : Bool),
      ll_is_empty (some l) = false → (index < 0 ∨ index ≥ (l.len : Int)) →
        ll_get h (some l) true index =
          some ⟨LL_ERROR_INDEX_OUT_OF_BOUNDS, h, some l, none⟩ ∧
        ll_set h (some l) index (some v) =
          some ⟨LL_ERROR_INDEX_OUT_OF_BOUNDS, h, some l, none⟩ ∧
        ll_remove h (some l) out_elem index =
          some ⟨LL_ERROR_INDEX_OUT_OF_BOUNDS, h, some l, none⟩ ∧
        iterate_to h (some l) true index =
          some ⟨LL_ERROR_INDEX_OUT_OF_BOUNDS, h, some l, none⟩) ∧
    (∀ (h : Heap) (l : ll_LinkedList) (as xs : List Nat) (index : Int) (v : Nat)
        (out_elem : Bool),
      WellFormed h l as xs → l.len < 2147483648 → 0 ≤ index → index < (l.len : Int) →
        (∃ r, iterate_to h (some l) true index = some r ∧ r.status = LL_OK ∧
          r.status ≠ LL_ERROR_INDEX_OUT_OF_BOUNDS) ∧
        (copy_in_block l.data_size = true →
          (∃ r, ll_get h (some l) true index = some r ∧ r.status = LL_OK ∧
            r.status ≠ LL_ERROR_INDEX_OUT_OF_BOUNDS) ∧
          (∃ r, ll_set h (some l) index (some v) = some r ∧ r.status = LL_OK ∧
            r.status ≠ LL_ERROR_INDEX_OUT_OF_BOUNDS) ∧
          (∃ r, ll_remove h (some l) out_elem index = some r ∧ r.status = LL_OK ∧
            r.status ≠ LL_ERROR_INDEX_OUT_OF_BOUNDS))) := by
  constructor
  · intro h l index v out_elem hne hout
    have hbd : index < 0 ∨ index ≥ toInt l.len := by
      have := toInt_le l.len
      omega
    refine ⟨?_, ?_, ?_, ?_⟩
    · simp [ll_get, hne, is_index_within_get_bounds, EXPECT_S, hbd]
    · simp [ll_set, is_index_within_get_bounds, EXPECT_S, hbd]
    · simp [ll_remove, hne, is_index_within_get_bounds, EXPECT_S, hbd]
    · simp [iterate_to, hne, is_index_within_get_bounds, EXPECT_S, hbd]
  · intro h l as xs index v out_elem w hb hlo hhi
    obtain ⟨i, rfl⟩ := Int.eq_ofNat_of_zero_le hlo
    have hi : i < l.len := by omega
    obtain ⟨a, -, hit⟩ := iterate_to_WellFormed w hb i hi
    have hne : LL_OK ≠ LL_ERROR_INDEX_OUT_OF_BOUNDS := by decide
    refine ⟨⟨_, hit, rfl, hne⟩, ?_⟩
    intro hds
    obtain ⟨x, -, hg⟩ := ll_get_WellFormed w hds hb i hi
    obtain ⟨h1, hs, -⟩ := ll_set_WellFormed w hds hb i hi v
    obtain ⟨h2, l2, y, hr, -, -, -, -⟩ :=
      ll_remove_WellFormed w hb i hi out_elem (fun _ => hds)
    exact ⟨⟨_, hg, rfl, hne⟩, ⟨_, hs, rfl, hne⟩, ⟨_, hr, rfl, hne⟩⟩

/-- Witness of C10 as amended on the list `[10, 20]`: index 2 is refused,
index 1 is removed. -/
theorem index_range_of_get_set_remove_iterate_witness :
    (ll_is_empty (some ⟨some 0, some 1, 4, 2⟩) = false ∧ ((2 : Int) < 0 ∨ (2 : Int) ≥ (2 : Nat)) ∧
      ll_get [some ⟨some 1, none, 10⟩, some ⟨none, some 0, 20⟩]
          (some ⟨some 0, some 1, 4, 2⟩) true 2 =
        some ⟨LL_ERROR_INDEX_OUT_OF_BOUNDS, [some ⟨some 1, none, 10⟩, some ⟨none, some 0, 20⟩],
          some ⟨some 0, some 1, 4, 2⟩, none⟩) ∧
    (WellFormed [some ⟨some 1, none, 10⟩, some ⟨none, some 0, 20⟩] ⟨some 0, some 1, 4, 2⟩
        [0, 1] [10, 20] ∧
      (2 : Nat) < 2147483648 ∧ (0 : Int) ≤ 1 ∧ (1 : Int) < (2 : Nat) ∧
      copy_in_block 4 = true ∧
      ∃ r, ll_remove [some ⟨some 1, none, 10⟩, some ⟨none, some 0, 20⟩]
          (some ⟨some 0, some 1, 4, 2⟩) true 1 = some r ∧ r.status = LL_OK ∧
        r.status ≠ LL_ERROR_INDEX_OUT_OF_BOUNDS) :=
  ⟨⟨by decide, by decide,
      (index_range_of_get_set_remove_iterate.1
        [some ⟨some 1, none, 10⟩, some ⟨none, some 0, 20⟩] ⟨some 0, some 1, 4, 2⟩ 2 0 true
        (by decide) (by decide)).1⟩,
    ⟨by decide, by decide, by decide, by decide, by decide,
      ((index_range_of_get_set_remove_iterate.2
        [some ⟨some 1, none, 10⟩, some ⟨none, some 0, 20⟩] ⟨some 0, some 1, 4, 2⟩
        [0, 1] [10, 20] 1 0 true (by decide) (by decide) (by decide) (by decide)).2
          (by decide)).2.2⟩⟩

/-- C11, the claim as stated fails on a list of `2^31` elements: `2^31`
calls of `ll_push` on a fresh list of 4-byte elements all return `LL_OK` and
leave a well-formed list with `len == 2^31`; the cast `(int)self->len` is
then negative, and `ll_insert(0, elem)` returns
`LL_ERROR_INDEX_OUT_OF_BOUNDS` although neither `0 < 0` nor `0 > len`. -/
theorem insert_refused_on_list_of_2_pow_31 :
    ∃ h l as, run_ops [] (ll_new 4) ((List.replicate 2147483648 7).map Op.push) =
        some (List.replicate 2147483648 (LL_OK, none), h, some l) ∧
      WellFormed h l as (List.replicate 2147483648 7) ∧ l.len = 2147483648 ∧
      ¬ ((0 : Int) < 0 ∨ (0 : Int) > (l.len : Int)) ∧
      ll_insert h (some l) 0 (some 5) =
        some ⟨LL_ERROR_INDEX_OUT_OF_BOUNDS, h, some l, none⟩ := by
  obtain ⟨h, l, as, hr, w, hl, hd⟩ := pushes_reach 2147483648 (by decide)
  have hne : ll_is_empty (some l) = false := not_empty_of_len_pos (by omega)
  obtain ⟨-, -, -, -, hi⟩ :=
    refused_of_long (h := h) hne (by omega) (by omega) 0 (by decide) 5 true
  exact ⟨h, l, as, hr, w, hl, by omega, hi⟩

/-- C11 as amended, index range of insert.  For every list and every
element: when `index < 0` or `index > len`, `ll_insert` returns
`LL_ERROR_INDEX_OUT_OF_BOUNDS` and leaves memory and header as they were;
when `len < 2^31` and `0 <= index <= len`, whatever it returns is not
`LL_ERROR_INDEX_OUT_OF_BOUNDS`, and on a well-formed list whose elements fit
the node blocks it returns `LL_OK`; and `index == len` on such a list
appends: the new node comes after the old tail and holds the element. -/
theorem index_range_of_insert :
    (∀ (h : Heap) (l : ll_LinkedList) (index : Int) (v : Nat),
      (index < 0 ∨ index > (l.len : Int)) →
        ll_insert h (some l) index (some v) =
          some ⟨LL_ERROR_INDEX_OUT_OF_BOUNDS, h, some l, none⟩) ∧
    (∀ (h : Heap) (l : ll_LinkedList) (index : Int) (v : Nat) (r : Ret Nat),
      l.len < 2147483648 → 0 ≤ index → index ≤ (l.len : Int) →
        ll_insert h (some l) index (some v) = some r →
        r.status ≠ LL_ERROR_INDEX_OUT_OF_BOUNDS) ∧
    (∀ (h : Heap) (l : ll_LinkedList) (as xs : List Nat) (index : Int) (v : Nat),
      WellFormed h l as xs → copy_in_block l.data_size = true → l.len < 2147483648 →
        0 ≤ index → index ≤ (l.len : Int) →
        ∃ r, ll_insert h (some l) index (some v) = some r ∧ r.status = LL_OK) ∧
    (∀ (h : Heap) (l : ll_LinkedList) (as xs : List Nat) (v : Nat),
      WellFormed h l as xs → copy_in_block l.data_size = true → l.len < 2147483648 →
        ∃ h1 l1, ll_insert h (some l) (l.len : Int) (some v) =
            some ⟨LL_OK, h1, some l1, none⟩ ∧
          WellFormed h1 l1 (as ++ [h.length]) (xs ++ [v]) ∧ l1.len = l.len + 1) := by
  refine ⟨?_, ?_, ?_, ?_⟩
  · intro h l index v hout
    have hbd : index < 0 ∨ index > toInt l.len := by
      have := toInt_le l.len
      omega
    simp [ll_insert, is_index_within_insert_bounds, EXPECT_S, hbd]
  · intro h l index v r hb hlo hhi hr hst
    have := (ll_insert_keeps hr).2 hst
    rw [toInt_eq hb] at this
    omega
  · intro h l as xs index v w hds hb hlo hhi
    obtain ⟨i, rfl⟩ := Int.eq_ofNat_of_zero_le hlo
    by_cases hlast : i = l.len
    · subst hlast
      obtain ⟨h1, l1, hp, -, -, -⟩ := ll_push_WellFormed w hds (by omega) v
      exact ⟨_, (ll_insert_len_eq_push h l (some v) hb).trans hp, rfl⟩
    · by_cases hz : i = 0
      · subst hz
        obtain ⟨h1, l1, hp, -, -, -⟩ := ll_push_front_WellFormed w hds (by omega) v
        exact ⟨_, (ll_insert_zero_eq_push_front h l (some v) (by omega) hb).trans hp, rfl⟩
      · obtain ⟨h1, hp⟩ := ll_insert_interior_WellFormed w hds hb i (by omega) (by omega) v
        exact ⟨_, hp, rfl⟩
  · intro h l as xs v w hds hb
    obtain ⟨h1, l1, hp, w1, -, hl1⟩ := ll_push_WellFormed w hds (by omega) v
    exact ⟨h1, l1, (ll_insert_len_eq_push h l (some v) hb).trans hp, w1, hl1⟩

/-- Witness of C11 as amended on the list `[10, 20]`: index 3 is refused,
index 2 (the length) appends. -/
theorem index_range_of_insert_witness :
    (((3 : Int) < 0 ∨ (3 : Int) > (2 : Nat)) ∧
      ll_insert [some ⟨some 1, none, 10⟩, some ⟨none, some 0, 20⟩]
          (some ⟨some 0, some 1, 4, 2⟩) 3 (some 30) =
        some ⟨LL_ERROR_INDEX_OUT_OF_BOUNDS, [some ⟨some 1, none, 10⟩, some ⟨none, some 0, 20⟩],
          some ⟨some 0, some 1, 4, 2⟩, none⟩) ∧
    (WellFormed [some ⟨some 1, none, 10⟩, some ⟨none, some 0, 20⟩] ⟨some 0, some 1, 4, 2⟩
        [0, 1] [10, 20] ∧ copy_in_block 4 = true ∧ (2 : Nat) < 2147483648 ∧
      ∃ h1 l1, ll_insert [some ⟨some 1, none, 10⟩, some ⟨none, some 0, 20⟩]
            (some ⟨some 0, some 1, 4, 2⟩) ((2 : Nat) : Int) (some 30) =
          some ⟨LL_OK, h1, some l1, none⟩ ∧
        WellFormed h1 l1 ([0, 1] ++ [2]) ([10, 20] ++ [30]) ∧ l1.len = 2 + 1) :=
  ⟨⟨by decide,
      index_range_of_insert.1 [some ⟨some 1, none, 10⟩, some ⟨none, some 0, 20⟩]
        ⟨some 0, some 1, 4, 2⟩ 3 30 (by decide)⟩,
    ⟨by decide, by decide, by decide,
      index_range_of_insert.2.2.2 [some ⟨some 1, none, 10⟩, some ⟨none, some 0, 20⟩]
        ⟨some 0, some 1, 4, 2⟩ [0, 1] [10, 20] 30 (by decide) (by decide) (by decide)⟩⟩

/-- C12, pop and remove on the empty list: when head and tail are unset and
`len` is 0, `ll_pop`, `ll_pop_front` and `ll_remove` at any index return
`LL_ERROR_EMPTY_LINKED_LIST`, store nothing and leave memory and header as
they were; hence any sequence of such calls returns that error every time
on the same empty list. -/
theorem pop_and_remove_on_empty_list (h : Heap) (l : ll_LinkedList)
    (hemp : ll_is_empty (some l) = true) :
    (∀ out_elem : Bool,
      ll_pop h (some l) out_elem = some ⟨LL_ERROR_EMPTY_LINKED_LIST, h, some l, none⟩ ∧
      ll_pop_front h (some l) out_elem =
        some ⟨LL_ERROR_EMPTY_LINKED_LIST, h, some l, none⟩ ∧
      ∀ index : Int, ll_remove h (some l) out_elem index =
        some ⟨LL_ERROR_EMPTY_LINKED_LIST, h, some l, none⟩) ∧
    (∀ ops : List Op, (∀ o ∈ ops, o = Op.pop ∨ o = Op.pop_front ∨ ∃ i, o = Op.remove i) →
      run_ops h (some l) ops =
        some (ops.map (fun _ => (LL_ERROR_EMPTY_LINKED_LIST, none)), h, some l)) := by
  have h1 : ∀ out_elem : Bool,
      ll_pop h (some l) out_elem = some ⟨LL_ERROR_EMPTY_LINKED_LIST, h, some l, none⟩ := by
    intro o
    simp [ll_pop, hemp]
  have h2 : ∀ out_elem : Bool, ll_pop_front h (some l) out_elem =
      some ⟨LL_ERROR_EMPTY_LINKED_LIST, h, some l, none⟩ := by
    intro o
    simp [ll_pop_front, hemp]
  have h3 : ∀ (out_elem : Bool) (index : Int), ll_remove h (some l) out_elem index =
      some ⟨LL_ERROR_EMPTY_LINKED_LIST, h, some l, none⟩ := by
    intro o i
    simp [ll_remove, hemp]
  refine ⟨fun o => ⟨h1 o, h2 o, h3 o⟩, ?_⟩
  intro ops
  induction ops with
  | nil => intro _; rfl
  | cons o os ih =>
    intro hall
    have ho := hall o (List.mem_cons_self o os)
    have hrest := ih (fun o2 h2 => hall o2 (List.mem_cons_of_mem o h2))
    rcases ho with rfl | rfl | ⟨i, rfl⟩
    · simp only [run_ops, Op.call, h1 true, hrest, List.map_cons]
    · simp only [run_ops, Op.call, h2 true, hrest, List.map_cons]
    · simp only [run_ops, Op.call, h3 true i, hrest, List.map_cons]

/-- Witness of C12 on a fresh list. -/
theorem pop_and_remove_on_empty_list_witness :
    ll_is_empty (some ⟨none, none, 4, 0⟩) = true ∧
    run_ops [] (some ⟨none, none, 4, 0⟩) [Op.pop, Op.remove 3, Op.pop_front, Op.pop] =
      some ([Op.pop, Op.remove 3, Op.pop_front, Op.pop].map
        (fun _ => (LL_ERROR_EMPTY_LINKED_LIST, none)), [], some ⟨none, none, 4, 0⟩) :=
  ⟨by decide,
    (pop_and_remove_on_empty_list [] ⟨none, none, 4, 0⟩ (by decide)).2
      [Op.pop, Op.remove 3, Op.pop_front, Op.pop] (by simp)⟩

/-- C13, evaluated at the failing input: the calls `ll_push(10)`,
`ll_push(20)`, `ll_insert(1, 99)`, `ll_pop_front`, `ll_pop_front` all return
`LL_OK` and reach a state with `len == 1` and no head; there `ll_get(out, 0)`
with `0 <= 0 < len` returns `LL_ERROR_INTERNAL`, and `ll_pop` with `len >= 1`
returns `LL_ERROR_INTERNAL` too. -/
theorem reachable_state_where_get_and_pop_fail_internally :
    run_ops [] (ll_new 4) [.push 10, .push 20, .insert 1 99, .pop_front, .pop_front] =
      some ([(LL_OK, none), (LL_OK, none), (LL_OK, none), (LL_OK, some 10), (LL_OK, some 20)],
        [none, none, some ⟨some 1, some 0, 99⟩], some ⟨none, none, 4, 1⟩) ∧
    ll_get [none, none, some ⟨some 1, some 0, 99⟩] (some ⟨none, none, 4, 1⟩) true 0 =
      some ⟨LL_ERROR_INTERNAL, [none, none, some ⟨some 1, some 0, 99⟩],
        some ⟨none, none, 4, 1⟩, none⟩ ∧
    ll_pop [none, none, some ⟨some 1, some 0, 99⟩] (some ⟨none, none, 4, 1⟩) true =
      some ⟨LL_ERROR_INTERNAL, [none, none, some ⟨some 1, some 0, 99⟩],
        some ⟨none, none, 4, 1⟩, none⟩ := by
  decide

/-- C14, the claim as stated fails on a list of `2^31` elements: `2^31`
calls of `ll_push` on a fresh list of 4-byte elements all return `LL_OK` and
leave a well-formed list with `len == 2^31 >= 3`; the cast `(int)self->len`
is then negative, and `ll_remove(out, 1)` returns
`LL_ERROR_INDEX_OUT_OF_BOUNDS` and changes nothing although
`0 < 1 < len - 1`. -/
theorem remove_interior_refused_on_list_of_2_pow_31 :
    ∃ h l as, run_ops [] (ll_new 4) ((List.replicate 2147483648 7).map Op.push) =
        some (List.replicate 2147483648 (LL_OK, none), h, some l) ∧
      WellFormed h l as (List.replicate 2147483648 7) ∧ l.len = 2147483648 ∧
      3 ≤ l.len ∧ (0 : Int) < 1 ∧ (1 : Int) < (l.len : Int) - 1 ∧
      ll_remove h (some l) true 1 =
        some ⟨LL_ERROR_INDEX_OUT_OF_BOUNDS, h, some l, none⟩ := by
  obtain ⟨h, l, as, hr, w, hl, hd⟩ := pushes_reach 2147483648 (by decide)
  have hne : ll_is_empty (some l) = false := not_empty_of_len_pos (by omega)
  obtain ⟨-, -, hrm, -, -⟩ :=
    refused_of_long (h := h) hne (by omega) (by omega) 1 (by decide) 5 true
  exact ⟨h, l, as, hr, w, hl, by omega, by decide, by omega, hrm⟩

/-- C14 as amended, interior remove: on a well-formed list with
`len < 2^31` whose elements fit the node blocks, for every index with
`0 < index < len - 1` (so `len >= 3`), `ll_remove(out, index)` returns
`LL_OK`, writes the `index`-th element to `out` and leaves a well-formed
list whose addresses and elements are the old ones with position `index`
erased and whose `len` is one less. -/
theorem remove_interior (h : Heap) (l : ll_LinkedList) (as xs : List Nat)
    (w : WellFormed h l as xs) (hds : copy_in_block l.data_size = true)
    (hb : l.len < 2147483648)
    (index : Int) (hlo : 0 < index) (hhi : index < (l.len : Int) - 1) :
    ∃ h1 l1 x, ll_remove h (some l) true index = some ⟨LL_OK, h1, some l1, some x⟩ ∧
      xs[index.toNat]? = some x ∧
      WellFormed h1 l1 (as.eraseIdx index.toNat) (xs.eraseIdx index.toNat) ∧
      l1.len = l.len - 1 ∧ l1.len + 1 = l.len := by
  obtain ⟨i, rfl⟩ := Int.eq_ofNat_of_zero_le (Int.le_of_lt hlo)
  have hi : i < l.len := by omega
  obtain ⟨h1, l1, x, hr, hx, w1, -, hl1⟩ :=
    ll_remove_WellFormed w hb i hi true (fun _ => hds)
  refine ⟨h1, l1, x, by simpa using hr, by simpa using hx, by simpa using w1, hl1, by omega⟩

/-- Witness of C14 as amended: removing index 1 of `[5, 6, 7]`. -/
theorem remove_interior_witness :
    WellFormed [some ⟨some 1, none, 5⟩, some ⟨some 2, some 0, 6⟩, some ⟨none, some 1, 7⟩]
      ⟨some 0, some 2, 4, 3⟩ [0, 1, 2] [5, 6, 7] ∧
    copy_in_block 4 = true ∧ (3 : Nat) < 2147483648 ∧ (0 : Int) < 1 ∧ (1 : Int) < ((3 : Nat) : Int) - 1 ∧
    ∃ h1 l1 x,
      ll_remove [some ⟨some 1, none, 5⟩, some ⟨some 2, some 0, 6⟩, some ⟨none, some 1, 7⟩]
          (some ⟨some 0, some 2, 4, 3⟩) true 1 = some ⟨LL_OK, h1, some l1, some x⟩ ∧
      [5, 6, 7][(1 : Int).toNat]? = some x ∧
      WellFormed h1 l1 ([0, 1, 2].eraseIdx (1 : Int).toNat) ([5, 6, 7].eraseIdx (1 : Int).toNat) ∧
      l1.len = 3 - 1 ∧ l1.len + 1 = 3 :=
  ⟨by decide, by decide, by decide, by decide, by decide,
    remove_interior
      [some ⟨some 1, none, 5⟩, some ⟨some 2, some 0, 6⟩, some ⟨none, some 1, 7⟩]
      ⟨some 0, some 2, 4, 3⟩ [0, 1, 2] [5, 6, 7]
      (by decide) (by decide) (by decide) 1 (by decide) (by decide)⟩

/-- C15, null arguments: with a null list handle `ll_push`, `ll_push_front`,
`ll_insert`, `ll_set` and `ll_get` return
`LL_ERROR_NULL_LINKED_LIST_POINTER` whatever the element pointer and the
index are; with a list and a null element pointer they return
`LL_ERROR_NULL_ELEMENT_POINTER` whatever the index and the contents of the
list are, and memory and header stay as they were. -/
theorem null_arguments_fail_first :
    (∀ (h : Heap) (elem : Option Nat) (out_elem : Bool) (index : Int),
      ll_push h none elem = some ⟨LL_ERROR_NULL_LINKED_LIST_POINTER, h, none, none⟩ ∧
      ll_push_front h none elem = some ⟨LL_ERROR_NULL_LINKED_LIST_POINTER, h, none, none⟩ ∧
      ll_insert h none index elem = some ⟨LL_ERROR_NULL_LINKED_LIST_POINTER, h, none, none⟩ ∧
      ll_set h none index elem = some ⟨LL_ERROR_NULL_LINKED_LIST_POINTER, h, none, none⟩ ∧
      ll_get h none out_elem index =
        some ⟨LL_ERROR_NULL_LINKED_LIST_POINTER, h, none, none⟩) ∧
    (∀ (h : Heap) (l : ll_LinkedList) (index : Int),
      ll_push h (some l) none = some ⟨LL_ERROR_NULL_ELEMENT_POINTER, h, some l, none⟩ ∧
      ll_push_front h (some l) none =
        some ⟨LL_ERROR_NULL_ELEMENT_POINTER, h, some l, none⟩ ∧
      ll_insert h (some l) index none =
        some ⟨LL_ERROR_NULL_ELEMENT_POINTER, h, some l, none⟩ ∧
      ll_set h (some l) index none = some ⟨LL_ERROR_NULL_ELEMENT_POINTER, h, some l, none⟩ ∧
      ll_get h (some l) false index =
        some ⟨LL_ERROR_NULL_ELEMENT_POINTER, h, some l, none⟩) := by
  constructor
  · intro h elem out_elem index
    exact ⟨rfl, rfl, rfl, rfl, rfl⟩
  · intro h l index
    exact ⟨rfl, rfl, rfl, rfl, rfl⟩

/-- C16, the claim as stated fails on a list of `2^31` elements: `2^31`
calls of `ll_push` on a fresh list of 4-byte elements all return `LL_OK` and
leave a non-empty well-formed list with `len == 2^31`; the cast
`(int)self->len` is then negative, and `ll_remove` at index 0 with a null
`out` returns `LL_ERROR_INDEX_OUT_OF_BOUNDS`, not `LL_OK`. -/
theorem remove_without_out_refused_on_list_of_2_pow_31 :
    ∃ h l as, run_ops [] (ll_new 4) ((List.replicate 2147483648 7).map Op.push) =
        some (List.replicate 2147483648 (LL_OK, none), h, some l) ∧
      WellFormed h l as (List.replicate 2147483648 7) ∧ l.len = 2147483648 ∧
      0 < l.len ∧ (0 : Int) ≤ 0 ∧ (0 : Int) < (l.len : Int) ∧
      ll_remove h (some l) false 0 =
        some ⟨LL_ERROR_INDEX_OUT_OF_BOUNDS, h, some l, none⟩ ∧
      LL_ERROR_INDEX_OUT_OF_BOUNDS ≠ LL_OK := by
  obtain ⟨h, l, as, hr, w, hl, hd⟩ := pushes_reach 2147483648 (by decide)
  have hne : ll_is_empty (some l) = false := not_empty_of_len_pos (by omega)
  obtain ⟨-, -, hrm, -, -⟩ :=
    refused_of_long (h := h) hne (by omega) (by omega) 0 (by decide) 5 false
  exact ⟨h, l, as, hr, w, hl, by omega, by decide, by omega, hrm, by decide⟩

/-- C16 as amended, skip mode: on a non-empty well-formed list `ll_pop` and
`ll_pop_front` called with a null `out` return `LL_OK`, and when the
elements fit the node blocks the call with `out` supplied returns `LL_OK`
with the same memory and header; the same holds of `ll_remove` at every
index `0 <= index < len` when `len < 2^31`. -/
theorem null_out_skips_the_copy_only :
    (∀ (h : Heap) (l : ll_LinkedList) (as xs : List Nat),
      WellFormed h l as xs → 0 < l.len → l.len < 4294967296 →
        (∃ h1 l1, ll_pop h (some l) false = some ⟨LL_OK, h1, some l1, none⟩ ∧
          (copy_in_block l.data_size = true →
            ∃ x, ll_pop h (some l) true = some ⟨LL_OK, h1, some l1, some x⟩)) ∧
        (∃ h1 l1, ll_pop_front h (some l) false = some ⟨LL_OK, h1, some l1, none⟩ ∧
          (copy_in_block l.data_size = true →
            ∃ x, ll_pop_front h (some l) true = some ⟨LL_OK, h1, some l1, some x⟩))) ∧
    (∀ (h : Heap) (l : ll_LinkedList) (as xs : List Nat) (index : Int),
      WellFormed h l as xs → l.len < 2147483648 → 0 ≤ index → index < (l.len : Int) →
        ∃ h1 l1, ll_remove h (some l) false index = some ⟨LL_OK, h1, some l1, none⟩ ∧
          (copy_in_block l.data_size = true →
            ∃ x, ll_remove h (some l) true index = some ⟨LL_OK, h1, some l1, some x⟩)) := by
  constructor
  · intro h l as xs w hpos hb
    have hpa : 0 < as.length := by
      have := w.2.2.2.2.1
      omega
    constructor
    · obtain ⟨h1, l1, y, hf, -, -, -, -⟩ := ll_pop_WellFormed w hpa hb false (by simp)
      refine ⟨h1, l1, hf, ?_⟩
      intro hds
      obtain ⟨h2, l2, x, hp, -, -, -, -⟩ := ll_pop_WellFormed w hpa hb true (fun _ => hds)
      have hk := ll_pop_skip hp
      rw [hf] at hk
      cases hk
      exact ⟨x, hp⟩
    · obtain ⟨h1, l1, y, hf, -, -, -, -⟩ := ll_pop_front_WellFormed w hpa hb false (by simp)
      refine ⟨h1, l1, hf, ?_⟩
      intro hds
      obtain ⟨h2, l2, x, hp, -, -, -, -⟩ :=
        ll_pop_front_WellFormed w hpa hb true (fun _ => hds)
      have hk := ll_pop_front_skip hp
      rw [hf] at hk
      cases hk
      exact ⟨x, hp⟩
  · intro h l as xs index w hb hlo hhi
    obtain ⟨i, rfl⟩ := Int.eq_ofNat_of_zero_le hlo
    obtain ⟨h1, l1, y, hf, -, -, -, -⟩ :=
      ll_remove_WellFormed w hb i (by omega) false (by simp)
    refine ⟨h1, l1, hf, ?_⟩
    intro hds
    obtain ⟨h2, l2, x, hp, -, -, -, -⟩ :=
      ll_remove_WellFormed w hb i (by omega) true (fun _ => hds)
    have hk := ll_remove_skip hp
    rw [hf] at hk
    cases hk
    exact ⟨x, hp⟩

/-- Witness of C16 as amended on the list `[5, 6, 7]` of 4-byte elements. -/
theorem null_out_skips_the_copy_only_witness :
    WellFormed [some ⟨some 1, none, 5⟩, some ⟨some 2, some 0, 6⟩, some ⟨none, some 1, 7⟩]
      ⟨some 0, some 2, 4, 3⟩ [0, 1, 2] [5, 6, 7] ∧
    (0 : Nat) < 3 ∧ (3 : Nat) < 4294967296 ∧ (3 : Nat) < 2147483648 ∧
    (0 : Int) ≤ 1 ∧ (1 : Int) < ((3 : Nat) : Int) ∧ copy_in_block 4 = true ∧
    (∃ h1 l1,
      ll_pop [some ⟨some 1, none, 5⟩, some ⟨some 2, some 0, 6⟩, some ⟨none, some 1, 7⟩]
          (some ⟨some 0, some 2, 4, 3⟩) false = some ⟨LL_OK, h1, some l1, none⟩ ∧
      ∃ x,
        ll_pop [some ⟨some 1, none, 5⟩, some ⟨some 2, some 0, 6⟩, some ⟨none, some 1, 7⟩]
          (some ⟨some 0, some 2, 4, 3⟩) true = some ⟨LL_OK, h1, some l1, some x⟩) ∧
    (∃ h1 l1,
      ll_remove [some ⟨some 1, none, 5⟩, some ⟨some 2, some 0, 6⟩, some ⟨none, some 1, 7⟩]
          (some ⟨some 0, some 2, 4, 3⟩) false 1 = some ⟨LL_OK, h1, some l1, none⟩ ∧
      ∃ x,
        ll_remove [some ⟨some 1, none, 5⟩, some ⟨some 2, some 0, 6⟩, some ⟨none, some 1, 7⟩]
          (some ⟨some 0, some 2, 4, 3⟩) true 1 = some ⟨LL_OK, h1, some l1, some x⟩) :=
  ⟨by decide, by decide, by decide, by decide, by decide, by decide, by decide,
    Exists.imp (fun _ => Exists.imp (fun _ e => ⟨e.1, e.2 (by decide)⟩))
      (null_out_skips_the_copy_only.1
        [some ⟨some 1, none, 5⟩, some ⟨some 2, some 0, 6⟩, some ⟨none, some 1, 7⟩]
        ⟨some 0, some 2, 4, 3⟩ [0, 1, 2] [5, 6, 7] (by decide) (by decide) (by decide)).1,
    Exists.imp (fun _ => Exists.imp (fun _ e => ⟨e.1, e.2 (by decide)⟩))
      (null_out_skips_the_copy_only.2
        [some ⟨some 1, none, 5⟩, some ⟨some 2, some 0, 6⟩, some ⟨none, some 1, 7⟩]
        ⟨some 0, some 2, 4, 3⟩ [0, 1, 2] [5, 6, 7] 1 (by decide) (by decide) (by decide)
        (by decide))⟩

/-- Frame of set and get where the element copy stays inside the node
blocks.  On a well-formed list with `len < 2^31` whose elements fit the node
blocks and for `0 <= index < len`, `ll_set(index, v)` returns `LL_OK`,
leaves the header (head, tail, `len`) as it was, keeps the chain of node
addresses and every link of every node, changes no node but the one at
`index`, and the elements are the old ones with `v` at `index`, so every
index `j != index` holds what it held.  And `ll_get`, on any list and with
any arguments, leaves memory and header as they were whatever status it
returns. -/
theorem frame_of_set_and_get :
    (∀ (h : Heap) (l : ll_LinkedList) (as xs : List Nat) (index : Int) (v : Nat),
      WellFormed h l as xs → copy_in_block l.data_size = true → l.len < 2147483648 →
        0 ≤ index → index < (l.len : Int) →
        ∃ h1 a, as[index.toNat]? = some a ∧
          ll_set h (some l) index (some v) = some ⟨LL_OK, h1, some l, none⟩ ∧
          WellFormed h1 l as (xs.set index.toNat v) ∧
          (∀ j, j ≠ index.toNat → (xs.set index.toNat v)[j]? = xs[j]?) ∧
          (∀ b, b ≠ a → read h1 b = read h b) ∧
          (∀ b, (read h1 b).map (fun n => (n.next, n.prev)) =
            (read h b).map (fun n => (n.next, n.prev))) ∧
          h1.length = h.length) ∧
    (∀ (h : Heap) (self : Option ll_LinkedList) (out_elem : Bool) (index : Int) (r : Ret Nat),
      ll_get h self out_elem index = some r → r.heap = h ∧ r.self = self) ∧
    (∀ (h : Heap) (l : ll_LinkedList) (as xs : List Nat) (index : Int),
      WellFormed h l as xs → copy_in_block l.data_size = true → l.len < 2147483648 →
        0 ≤ index → index < (l.len : Int) →
        ∃ x, ll_get h (some l) true index = some ⟨LL_OK, h, some l, some x⟩ ∧
          WellFormed h l as xs) := by
  refine ⟨?_, ?_, ?_⟩
  · intro h l as xs index v w hds hb hlo hhi
    obtain ⟨i, rfl⟩ := Int.eq_ofNat_of_zero_le hlo
    have hi : i < l.len := by omega
    obtain ⟨a, ha, hs⟩ := ll_set_heap w hds hb i hi v
    obtain ⟨h1, hs1, w1⟩ := ll_set_WellFormed w hds hb i hi v
    obtain ⟨x, -, ra⟩ := w.node ha
    have halt : a < h.length := read_lt ra
    rw [hs] at hs1
    have hh : h.set a (some ⟨as[i + 1]?, prev_of as i, v⟩) = h1 := by
      have := Option.some.inj hs1
      exact congrArg Ret.heap this
    subst hh
    refine ⟨_, a, by simpa using ha, hs, by simpa using w1, ?_, ?_, ?_, by simp⟩
    · intro j hj
      simp only [Int.toNat_ofNat]
      rw [List.getElem?_set]
      have : ¬ i = j := fun e => hj e.symm
      simp [this]
    · intro b hba
      rw [read_set]
      simp [hba]
    · intro b
      rw [read_set]
      by_cases hba : b = a
      · subst hba
        simp [halt, ra]
      · simp [hba]
  · intro h self out_elem index r hr
    exact ll_get_frame hr
  · intro h l as xs index w hds hb hlo hhi
    obtain ⟨i, rfl⟩ := Int.eq_ofNat_of_zero_le hlo
    obtain ⟨x, -, hg⟩ := ll_get_WellFormed w hds hb i (by omega)
    exact ⟨x, hg, w⟩

/-- The frame of set and get on the list `[5, 6, 7]` and index 1. -/
theorem frame_of_set_and_get_witness :
    WellFormed [some ⟨some 1, none, 5⟩, some ⟨some 2, some 0, 6⟩, some ⟨none, some 1, 7⟩]
      ⟨some 0, some 2, 4, 3⟩ [0, 1, 2] [5, 6, 7] ∧
    copy_in_block 4 = true ∧ (3 : Nat) < 2147483648 ∧ (0 : Int) ≤ 1 ∧ (1 : Int) < ((3 : Nat) : Int) ∧
    (∃ h1 a, [0, 1, 2][(1 : Int).toNat]? = some a ∧
      ll_set [some ⟨some 1, none, 5⟩, some ⟨some 2, some 0, 6⟩, some ⟨none, some 1, 7⟩]
          (some ⟨some 0, some 2, 4, 3⟩) 1 (some 66) =
        some ⟨LL_OK, h1, some ⟨some 0, some 2, 4, 3⟩, none⟩ ∧
      WellFormed h1 ⟨some 0, some 2, 4, 3⟩ [0, 1, 2] ([5, 6, 7].set (1 : Int).toNat 66) ∧
      (∀ j, j ≠ (1 : Int).toNat → ([5, 6, 7].set (1 : Int).toNat 66)[j]? = [5, 6, 7][j]?) ∧
      (∀ b, b ≠ a → read h1 b =
        read [some ⟨some 1, none, 5⟩, some ⟨some 2, some 0, 6⟩, some ⟨none, some 1, 7⟩] b) ∧
      (∀ b, (read h1 b).map (fun n => (n.next, n.prev)) =
        (read [some ⟨some 1, none, 5⟩, some ⟨some 2, some 0, 6⟩, some ⟨none, some 1, 7⟩] b).map
          (fun n => (n.next, n.prev))) ∧
      h1.length = 3) ∧
    (ll_get [some ⟨some 1, none, 5⟩, some ⟨some 2, some 0, 6⟩, some ⟨none, some 1, 7⟩]
        (some ⟨some 0, some 2, 4, 3⟩) true 5 =
      some ⟨LL_ERROR_INDEX_OUT_OF_BOUNDS,
        [some ⟨some 1, none, 5⟩, some ⟨some 2, some 0, 6⟩, some ⟨none, some 1, 7⟩],
        some ⟨some 0, some 2, 4, 3⟩, none⟩ ∧
      (⟨LL_ERROR_INDEX_OUT_OF_BOUNDS,
        [some ⟨some 1, none, 5⟩, some ⟨some 2, some 0, 6⟩, some ⟨none, some 1, 7⟩],
        some ⟨some 0, some 2, 4, 3⟩, none⟩ : Ret Nat).heap =
        [some ⟨some 1, none, 5⟩, some ⟨some 2, some 0, 6⟩, some ⟨none, some 1, 7⟩] ∧
      (⟨LL_ERROR_INDEX_OUT_OF_BOUNDS,
        [some ⟨some 1, none, 5⟩, some ⟨some 2, some 0, 6⟩, some ⟨none, some 1, 7⟩],
        some ⟨some 0, some 2, 4, 3⟩, none⟩ : Ret Nat).self = some ⟨some 0, some 2, 4, 3⟩) :=
  ⟨by decide, by decide, by decide, by decide, by decide,
    frame_of_set_and_get.1
      [some ⟨some 1, none, 5⟩, some ⟨some 2, some 0, 6⟩, some ⟨none, some 1, 7⟩]
      ⟨some 0, some 2, 4, 3⟩ [0, 1, 2] [5, 6, 7] 1 66 (by decide) (by decide) (by decide)
      (by decide) (by decide),
    by decide,
    frame_of_set_and_get.2.1
      [some ⟨some 1, none, 5⟩, some ⟨some 2, some 0, 6⟩, some ⟨none, some 1, 7⟩]
      (some ⟨some 0, some 2, 4, 3⟩) true 5 _ (by decide)⟩

/-- C19, construction: for every element size `s`, `ll_new(s)` yields a
list with head and tail unset, `len == 0` and `data_size == s`, on which
`ll_is_empty` is true; and no public operation changes `data_size`: after
any single call of `ll_push`, `ll_push_front`, `ll_pop`, `ll_pop_front`,
`ll_insert`, `ll_set`, `ll_get` or `ll_remove`, with any arguments and in
any state, and after any sequence of such calls, the header is still there
with the `data_size` it had. -/
theorem new_list_is_empty_and_size_is_fixed :
    (∀ s : Nat, ∃ l, ll_new s = some l ∧ l.head = none ∧ l.tail = none ∧ l.len = 0 ∧
      l.data_size = s ∧ ll_is_empty (some l) = true) ∧
    (∀ (h : Heap) (l : ll_LinkedList) (elem : Option Nat) (out_elem : Bool) (index : Int)
        (r : Ret Nat),
      (ll_push h (some l) elem = some r ∨ ll_push_front h (some l) elem = some r ∨
        ll_pop h (some l) out_elem = some r ∨ ll_pop_front h (some l) out_elem = some r ∨
        ll_insert h (some l) index elem = some r ∨ ll_set h (some l) index elem = some r ∨
        ll_get h (some l) out_elem index = some r ∨
        ll_remove h (some l) out_elem index = some r) →
      ∃ l1, r.self = some l1 ∧ l1.data_size = l.data_size) ∧
    (∀ (ops : List Op) (h : Heap) (l : ll_LinkedList) (rs : List (ll_Error × Option Nat))
        (h1 : Heap) (s1 : Option ll_LinkedList),
      run_ops h (some l) ops = some (rs, h1, s1) →
      ∃ l1, s1 = some l1 ∧ l1.data_size = l.data_size) := by
  refine ⟨?_, ?_, ?_⟩
  · intro s
    exact ⟨⟨none, none, s, 0⟩, rfl, rfl, rfl, rfl, rfl, rfl⟩
  · intro h l elem out_elem index r hr
    rcases hr with hr | hr | hr | hr | hr | hr | hr | hr
    · exact (ll_push_keeps hr).1
    · exact (ll_push_front_keeps hr).1
    · exact ll_pop_keeps hr
    · exact ll_pop_front_keeps hr
    · exact (ll_insert_keeps hr).1
    · exact ll_set_keeps hr
    · exact ll_get_keeps hr
    · exact ll_remove_keeps hr
  · intro ops h l rs h1 s1 hr
    exact run_ops_keeps ops h l rs h1 s1 hr

/-- Witness of C19: a run of calls on a list of 4-byte elements. -/
theorem new_list_is_empty_and_size_is_fixed_witness :
    run_ops [] (some ⟨none, none, 4, 0⟩) [Op.push 10, Op.push_front 20, Op.set 0 5, Op.pop] =
      some ([(LL_OK, none), (LL_OK, none), (LL_OK, none), (LL_OK, some 10)],
        [none, some ⟨none, none, 5⟩], some ⟨some 1, some 1, 4, 1⟩) ∧
    ∃ l1, some (⟨some 1, some 1, 4, 1⟩ : ll_LinkedList) = some l1 ∧
      l1.data_size = (⟨none, none, 4, 0⟩ : ll_LinkedList).data_size :=
  ⟨by decide,
    new_list_is_empty_and_size_is_fixed.2.2
      [Op.push 10, Op.push_front 20, Op.set 0 5, Op.pop] [] ⟨none, none, 4, 0⟩
      [(LL_OK, none), (LL_OK, none), (LL_OK, none), (LL_OK, some 10)]
      [none, some ⟨none, none, 5⟩] (some ⟨some 1, some 1, 4, 1⟩) (by decide)⟩

/-- C20, the claim as stated fails on a list of `2^31` elements: `2^31`
calls of `ll_push` on a fresh list of 4-byte elements all return `LL_OK` and
leave a non-empty well-formed list with `len == 2^31`; the cast
`(int)self->len` is then negative, and `ll_insert(0, v)` returns
`LL_ERROR_INDEX_OUT_OF_BOUNDS` and changes nothing while `ll_push_front(v)`
returns `LL_OK` and links a new head. -/
theorem insert_at_zero_differs_from_push_front_on_list_of_2_pow_31 :
    ∃ h l as, run_ops [] (ll_new 4) ((List.replicate 2147483648 7).map Op.push) =
        some (List.replicate 2147483648 (LL_OK, none), h, some l) ∧
      WellFormed h l as (List.replicate 2147483648 7) ∧ l.len = 2147483648 ∧
      0 < l.len ∧
      ll_insert h (some l) 0 (some 5) =
        some ⟨LL_ERROR_INDEX_OUT_OF_BOUNDS, h, some l, none⟩ ∧
      (∃ h1 l1, ll_push_front h (some l) (some 5) = some ⟨LL_OK, h1, some l1, none⟩ ∧
        l1.len = l.len + 1) ∧
      ll_insert h (some l) 0 (some 5) ≠ ll_push_front h (some l) (some 5) := by
  obtain ⟨h, l, as, hr, w, hl, hd⟩ := pushes_reach 2147483648 (by decide)
  have hne : ll_is_empty (some l) = false := not_empty_of_len_pos (by omega)
  obtain ⟨-, -, -, -, hi⟩ :=
    refused_of_long (h := h) hne (by omega) (by omega) 0 (by decide) 5 true
  obtain ⟨h1, l1, hp, -, -, hl1⟩ :=
    ll_push_front_WellFormed w (by rw [hd]; decide) (by omega) 5
  refine ⟨h, l, as, hr, w, hl, by omega, hi, ⟨h1, l1, hp, hl1⟩, ?_⟩
  rw [hi, hp]
  intro e
  have := congrArg Ret.status (Option.some.inj e)
  exact ll_Error.noConfusion this

/-- C20 as amended, insert at the ends is push.  For every list with
`len < 2^31` and every element pointer, `ll_insert(len, elem)` has the
outcome of `ll_push(elem)` (status, memory, header), also on the empty
list, and when `len > 0`, `ll_insert(0, elem)` has the outcome of
`ll_push_front(elem)`; on a well-formed list whose elements fit the node
blocks that common outcome is an `LL_OK` return. -/
theorem insert_at_ends_is_push :
    (∀ (h : Heap) (l : ll_LinkedList) (elem : Option Nat), l.len < 2147483648 →
      ll_insert h (some l) (l.len : Int) elem = ll_push h (some l) elem) ∧
    (∀ (h : Heap) (l : ll_LinkedList) (elem : Option Nat), 0 < l.len → l.len < 2147483648 →
      ll_insert h (some l) 0 elem = ll_push_front h (some l) elem) ∧
    (∀ (h : Heap) (l : ll_LinkedList) (as xs : List Nat) (v : Nat),
      WellFormed h l as xs → copy_in_block l.data_size = true → l.len < 2147483648 →
        ∃ r, ll_insert h (some l) (l.len : Int) (some v) = some r ∧
          ll_push h (some l) (some v) = some r ∧ r.status = LL_OK) ∧
    (∀ (h : Heap) (l : ll_LinkedList) (as xs : List Nat) (v : Nat),
      WellFormed h l as xs → copy_in_block l.data_size = true → 0 < l.len →
        l.len < 2147483648 →
        ∃ r, ll_insert h (some l) 0 (some v) = some r ∧
          ll_push_front h (some l) (some v) = some r ∧ r.status = LL_OK) := by
  refine ⟨?_, ?_, ?_, ?_⟩
  · intro h l elem hb
    exact ll_insert_len_eq_push h l elem hb
  · intro h l elem hpos hb
    exact ll_insert_zero_eq_push_front h l elem hpos hb
  · intro h l as xs v w hds hb
    obtain ⟨h1, l1, hp, -, -, -⟩ := ll_push_WellFormed w hds (by omega) v
    exact ⟨_, (ll_insert_len_eq_push h l (some v) hb).trans hp, hp, rfl⟩
  · intro h l as xs v w hds hpos hb
    obtain ⟨h1, l1, hp, -, -, -⟩ := ll_push_front_WellFormed w hds (by omega) v
    exact ⟨_, (ll_insert_zero_eq_push_front h l (some v) hpos hb).trans hp, hp, rfl⟩

/-- Witness of C20 as amended on the list `[10, 20]`. -/
theorem insert_at_ends_is_push_witness :
    WellFormed [some ⟨some 1, none, 10⟩, some ⟨none, some 0, 20⟩] ⟨some 0, some 1, 4, 2⟩
      [0, 1] [10, 20] ∧
    copy_in_block 4 = true ∧ (0 : Nat) < 2 ∧ (2 : Nat) < 2147483648 ∧
    (∃ r, ll_insert [some ⟨some 1, none, 10⟩, some ⟨none, some 0, 20⟩]
          (some ⟨some 0, some 1, 4, 2⟩) ((2 : Nat) : Int) (some 30) = some r ∧
        ll_push [some ⟨some 1, none, 10⟩, some ⟨none, some 0, 20⟩]
          (some ⟨some 0, some 1, 4, 2⟩) (some 30) = some r ∧ r.status = LL_OK) ∧
    (∃ r, ll_insert [some ⟨some 1, none, 10⟩, some ⟨none, some 0, 20⟩]
          (some ⟨some 0, some 1, 4, 2⟩) 0 (some 30) = some r ∧
        ll_push_front [some ⟨some 1, none, 10⟩, some ⟨none, some 0, 20⟩]
          (some ⟨some 0, some 1, 4, 2⟩) (some 30) = some r ∧ r.status = LL_OK) :=
  ⟨by decide, by decide, by decide, by decide,
    insert_at_ends_is_push.2.2.1 [some ⟨some 1, none, 10⟩, some ⟨none, some 0, 20⟩]
      ⟨some 0, some 1, 4, 2⟩ [0, 1] [10, 20] 30 (by decide) (by decide) (by decide),
    insert_at_ends_is_push.2.2.2 [some ⟨some 1, none, 10⟩, some ⟨none, some 0, 20⟩]
      ⟨some 0, some 1, 4, 2⟩ [0, 1] [10, 20] 30 (by decide) (by decide) (by decide)
      (by decide)⟩

/-- C21, the claim as stated fails on a list of `2^31` elements: `2^31`
calls of `ll_push` on a fresh list of 4-byte elements all return `LL_OK` and
leave a well-formed list with `len == 2^31 >= 2`; the cast `(int)self->len`
is then negative, and `ll_remove(out, 0)` returns
`LL_ERROR_INDEX_OUT_OF_BOUNDS` and changes nothing while `ll_pop_front(out)`
returns `LL_OK` and unlinks the head. -/
theorem remove_at_zero_differs_from_pop_front_on_list_of_2_pow_31 :
    ∃ h l as, run_ops [] (ll_new 4) ((List.replicate 2147483648 7).map Op.push) =
        some (List.replicate 2147483648 (LL_OK, none), h, some l) ∧
      WellFormed h l as (List.replicate 2147483648 7) ∧ l.len = 2147483648 ∧
      2 ≤ l.len ∧
      ll_remove h (some l) true 0 =
        some ⟨LL_ERROR_INDEX_OUT_OF_BOUNDS, h, some l, none⟩ ∧
      (∃ h1 l1 x, ll_pop_front h (some l) true = some ⟨LL_OK, h1, some l1, some x⟩ ∧
        l1.len = l.len - 1) ∧
      ll_remove h (some l) true 0 ≠ ll_pop_front h (some l) true := by
  obtain ⟨h, l, as, hr, w, hl, hd⟩ := pushes_reach 2147483648 (by decide)
  have hne : ll_is_empty (some l) = false := not_empty_of_len_pos (by omega)
  obtain ⟨-, -, hrm, -, -⟩ :=
    refused_of_long (h := h) hne (by omega) (by omega) 0 (by decide) 5 true
  have hpa : 0 < as.length := by
    have := w.2.2.2.2.1
    omega
  obtain ⟨h1, l1, x, hp, -, -, -, hl1⟩ :=
    ll_pop_front_WellFormed w hpa (by omega) true (fun _ => by rw [hd]; decide)
  refine ⟨h, l, as, hr, w, hl, by omega, hrm, ⟨h1, l1, x, hp, hl1⟩, ?_⟩
  rw [hrm, hp]
  intro e
  have := congrArg Ret.status (Option.some.inj e)
  exact ll_Error.noConfusion this

/-- C21 as amended, remove at the ends is pop.  For every list with
`len < 2^31`: when `len >= 1`, `ll_remove(out, len - 1)` has the outcome of
`ll_pop(out)` (status, memory, header, value stored in `out`), also on a
one-element list and with `out` null or not; when `len >= 2`,
`ll_remove(out, 0)` has the outcome of `ll_pop_front(out)`; on a well-formed
list that common outcome is an `LL_OK` return, provided the elements fit the
node blocks when `out` is not null. -/
theorem remove_at_ends_is_pop :
    (∀ (h : Heap) (l : ll_LinkedList) (out_elem : Bool), 0 < l.len → l.len < 2147483648 →
      ll_remove h (some l) out_elem ((l.len : Int) - 1) = ll_pop h (some l) out_elem) ∧
    (∀ (h : Heap) (l : ll_LinkedList) (out_elem : Bool), 2 ≤ l.len → l.len < 2147483648 →
      ll_remove h (some l) out_elem 0 = ll_pop_front h (some l) out_elem) ∧
    (∀ (h : Heap) (l : ll_LinkedList) (as xs : List Nat) (out_elem : Bool),
      WellFormed h l as xs → (out_elem = true → copy_in_block l.data_size = true) →
        0 < l.len → l.len < 2147483648 →
        ∃ r, ll_remove h (some l) out_elem ((l.len : Int) - 1) = some r ∧
          ll_pop h (some l) out_elem = some r ∧ r.status = LL_OK) ∧
    (∀ (h : Heap) (l : ll_LinkedList) (as xs : List Nat) (out_elem : Bool),
      WellFormed h l as xs → (out_elem = true → copy_in_block l.data_size = true) →
        2 ≤ l.len → l.len < 2147483648 →
        ∃ r, ll_remove h (some l) out_elem 0 = some r ∧
          ll_pop_front h (some l) out_elem = some r ∧ r.status = LL_OK) := by
  refine ⟨?_, ?_, ?_, ?_⟩
  · intro h l o hpos hb
    exact ll_remove_last_eq_pop h l o hpos hb
  · intro h l o hpos hb
    exact ll_remove_zero_eq_pop_front h l o hpos hb
  · intro h l as xs o w hds hpos hb
    have hpa : 0 < as.length := by
      have := w.2.2.2.2.1
      omega
    obtain ⟨h1, l1, x, hp, -, -, -, -⟩ := ll_pop_WellFormed w hpa (by omega) o hds
    exact ⟨_, (ll_remove_last_eq_pop h l o hpos hb).trans hp, hp, rfl⟩
  · intro h l as xs o w hds hpos hb
    have hpa : 0 < as.length := by
      have := w.2.2.2.2.1
      omega
    obtain ⟨h1, l1, x, hp, -, -, -, -⟩ := ll_pop_front_WellFormed w hpa (by omega) o hds
    exact ⟨_, (ll_remove_zero_eq_pop_front h l o hpos hb).trans hp, hp, rfl⟩

/-- Witness of C21 as amended on the list `[10, 20]`. -/
theorem remove_at_ends_is_pop_witness :
    WellFormed [some ⟨some 1, none, 10⟩, some ⟨none, some 0, 20⟩] ⟨some 0, some 1, 4, 2⟩
      [0, 1] [10, 20] ∧
    (true = true → copy_in_block 4 = true) ∧ (0 : Nat) < 2 ∧ (2 : Nat) ≤ 2 ∧ (2 : Nat) < 2147483648 ∧
    (∃ r, ll_remove [some ⟨some 1, none, 10⟩, some ⟨none, some 0, 20⟩]
          (some ⟨some 0, some 1, 4, 2⟩) true (((2 : Nat) : Int) - 1) = some r ∧
        ll_pop [some ⟨some 1, none, 10⟩, some ⟨none, some 0, 20⟩]
          (some ⟨some 0, some 1, 4, 2⟩) true = some r ∧ r.status = LL_OK) ∧
    (∃ r, ll_remove [some ⟨some 1, none, 10⟩, some ⟨none, some 0, 20⟩]
          (some ⟨some 0, some 1, 4, 2⟩) true 0 = some r ∧
        ll_pop_front [some ⟨some 1, none, 10⟩, some ⟨none, some 0, 20⟩]
          (some ⟨some 0, some 1, 4, 2⟩) true = some r ∧ r.status = LL_OK) :=
  ⟨by decide, by decide, by decide, by decide, by decide,
    remove_at_ends_is_pop.2.2.1 [some ⟨some 1, none, 10⟩, some ⟨none, some 0, 20⟩]
      ⟨some 0, some 1, 4, 2⟩ [0, 1] [10, 20] true (by decide) (by decide) (by decide)
      (by decide),
    remove_at_ends_is_pop.2.2.2 [some ⟨some 1, none, 10⟩, some ⟨none, some 0, 20⟩]
      ⟨some 0, some 1, 4, 2⟩ [0, 1] [10, 20] true (by decide) (by decide) (by decide)
      (by decide)⟩

/-- C22, the claim as stated fails where `res_len` equals the length of the
rendering.  The list `[10, 20]` renders as `[10, 20]`, 8 characters, so
`res_len = 8` is below 8 + 1; yet on an array of 9 characters
`ll_display_u32` returns `LL_OK`, not `LL_ERROR_INSUFFICIENT_SIZE`, and the
terminating NUL has been stored at offset 8, that is at offset `res_len`.  On
an array of just 8 characters that store falls outside the array, and the
call has no defined outcome. -/
theorem display_u32_ok_without_room_for_NUL :
    WellFormed [some ⟨some 1, none, 10⟩, some ⟨none, some 0, 20⟩] ⟨some 0, some 1, 4, 2⟩
      [0, 1] [10, 20] ∧
    spec_rendering [10, 20] = ['[', '1', '0', ',', ' ', '2', '0', ']'] ∧
    (8 : Int) < ((spec_rendering [10, 20]).length : Int) + 1 ∧
    ll_display_u32 [some ⟨some 1, none, 10⟩, some ⟨none, some 0, 20⟩]
        (some ⟨some 0, some 1, 4, 2⟩) (List.replicate 9 'x') 8 =
      some ⟨LL_OK, [some ⟨some 1, none, 10⟩, some ⟨none, some 0, 20⟩],
        some ⟨some 0, some 1, 4, 2⟩, some ['[', '1', '0', ',', ' ', '2', '0', ']', NUL]⟩ ∧
    LL_OK ≠ LL_ERROR_INSUFFICIENT_SIZE ∧
    (List.replicate 9 'x')[8]? = some 'x' ∧
    ['[', '1', '0', ',', ' ', '2', '0', ']', NUL][8]? = some NUL ∧ 'x' ≠ NUL ∧
    ll_display_u32 [some ⟨some 1, none, 10⟩, some ⟨none, some 0, 20⟩]
        (some ⟨some 0, some 1, 4, 2⟩) (List.replicate 8 'x') 8 = none := by
  decide

/-- C22 as amended.  For a well-formed list of values below `2^31`, with `R`
the length of the rendering `[` + the elements from head to tail in decimal
separated by `, ` + `]` (the terminating NUL not counted): if `res_len < R`,
on an array of at least `res_len` characters, `ll_display_u32` returns
`LL_ERROR_INSUFFICIENT_SIZE`; if `R <= res_len`, on an array of at least
`res_len + 1` characters, it returns `LL_OK`, the array holds exactly the
rendering followed by NUL, it has its old length, every character beyond
offset `res_len` is as before, and so is the one at offset `res_len` unless
`res_len = R`; and whenever it returns `LL_OK`, on any array, `R <= res_len`.
List and memory are never changed. -/
theorem display_u32_size_check (h : Heap) (l : ll_LinkedList) (as xs : List Nat)
    (res : List Char) (res_len : Int)
    (w : WellFormed h l as xs) (hv : ∀ x ∈ xs, x < 2147483648) :
    (res_len < ((spec_rendering xs).length : Int) → res_len ≤ (res.length : Int) →
      ∃ buf, ll_display_u32 h (some l) res res_len =
        some ⟨LL_ERROR_INSUFFICIENT_SIZE, h, some l, some buf⟩) ∧
    (((spec_rendering xs).length : Int) ≤ res_len → res_len < (res.length : Int) →
      ∃ rest, ll_display_u32 h (some l) res res_len =
          some ⟨LL_OK, h, some l, some (spec_rendering xs ++ NUL :: rest)⟩ ∧
        c_string (spec_rendering xs ++ NUL :: rest) = spec_rendering xs ∧
        (spec_rendering xs ++ NUL :: rest).length = res.length ∧
        (spec_rendering xs ++ NUL :: rest).drop (res_len.toNat + 1) =
          res.drop (res_len.toNat + 1) ∧
        (((spec_rendering xs).length : Int) < res_len →
          (spec_rendering xs ++ NUL :: rest).drop res_len.toNat = res.drop res_len.toNat)) ∧
    (∀ r, ll_display_u32 h (some l) res res_len = some r → r.status = LL_OK →
      ((spec_rendering xs).length : Int) ≤ res_len) := by
  have hR : (spec_rendering xs).length = (body_text xs).length + 2 := by
    rw [spec_rendering_eq]
    simp
  refine ⟨?_, ?_, ?_⟩
  · intro hfit hb
    exact ll_display_u32_no_fit w hv res res_len hfit hb
  · intro hfit hb
    have hfit1 : (body_text xs).length + 2 ≤ res_len.toNat := by
      rw [hR] at hfit
      omega
    have hb1 : res_len.toNat < res.length := by omega
    have hbuf := put_bracket_eq res res_len.toNat (body_text xs) hfit1 hb1
    rw [← spec_rendering_eq] at hbuf
    refine ⟨((put res 0 ('[' :: List.replicate (res_len.toNat - 1) NUL)).drop
      ((body_text xs).length + 3)), ?_,
      c_string_append_NUL _ _ (spec_rendering_ne_NUL xs), ?_, ?_, ?_⟩
    · rw [ll_display_u32_fit w hv res res_len hfit hb, hbuf]
    · rw [← hbuf, put_length, put_length]
      · simp only [List.length_cons, List.length_replicate]
        omega
      · rw [put_length]
        · simp only [List.length_append, List.length_cons, List.length_nil]
          omega
        · simp only [List.length_cons, List.length_replicate]
          omega
    · rw [← hbuf]
      exact drop_after_display res res_len.toNat (body_text xs) (res_len.toNat + 1) hfit1 hb1
        (by omega) (by omega)
    · intro hlt
      rw [← hbuf]
      exact drop_after_display res res_len.toNat (body_text xs) res_len.toNat hfit1 hb1
        (by omega) (by rw [hR] at hlt; omega)
  · intro r hr hok
    by_contra hlt
    have hlt1 : res_len < ((spec_rendering xs).length : Int) := by omega
    by_cases hb : res_len ≤ (res.length : Int)
    · obtain ⟨buf, hbuf⟩ := ll_display_u32_no_fit w hv res res_len hlt1 hb
      rw [hbuf] at hr
      cases hr
      exact ll_Error.noConfusion hok
    · rw [ll_display_u32_outside w res res_len (by omega)] at hr
      exact Option.noConfusion hr

/-- Witness of C22 as amended: the list `[10, 20]` (rendering of 8
characters) with `res_len = 10` on an array of 12 characters. -/
theorem display_u32_size_check_witness :
    WellFormed [some ⟨some 1, none, 10⟩, some ⟨none, some 0, 20⟩] ⟨some 0, some 1, 4, 2⟩
      [0, 1] [10, 20] ∧
    (∀ x ∈ [10, 20], x < 2147483648) ∧
    ((spec_rendering [10, 20]).length : Int) ≤ 10 ∧
    (10 : Int) < ((List.replicate 12 'x').length : Int) ∧
    ∃ rest, ll_display_u32 [some ⟨some 1, none, 10⟩, some ⟨none, some 0, 20⟩]
          (some ⟨some 0, some 1, 4, 2⟩) (List.replicate 12 'x') 10 =
        some ⟨LL_OK, [some ⟨some 1, none, 10⟩, some ⟨none, some 0, 20⟩],
          some ⟨some 0, some 1, 4, 2⟩, some (spec_rendering [10, 20] ++ NUL :: rest)⟩ ∧
      c_string (spec_rendering [10, 20] ++ NUL :: rest) = spec_rendering [10, 20] ∧
      (spec_rendering [10, 20] ++ NUL :: rest).length = (List.replicate 12 'x').length ∧
      (spec_rendering [10, 20] ++ NUL :: rest).drop ((10 : Int).toNat + 1) =
        (List.replicate 12 'x').drop ((10 : Int).toNat + 1) ∧
      (((spec_rendering [10, 20]).length : Int) < 10 →
        (spec_rendering [10, 20] ++ NUL :: rest).drop (10 : Int).toNat =
          (List.replicate 12 'x').drop (10 : Int).toNat) :=
  ⟨by decide, by decide, by decide, by decide,
    (display_u32_size_check [some ⟨some 1, none, 10⟩, some ⟨none, some 0, 20⟩]
      ⟨some 0, some 1, 4, 2⟩ [0, 1] [10, 20] (List.replicate 12 'x') 10
      (by decide) (by decide)).2.1 (by decide) (by decide)⟩

/-- C23, the claim as stated fails on the state it names: with `len == 0`
while head and tail both refer to one node without links, `ll_pop` and
`ll_pop_front` pass the emptiness and head/tail checks, copy the element to
`out`, clear head and tail, and only then find `len <= 0` and return
`LL_ERROR_INTERNAL`, so head and tail are no longer what they were. -/
theorem pop_clears_head_and_tail_then_fails :
    ll_pop [some ⟨none, none, 7⟩] (some ⟨some 0, some 0, 4, 0⟩) true =
      some ⟨LL_ERROR_INTERNAL, [some ⟨none, none, 7⟩], some ⟨none, none, 4, 0⟩, some 7⟩ ∧
    ll_pop_front [some ⟨none, none, 7⟩] (some ⟨some 0, some 0, 4, 0⟩) true =
      some ⟨LL_ERROR_INTERNAL, [some ⟨none, none, 7⟩], some ⟨none, none, 4, 0⟩, some 7⟩ ∧
    ll_pop [some ⟨none, none, 7⟩] (some ⟨some 0, some 0, 4, 0⟩) false =
      some ⟨LL_ERROR_INTERNAL, [some ⟨none, none, 7⟩], some ⟨none, none, 4, 0⟩, none⟩ ∧
    ll_pop_front [some ⟨none, none, 7⟩] (some ⟨some 0, some 0, 4, 0⟩) false =
      some ⟨LL_ERROR_INTERNAL, [some ⟨none, none, 7⟩], some ⟨none, none, 4, 0⟩, none⟩ ∧
    LL_ERROR_INTERNAL ≠ LL_OK ∧
    (⟨none, none, 4, 0⟩ : ll_LinkedList).head ≠ (⟨some 0, some 0, 4, 0⟩ : ll_LinkedList).head ∧
    (⟨none, none, 4, 0⟩ : ll_LinkedList).tail ≠
      (⟨some 0, some 0, 4, 0⟩ : ll_LinkedList).tail := by
  decide

/-- C23 as amended.  For every list state, also one that violates the
invariants, and every `out` argument: if `ll_pop` or `ll_pop_front` returns
a result other than `LL_OK`, then `len` is the same as before the call, and
when `len != 0`, or the list is empty (head and tail unset, `len` 0), head,
tail, `len` and every node are the same as before the call. -/
theorem pop_failure_leaves_list (h : Heap) (l : ll_LinkedList) (out_elem : Bool)
    (r : Ret Nat)
    (hr : ll_pop h (some l) out_elem = some r ∨ ll_pop_front h (some l) out_elem = some r)
    (hst : r.status ≠ LL_OK) :
    (∃ l1, r.self = some l1 ∧ l1.len = l.len) ∧
    ((l.len ≠ 0 ∨ ll_is_empty (some l) = true) → r.self = some l ∧ r.heap = h) := by
  rcases hr with hr | hr
  · exact ⟨ll_pop_failure_len hr hst, fun hl => ll_pop_failure_frame hl hr hst⟩
  · exact ⟨ll_pop_front_failure_len hr hst, fun hl => ll_pop_front_failure_frame hl hr hst⟩

/-- Witness of C23 as amended: `len == 1` with a head and no tail; `ll_pop`
returns `LL_ERROR_INTERNAL` and changes nothing. -/
theorem pop_failure_leaves_list_witness :
    ll_pop [some ⟨none, none, 7⟩] (some ⟨some 0, none, 4, 1⟩) true =
      some ⟨LL_ERROR_INTERNAL, [some ⟨none, none, 7⟩], some ⟨some 0, none, 4, 1⟩, none⟩ ∧
    LL_ERROR_INTERNAL ≠ LL_OK ∧
    (∃ l1, some (⟨some 0, none, 4, 1⟩ : ll_LinkedList) = some l1 ∧ l1.len = 1) ∧
    (((1 : Nat) ≠ 0 ∨ ll_is_empty (some ⟨some 0, none, 4, 1⟩) = true) →
      some (⟨some 0, none, 4, 1⟩ : ll_LinkedList) = some ⟨some 0, none, 4, 1⟩ ∧
        [some (⟨none, none, 7⟩ : ll_LinkedListNode)] = [some ⟨none, none, 7⟩]) :=
  ⟨by decide, by decide,
    pop_failure_leaves_list [some ⟨none, none, 7⟩] ⟨some 0, none, 4, 1⟩ true
      ⟨LL_ERROR_INTERNAL, [some ⟨none, none, 7⟩], some ⟨some 0, none, 4, 1⟩, none⟩
      (Or.inl (by decide)) (by decide)⟩

/-- C24, the claim as stated fails on a list of `2^32 - 1` elements:
`2^32 - 1` calls of `ll_push` on a fresh list of 4-byte elements all return
`LL_OK` and leave a well-formed list with `len == 2^32 - 1`; one more
`ll_push` returns `LL_OK` and links a new tail, but `len++` wraps to 0, so
the list has `len == 0` with head and tail set and is a well-formed chain
for no sequence of nodes. -/
theorem push_on_list_of_2_pow_32_minus_1_breaks_the_chain :
    ∃ h l as, run_ops [] (ll_new 4) ((List.replicate 4294967295 7).map Op.push) =
        some (List.replicate 4294967295 (LL_OK, none), h, some l) ∧
      WellFormed h l as (List.replicate 4294967295 7) ∧ l.len = 4294967295 ∧
      ∃ h1 l1, ll_push h (some l) (some 7) = some ⟨LL_OK, h1, some l1, none⟩ ∧
        l1.len = 0 ∧ l1.head ≠ none ∧ l1.tail ≠ none ∧
        ∀ as1 xs1, ¬ WellFormed h1 l1 as1 xs1 := by
  obtain ⟨h, l, as, hr, w, hl, hd⟩ := pushes_reach 4294967295 (by decide)
  obtain ⟨h1, l1, hp, -, -, hl1, hh1, ht1⟩ := ll_push_chain w (by rw [hd]; decide) 7
  have hz : l1.len = 0 := by
    rw [hl1, hl]
    decide
  have ht : l1.tail ≠ none := by
    rw [ht1]
    simp
  exact ⟨h, l, as, hr, w, hl, h1, l1, hp, hz, hh1, ht,
    fun as1 xs1 => not_WellFormed_of_len_zero hz ht as1 xs1⟩

/-- C24 as amended, well-formedness is preserved: if the list is a
well-formed chain (`len` being a `u32`), then after any call of `ll_pop`,
`ll_pop_front`, `ll_set`, `ll_remove`, or `ll_insert` at index 0 or at index
`len` that returns `LL_OK`, with any arguments, and after any call of
`ll_push` or `ll_push_front` that returns `LL_OK` while `len < 2^32 - 1`,
the header is still there and the list is again a well-formed chain.  A call
returns only where its copy of the element stays inside the node's block. -/
theorem well_formed_after_successful_call (h : Heap) (l : ll_LinkedList) (as xs : List Nat)
    (w : WellFormed h l as xs) (hu : l.len < 4294967296)
    (elem : Option Nat) (out_elem : Bool) (index : Int) (r : Ret Nat)
    (hr : (l.len + 1 < 4294967296 ∧
        (ll_push h (some l) elem = some r ∨ ll_push_front h (some l) elem = some r)) ∨
      ll_pop h (some l) out_elem = some r ∨ ll_pop_front h (some l) out_elem = some r ∨
      ll_set h (some l) index elem = some r ∨ ll_remove h (some l) out_elem index = some r ∨
      ll_insert h (some l) 0 elem = some r ∨
      ll_insert h (some l) (l.len : Int) elem = some r)
    (hok : r.status = LL_OK) :
    ∃ l1 as1 xs1, r.self = some l1 ∧ WellFormed r.heap l1 as1 xs1 :=
  w.after_call hu elem out_elem index r hr hok

/-- Witness of C24 as amended: `ll_remove` at index 1 of `[5, 6, 7]`. -/
theorem well_formed_after_successful_call_witness :
    WellFormed [some ⟨some 1, none, 5⟩, some ⟨some 2, some 0, 6⟩, some ⟨none, some 1, 7⟩]
      ⟨some 0, some 2, 4, 3⟩ [0, 1, 2] [5, 6, 7] ∧
    (3 : Nat) < 4294967296 ∧
    ll_remove [some ⟨some 1, none, 5⟩, some ⟨some 2, some 0, 6⟩, some ⟨none, some 1, 7⟩]
        (some ⟨some 0, some 2, 4, 3⟩) true 1 =
      some ⟨LL_OK, [some ⟨some 2, none, 5⟩, none, some ⟨none, some 0, 7⟩],
        some ⟨some 0, some 2, 4, 2⟩, some 6⟩ ∧
    ∃ l1 as1 xs1, some (⟨some 0, some 2, 4, 2⟩ : ll_LinkedList) = some l1 ∧
      WellFormed [some ⟨some 2, none, 5⟩, none, some ⟨none, some 0, 7⟩] l1 as1 xs1 :=
  ⟨by decide, by decide, by decide,
    well_formed_after_successful_call
      [some ⟨some 1, none, 5⟩, some ⟨some 2, some 0, 6⟩, some ⟨none, some 1, 7⟩]
      ⟨some 0, some 2, 4, 3⟩ [0, 1, 2] [5, 6, 7] (by decide) (by decide) none true 1
      ⟨LL_OK, [some ⟨some 2, none, 5⟩, none, some ⟨none, some 0, 7⟩],
        some ⟨some 0, some 2, 4, 2⟩, some 6⟩
      (Or.inr (Or.inr (Or.inr (Or.inr (Or.inl (by decide)))))) rfl⟩

/-- C25, error precedence on the empty list: with head and tail unset and
`len` 0 and with non-null arguments, `ll_get` and `iterate_to` return
`LL_ERROR_EMPTY_LINKED_LIST` for every index, while `ll_set` returns
`LL_ERROR_INDEX_OUT_OF_BOUNDS` for every index, hence never
`LL_ERROR_EMPTY_LINKED_LIST`; memory and header stay as they were. -/
theorem errors_on_the_empty_list (h : Heap) (l : ll_LinkedList)
    (hemp : ll_is_empty (some l) = true) (index : Int) (v : Nat) :
    ll_get h (some l) true index = some ⟨LL_ERROR_EMPTY_LINKED_LIST, h, some l, none⟩ ∧
    iterate_to h (some l) true index = some ⟨LL_ERROR_EMPTY_LINKED_LIST, h, some l, none⟩ ∧
    ll_set h (some l) index (some v) =
      some ⟨LL_ERROR_INDEX_OUT_OF_BOUNDS, h, some l, none⟩ ∧
    LL_ERROR_INDEX_OUT_OF_BOUNDS ≠ LL_ERROR_EMPTY_LINKED_LIST := by
  have hl : l.len = 0 := by
    unfold ll_is_empty at hemp
    simp at hemp
    exact hemp.2
  have hbd : index < 0 ∨ index ≥ toInt l.len := by
    rw [hl]
    have : toInt 0 = 0 := by decide
    rw [this]
    omega
  refine ⟨?_, ?_, ?_, by decide⟩
  · simp [ll_get, hemp]
  · simp [iterate_to, hemp]
  · simp [ll_set, get_bounds_some, EXPECT_S, hbd]

/-- Witness of C25 on a fresh list, at index 0. -/
theorem errors_on_the_empty_list_witness :
    ll_is_empty (some ⟨none, none, 4, 0⟩) = true ∧
    ll_get [] (some ⟨none, none, 4, 0⟩) true 0 =
      some ⟨LL_ERROR_EMPTY_LINKED_LIST, [], some ⟨none, none, 4, 0⟩, none⟩ ∧
    iterate_to [] (some ⟨none, none, 4, 0⟩) true 0 =
      some ⟨LL_ERROR_EMPTY_LINKED_LIST, [], some ⟨none, none, 4, 0⟩, none⟩ ∧
    ll_set [] (some ⟨none, none, 4, 0⟩) 0 (some 9) =
      some ⟨LL_ERROR_INDEX_OUT_OF_BOUNDS, [], some ⟨none, none, 4, 0⟩, none⟩ ∧
    LL_ERROR_INDEX_OUT_OF_BOUNDS ≠ LL_ERROR_EMPTY_LINKED_LIST :=
  ⟨by decide, errors_on_the_empty_list [] ⟨none, none, 4, 0⟩ (by decide) 0 9⟩

/-- C26, evaluated: a node is requested with `sizeof(struct ll_LinkedListNode)`
bytes whatever `data_size` is, the flexible member `data` starts at that very
offset, and so the copy of `data_size` bytes ends `data_size` bytes past the
allocation; with 8-byte pointers and `data_size == 4` the allocation has 16
bytes and the copy ends at byte 20. -/
theorem node_allocation_has_no_room_for_data :
    (∀ ptr_size data_size : Nat,
      node_alloc_bytes ptr_size data_size = sizeof_node ptr_size ∧
      node_copy_end ptr_size data_size = node_alloc_bytes ptr_size data_size + data_size ∧
      (0 < data_size → node_alloc_bytes ptr_size data_size < node_copy_end ptr_size data_size)) ∧
    node_alloc_bytes 8 4 = 16 ∧ node_copy_end 8 4 = 20 := by
  refine ⟨fun p d => ⟨rfl, rfl, fun hd => ?_⟩, rfl, rfl⟩
  unfold node_copy_end node_alloc_bytes offsetof_data sizeof_node
  omega

end LinkedList
